import Mathlib

/-!
Verification of the chess-variant rules engine (10×10 board, fairy pieces).

This file is a shallow embedding, in Lean 4, of the Python sources
`core/coords.py`, `core/piece.py`, `core/fairy.py`, `core/piece_factory.py`,
`core/move.py`, `core/board.py` and `core/game.py`.  Every definition below is
translated from the corresponding Python function; in-place mutation of the
board is modelled by explicit state passing, and a raised Python exception is
modelled by an error result that carries the state the object had at the
moment of the raise (Python mutation survives an exception).

Modelling conventions, used consistently:
* Python `int` is `Int`; board width/height are `Nat` (the constructor is only
  called with non-negative sizes).
* A Python object reference to a `Piece` is modelled by a `Piece` value that
  carries a unique allocation number `uid`; every creation site draws a fresh
  `uid` from the board's allocation counter, and the single mutating
  operation on pieces (`set_royal`) rewrites every live copy of the object,
  so structural equality of the values coincides with Python `is` identity.
* A Python `dict` is an association list; `set` iteration order is
  implementation defined in Python, so sets are modelled as duplicate-free
  lists in insertion order and properties proved about them are
  content-based wherever the Python result is order independent.
* Python `str.upper`, `str.strip`, `int(...)` and `str(...)` are modelled on
  the character repertoire this code base actually uses (ASCII plus the
  Greek delta pair).
-/

set_option maxHeartbeats 1600000
set_option maxRecDepth 100000

/-! ### Python string primitives -/

/-- Model of Python `str.upper` on a single character, restricted to the
repertoire used by the repository: ASCII lowercase letters map to uppercase,
the Greek small delta maps to capital delta, everything else is unchanged. -/
def pyUpperChar (c : Char) : Char :=
  if 'a' ≤ c ∧ c ≤ 'z' then Char.ofNat (c.toNat - 32)
  else if c = 'δ' then 'Δ'
  else c

/-- Model of Python `str.upper` (character-wise). -/
def pyUpper (s : String) : String :=
  String.mk (s.data.map pyUpperChar)

/-- Whitespace test used by Python `str.strip`. -/
def pySpaceChar (c : Char) : Bool :=
  c = ' ' || c = '\t' || c = '\n' || c = '\r'

/-- Model of Python `str.strip` on a character list. -/
def pyStripList (l : List Char) : List Char :=
  ((l.dropWhile pySpaceChar).reverse.dropWhile pySpaceChar).reverse

/-- Model of Python `str.strip`. -/
def pyStrip (s : String) : String :=
  String.mk (pyStripList s.data)

/-- Decimal digit character for a value below ten. -/
def decDigitChar (n : Nat) : Char := Char.ofNat (48 + n)

/-- Decimal digit list of a natural number, with explicit fuel so that the
recursion is structural (the wrapper always supplies enough fuel). -/
def natDigitsF : Nat → Nat → List Char
  | 0, _ => []
  | f + 1, n =>
    if n < 10 then [decDigitChar n]
    else natDigitsF f (n / 10) ++ [decDigitChar (n % 10)]

/-- Model of Python `str` on a non-negative integer. -/
def pyStrNat (n : Nat) : String := String.mk (natDigitsF (n + 1) n)

/-- Model of Python `str` on an `int`. -/
def pyStrInt (i : Int) : String :=
  if i < 0 then "-" ++ pyStrNat i.natAbs else pyStrNat i.toNat

/-- Value of a decimal digit list (used by the model of Python `int(...)`). -/
def decValue (l : List Char) : Nat :=
  l.foldl (fun acc c => 10 * acc + (c.toNat - 48)) 0

/-- Parse a non-empty all-digit character list; `none` otherwise. -/
def parseDecDigits (l : List Char) : Option Nat :=
  if l ≠ [] ∧ l.all (fun c => c.isDigit) then some (decValue l) else none

/-- Model of Python `int(str)`: strip whitespace, optional sign, decimal
digits; any other shape raises (here: `none`). -/
def pyInt (s : String) : Option Int :=
  match pyStripList s.data with
  | '-' :: rest => (parseDecDigits rest).map (fun n => -(n : Int))
  | '+' :: rest => (parseDecDigits rest).map (fun n => (n : Int))
  | l => (parseDecDigits l).map (fun n => (n : Int))

/-! ### core/coords.py -/

/-- Embeds `to_alg(x, y, h, w)` from `core/coords.py`: converts internal
coordinates (origin top-left, x down, y right) to file-rank display notation.
Raises on out-of-bounds coordinates and on `w > 26`. -/
def toAlg (x y : Int) (h w : Nat) : Except String String :=
  if ¬ (0 ≤ x ∧ x < (h : Int) ∧ 0 ≤ y ∧ y < (w : Int)) then
    .error "to_alg: coordinates out of bounds"
  else if 26 < w then
    .error "to_alg: only w <= 26 supported"
  else
    .ok (String.mk [Char.ofNat (65 + y.toNat)] ++ pyStrInt ((h : Int) - x))

/-- Embeds `from_alg(coord, h, w)` from `core/coords.py`: parses a file-rank
string (case-insensitive file letter, rank via `int(...)`) back to internal
coordinates, validating rank and file ranges. -/
def fromAlg (coord : String) (h w : Nat) : Except String (Int × Int) :=
  if 26 < w then .error "from_alg: only w <= 26 supported"
  else
    -- Python: s = coord.strip().upper()
    match (pyStripList coord.data).map pyUpperChar with
    | [] => .error "from_alg: invalid notation"
    | [_] => .error "from_alg: invalid notation"
    | fileCh :: rest =>
      if ¬ fileCh.isAlpha then .error "from_alg: invalid notation"
      else if ¬ ('A' ≤ fileCh ∧ fileCh ≤ 'Z') then .error "from_alg: invalid file"
      else
        match pyInt (String.mk rest) with
        | none => .error "from_alg: invalid rank"
        | some rank =>
          if ¬ (1 ≤ rank ∧ rank ≤ (h : Int)) then .error "from_alg: rank out of range"
          else
            let y : Int := (fileCh.toNat : Int) - 65
            let x : Int := (h : Int) - rank
            if ¬ (0 ≤ y ∧ y < (w : Int)) then .error "from_alg: file out of range"
            else .ok (x, y)

/-! ### core/piece.py, core/fairy.py — piece identity and the catalog -/

/-- The Python class of a piece (dynamic dispatch target for `can_attack`
and `generate_moves`). -/
inductive PKind where
  | king | queen | rook | knight | pawn
  | general | wildebeest | alibaba | sergeant | archbishop
deriving DecidableEq, Repr

/-- A piece object: `uid` models Python object identity (see the header
comment), `kind` is the `_kind` attribute (uppercased by the constructor),
`color` is `_color`, `isRoyal` is `_is_royal`. -/
structure Piece where
  uid : Nat
  cls : PKind
  kind : String
  color : String
  isRoyal : Bool
deriving DecidableEq, Repr

/-- Embeds `Piece.__init__`: the kind code is uppercased, the royal flag
defaults to false (none of the concrete classes passes it). -/
def Piece.make (u : Nat) (cls : PKind) (kind color : String) : Piece :=
  { uid := u, cls := cls, kind := pyUpper kind, color := color, isRoyal := false }

/-- Embeds `create(kind, color)` from `core/piece_factory.py` together with
the constructors of the ten registered classes; `none` models the KeyError
raised on an unknown kind symbol.  `u` is the fresh allocation number for
the new object. -/
def createPiece (kind color : String) (u : Nat) : Option Piece :=
  if kind = "K" then some (Piece.make u .king "K" color)
  else if kind = "Q" then some (Piece.make u .queen "Q" color)
  else if kind = "R" then some (Piece.make u .rook "R" color)
  else if kind = "N" then some (Piece.make u .knight "N" color)
  else if kind = "P" then some (Piece.make u .pawn "P" color)
  else if kind = "M" then some (Piece.make u .general "M" color)
  else if kind = "V" then some (Piece.make u .wildebeest "V" color)
  else if kind = "Y" then some (Piece.make u .alibaba "Y" color)
  else if kind = "δ" then some (Piece.make u .sergeant "δ" color)
  else if kind = "H" then some (Piece.make u .archbishop "H" color)
  else none

/-- The pawn-like kind set used by `Game.play` for the half-move clock:
`{"P", "Δ"}` (capital delta — the uppercased Sergeant symbol). -/
def pawnLikeKind (k : String) : Bool := k = "P" || k = "Δ"

/-! ### core/move.py -/

/-- Embeds the `Move` dataclass: source, destination, the moving piece
reference and the three flags.  Immutable value. -/
structure Move where
  fx : Int
  fy : Int
  tx : Int
  ty : Int
  piece : Piece
  is_double_step : Bool := false
  is_en_passant : Bool := false
  promotion_to : Option String := none
deriving DecidableEq, Repr

/-! ### core/board.py — state -/

/-- One bucket of the `_royal_pos` dict.  Normally a Python `set` of
coordinate pairs (modelled as a duplicate-free list in insertion order,
compared content-wise where Python results are order independent); the
royal-cache fallback in `apply_move` (the `_royal_cache_set` helper does not
exist on `Board`) **replaces** a bucket by a bare coordinate tuple, so the
tuple state is representable too. -/
inductive RoyalBucket where
  | rset (l : List (Int × Int))
  | rtup (p : Int × Int)
deriving DecidableEq, Repr

/-- Python set `add` on the list model: append if absent. -/
def rsetAdd (l : List (Int × Int)) (q : Int × Int) : List (Int × Int) :=
  if q ∈ l then l else l ++ [q]

/-- Python `dict.get`: the binding for the key, if any (dict keys are
unique, so the assoc-list lookup is an exact model). -/
def dget {α : Type} : List (String × α) → String → Option α
  | [], _ => none
  | e :: d, k => if e.1 = k then some e.2 else dget d k

/-- Python dict assignment `d[k] = v`: overwrite the binding if the key is
present, otherwise append a new binding (keys are unique). -/
def dset {α : Type} : List (String × α) → String → α → List (String × α)
  | [], k, v => [(k, v)]
  | e :: d, k, v => if e.1 = k then (k, v) :: d else e :: dset d k v

/-- Embeds the `Board` state: the `w × h` grid (a total map that is `none`
outside the board and on empty squares), the `_royal_pos` and `_pieces`
dicts, `en_passant_target`, plus the allocation counter for fresh piece
objects. -/
structure Board where
  w : Nat
  h : Nat
  grid : Int × Int → Option Piece
  royal : List (String × RoyalBucket)
  pieces : List (String × List (Piece × Int × Int))
  ep : Option ((Int × Int) × (Int × Int))
  nextUid : Nat

/-- Embeds `Board.__init__(w, h)`: empty grid, empty royal cache and piece
index for both colors, no en-passant target. -/
def Board.init (w h : Nat) : Board :=
  { w := w, h := h, grid := fun _ => none,
    royal := [("w", .rset []), ("b", .rset [])],
    pieces := [("w", []), ("b", [])],
    ep := none, nextUid := 0 }

/-- Result of a mutating board operation: Python mutates `self` in place, so
an exception (`err`) still carries the state reached at the raise point. -/
inductive ARes where
  | ok (b : Board)
  | err (msg : String) (b : Board)

/-- Sequencing of mutating steps: an error short-circuits, keeping its state. -/
def ARes.andThen (r : ARes) (f : Board → ARes) : ARes :=
  match r with
  | .ok b => f b
  | .err m b => .err m b

/-- The board carried by a result (the state after the call, raised or not). -/
def ARes.boardOf : ARes → Board
  | .ok b => b
  | .err _ b => b

/-- Whether the operation completed without raising. -/
def ARes.isOk : ARes → Bool
  | .ok _ => true
  | .err _ _ => false

/-- The message of a raised operation, if any. -/
def ARes.errMsg : ARes → Option String
  | .ok _ => none
  | .err m _ => some m

/-- Embeds `Board._check_bounds` as a test: `(x, y)` inside `[0,h) × [0,w)`. -/
def Board.inB (b : Board) (x y : Int) : Bool :=
  (0 ≤ x && x < (b.h : Int)) && (0 ≤ y && y < (b.w : Int))

/-- Grid read at `(x, y)`; call sites perform the Python bounds check
themselves, mirroring `Board.at`. -/
def Board.cellAt (b : Board) (x y : Int) : Option Piece :=
  b.grid (x, y)

/-- Grid write at `(x, y)` (Python `Square.set_piece`). -/
def Board.setCell (b : Board) (x y : Int) (v : Option Piece) : Board :=
  { b with grid := Function.update b.grid (x, y) v }

/-- The out-of-bounds IndexError message. -/
def oobMsg : String := "out of board bounds"

/-- The `_pieces` bucket for a color via `dict.get(color, default-empty)`. -/
def Board.bucketOr (b : Board) (c : String) : List (Piece × Int × Int) :=
  match dget b.pieces c with
  | some l => l
  | none => []

/-- Embeds `Board._index_remove(x, y)`: if the square holds a piece, pop the
first index entry of that piece's color bucket whose object and coordinates
match (`q is p and i == x and j == y`); raises KeyError when the piece's
color is not a `_pieces` key. -/
def Board.indexRemove (b : Board) (x y : Int) : ARes :=
  match b.cellAt x y with
  | none => .ok b
  | some p =>
    match dget b.pieces p.color with
    | none => .err "KeyError: _pieces color" b
    | some bucket =>
      let bucket' := bucket.eraseP (fun e => e.1 == p && e.2.1 == x && e.2.2 == y)
      .ok { b with pieces := dset b.pieces p.color bucket' }

/-- Embeds `Board._index_add(x, y)`: append the occupant (if any) to its
color bucket; raises KeyError when the color is not a `_pieces` key. -/
def Board.indexAdd (b : Board) (x y : Int) : ARes :=
  match b.cellAt x y with
  | none => .ok b
  | some p =>
    match dget b.pieces p.color with
    | none => .err "KeyError: _pieces color" b
    | some bucket =>
      .ok { b with pieces := dset b.pieces p.color (bucket ++ [(p, x, y)]) }

/-- Embeds `self._royal_pos[c].discard(q)`: KeyError when the color key is
missing, AttributeError when the bucket is the tuple fallback state. -/
def Board.royalDiscard (b : Board) (c : String) (q : Int × Int) : ARes :=
  match dget b.royal c with
  | none => .err "KeyError: _royal_pos color" b
  | some (.rtup _) => .err "AttributeError: tuple object has no attribute discard" b
  | some (.rset l) => .ok { b with royal := dset b.royal c (.rset (l.erase q)) }

/-- Embeds `self._royal_pos[c].add(q)` with the same failure modes as
`royalDiscard`. -/
def Board.royalInsert (b : Board) (c : String) (q : Int × Int) : ARes :=
  match dget b.royal c with
  | none => .err "KeyError: _royal_pos color" b
  | some (.rtup _) => .err "AttributeError: tuple object has no attribute add" b
  | some (.rset l) => .ok { b with royal := dset b.royal c (.rset (rsetAdd l q)) }

/-- Embeds the `try: self._royal_pos[c].add(q) except Exception: pass`
pattern used by the revert code of `causes_self_check`: failures are
swallowed, leaving the board unchanged. -/
def Board.royalAddSafe (b : Board) (c : String) (q : Int × Int) : Board :=
  match b.royalInsert c q with
  | .ok b' => b'
  | .err _ _ => b

/-- Embeds `Board.clear(x, y)`: bounds check, idempotent on empty squares;
a royal occupant is dropped from the royal cache, the occupant is removed
from the piece index, then the square is emptied. -/
def Board.clear (b : Board) (x y : Int) : ARes :=
  if ¬ b.inB x y then .err oobMsg b
  else
    match b.cellAt x y with
    | none => .ok b
    | some p =>
      (if p.isRoyal then b.royalDiscard p.color (x, y) else .ok b).andThen fun b =>
      (b.indexRemove x y).andThen fun b =>
      .ok (b.setCell x y none)

/-- The creation half of `Board.put`, after the previous occupant left the
cache and the index: the catalog constructs the new piece (ValueError on
failure, before any mutation of the square); the piece is placed, indexed,
and cached if royal (freshly created pieces never are). -/
def Board.putTail (b : Board) (x y : Int) (kind color : String) : ARes :=
  match createPiece kind color b.nextUid with
  | none => .err "ValueError: cannot create piece" b
  | some p =>
    let b1 := b.setCell x y (some p)
    let b := { b1 with nextUid := b1.nextUid + 1 }
    (b.indexAdd x y).andThen fun b =>
    if p.isRoyal then b.royalInsert p.color (x, y) else .ok b

/-- Embeds `Board.put(x, y, kind, color)`: bounds check; a royal previous
occupant leaves the royal cache and the previous occupant leaves the index;
then `putTail` creates and places the new piece. -/
def Board.put (b : Board) (x y : Int) (kind color : String) : ARes :=
  if ¬ b.inB x y then .err oobMsg b
  else
    (match b.cellAt x y with
     | some old =>
       (if old.isRoyal then b.royalDiscard old.color (x, y) else .ok b).andThen fun b =>
       b.indexRemove x y
     | none => .ok b).andThen fun b =>
    b.putTail x y kind color

/-- Embeds the (second, overriding) `Board.set_royal(x, y, flag)`: bounds
check, ValueError on an empty square; the coordinate is discarded from both
royal buckets, the piece object's `_is_royal` attribute is assigned (an
object mutation, so every live reference — the grid square and any index
entries for the same object — observes it), and if the flag is set the
coordinate is added to the piece's color bucket. -/
def Board.setRoyal (b : Board) (x y : Int) (flag : Bool) : ARes :=
  if ¬ b.inB x y then .err oobMsg b
  else
    match b.cellAt x y with
    | none => .err "ValueError: no piece to mark royal" b
    | some p =>
      (b.royalDiscard "w" (x, y)).andThen fun b =>
      (b.royalDiscard "b" (x, y)).andThen fun b =>
      let p' : Piece := { p with isRoyal := flag }
      let b := { b with
        grid := Function.update b.grid (x, y) (some p'),
        pieces := b.pieces.map (fun kv =>
          (kv.1, kv.2.map (fun e => if e.1.uid = p.uid then (p', e.2.1, e.2.2) else e))) }
      if flag then b.royalInsert p.color (x, y) else .ok b

/-- Embeds `Board.set_royal_alg(file, rank, flag)`: display notation is
parsed by `from_alg` (raises propagate), then `set_royal` runs. -/
def Board.setRoyalAlg (b : Board) (file : String) (rank : Int) (flag : Bool) : ARes :=
  match fromAlg (pyStrip file ++ pyStrInt rank) b.h b.w with
  | .error e => .err e b
  | .ok (x, y) => b.setRoyal x y flag

/-! ### core/piece.py, core/fairy.py — attack queries -/

/-- Emptiness of the squares strictly between `(x, y₁)` and `(x, y₂)` on one
row (the single-ray scan of the rook/queen `can_attack`); all scanned cells
lie between two in-range endpoints at every call site. -/
def Board.rowClear (b : Board) (x y₁ y₂ : Int) : Bool :=
  let step : Int := if y₁ < y₂ then 1 else -1
  (List.range (y₂ - y₁).natAbs).all fun k =>
    k == 0 || (b.cellAt x (y₁ + step * (k : Int))).isNone

/-- Column analogue of `Board.rowClear`. -/
def Board.colClear (b : Board) (x₁ x₂ y : Int) : Bool :=
  let step : Int := if x₁ < x₂ then 1 else -1
  (List.range (x₂ - x₁).natAbs).all fun k =>
    k == 0 || (b.cellAt (x₁ + step * (k : Int)) y).isNone

/-- Diagonal analogue of `Board.rowClear` (used by queen and archbishop). -/
def Board.diagClear (b : Board) (sx sy tx ty : Int) : Bool :=
  let stepx : Int := if sx < tx then 1 else -1
  let stepy : Int := if sy < ty then 1 else -1
  (List.range (tx - sx).natAbs).all fun k =>
    k == 0 || (b.cellAt (sx + stepx * (k : Int)) (sy + stepy * (k : Int))).isNone

/-- King-step relation: Chebyshev distance exactly one. -/
def kingDelta (dx dy : Int) : Bool :=
  (dx ≠ 0 || dy ≠ 0) && max dx.natAbs dy.natAbs == 1

/-- Knight L-jump relation. -/
def knightDelta (dx dy : Int) : Bool :=
  (dx.natAbs == 1 && dy.natAbs == 2) || (dx.natAbs == 2 && dy.natAbs == 1)

/-- Embeds `can_attack` for every registered piece class (the per-class
overrides in `core/piece.py` and `core/fairy.py`); the base-class default is
never reached because every catalog class overrides it. -/
def Piece.canAttack (p : Piece) (b : Board) (sx sy tx ty : Int) : Bool :=
  let dx := tx - sx
  let dy := ty - sy
  match p.cls with
  | .king => kingDelta dx dy
  | .queen =>
    if sx = tx ∧ sy = ty then false
    else if sx = tx then b.rowClear sx sy ty
    else if sy = ty then b.colClear sx tx sy
    else if dx.natAbs = dy.natAbs ∧ dx.natAbs ≠ 0 then b.diagClear sx sy tx ty
    else false
  | .rook =>
    if sx = tx ∧ sy = ty then false
    else if sx = tx then b.rowClear sx sy ty
    else if sy = ty then b.colClear sx tx sy
    else false
  | .knight => knightDelta dx dy
  | .pawn =>
    -- diagonal forward step only; forward is -1 for white, +1 otherwise
    let step : Int := if p.color = "w" then -1 else 1
    if tx ≠ sx + step then false else dy == 1 || dy == -1
  | .general => kingDelta dx dy || knightDelta dx dy
  | .wildebeest =>
    knightDelta dx dy || (dx.natAbs == 1 && dy.natAbs == 3) || (dx.natAbs == 3 && dy.natAbs == 1)
  | .alibaba =>
    (dx.natAbs == 2 && dy.natAbs == 0) || (dx.natAbs == 0 && dy.natAbs == 2) ||
      (dx.natAbs == 2 && dy.natAbs == 2)
  | .sergeant =>
    let step : Int := if p.color = "w" then -1 else 1
    if tx ≠ sx + step then false else dy.natAbs ≤ 1
  | .archbishop =>
    if knightDelta dx dy then true
    else if dx.natAbs = dy.natAbs ∧ dx.natAbs ≠ 0 then b.diagClear sx sy tx ty
    else false

/-- The loop body of `Board.is_square_attacked`: iterate the attacker-color
index entries, bounds-check each re-read (`self.at(i, j)` raises on an
out-of-range stale entry), skip entries whose object no longer matches the
live grid, and stop at the first attacker that reaches `(x, y)`. -/
def attackScan (b : Board) (x y : Int) : List (Piece × Int × Int) → Except String Bool
  | [] => .ok false
  | (p, i, j) :: rest =>
    if ¬ b.inB i j then .error oobMsg
    else if b.cellAt i j ≠ some p then attackScan b x y rest
    else if p.canAttack b i j x y then .ok true
    else attackScan b x y rest

/-- Embeds `Board.is_square_attacked(x, y, by_color)`: scan only the indexed
pieces of `by_color` (empty default for an unknown color key). -/
def Board.isSquareAttacked (b : Board) (x y : Int) (byColor : String) : Except String Bool :=
  attackScan b x y (b.bucketOr byColor)

/-- The loop of `Board.is_in_check`: first royal square attacked wins. -/
def checkScan (b : Board) (opponent : String) : List (Int × Int) → Except String Bool
  | [] => .ok false
  | (rx, ry) :: rest =>
    match b.isSquareAttacked rx ry opponent with
    | .error e => .error e
    | .ok true => .ok true
    | .ok false => checkScan b opponent rest

/-- Embeds `Board.is_in_check(color)`: ValueError when the royal dict lacks
the color key; a bare 2-tuple bucket (the fallback state left by
`apply_move`) is normalized to a one-element set; then each royal square is
tested against the opponent. -/
def Board.isInCheck (b : Board) (color : String) : Except String Bool :=
  match dget b.royal color with
  | none => .error "ValueError: missing royal cache for color"
  | some bucket =>
    let positions : List (Int × Int) :=
      match bucket with
      | .rtup p => [p]
      | .rset l => l
    let opponent := if color = "w" then "b" else "w"
    checkScan b opponent positions

/-! ### core/board.py — rendering -/

/-- Embeds `Piece.glyph` / `Square.glyph`: a two-character color-prefixed
glyph, `".."` for an empty square (any color other than `"w"` renders the
`'b'` prefix, as in the source's conditional expression). -/
def glyphOf : Option Piece → String
  | none => ".."
  | some p => (if p.color = "w" then "w" else "b") ++ p.kind

/-- Python `str.ljust(3)`. -/
def ljust3 (s : String) : String :=
  s ++ String.mk (List.replicate (3 - s.length) ' ')

/-- Python `str.rstrip()` (the characters in play are spaces). -/
def rstripStr (s : String) : String :=
  String.mk ((s.data.reverse.dropWhile pySpaceChar).reverse)

/-- Embeds `Board.as_ascii`: rows top to bottom, each square left-justified
to three characters, each row right-stripped, rows joined by newlines. -/
def Board.asAscii (b : Board) : String :=
  String.intercalate "\n" ((List.range b.h).map fun x =>
    rstripStr ((List.range b.w).foldl
      (fun acc y => acc ++ ljust3 (glyphOf (b.cellAt (x : Int) (y : Int)))) ""))

/-! ### core/board.py — move application -/

/-- Embeds `Board.compute_en_passant_target(mv, piece)` (the `piece`
parameter is unused by the source): for a double-step move, the capture
destination is the midpoint of the travel (Python floor division) and the
victim square is the move's destination. -/
def computeEnPassantTarget (mv : Move) : Option ((Int × Int) × (Int × Int)) :=
  if ¬ mv.is_double_step then none
  else some ((Int.fdiv (mv.fx + mv.tx) 2, Int.fdiv (mv.fy + mv.ty) 2), (mv.tx, mv.ty))

/-- The promotion construction of `apply_move` step 4: the catalog call
inside `try/except` — `none` both when no promotion is requested and when
the catalog fails. -/
def promoCreate (mv : Move) (c : String) (u : Nat) : Option Piece :=
  match mv.promotion_to with
  | some s => createPiece s c u
  | none => none

/-- The placement part of `apply_move` step 4: write the constructed
promotion piece over the destination square (consuming the allocation
number); on `none` the board is left as it is (the mover stays). -/
def promoPlace (b : Board) (mv : Move) (promoted : Option Piece) : Board :=
  match promoted with
  | some pr =>
    let b1 := b.setCell mv.tx mv.ty (some pr)
    { b1 with nextUid := b1.nextUid + 1 }
  | none => b

/-- Step 5 of `apply_move`: reset the en-passant target, then record a
fresh one when the move is a double-step. -/
def epFinalize (b : Board) (mv : Move) : Board :=
  let b := { b with ep := none }
  if mv.is_double_step then
    match computeEnPassantTarget mv with
    | some pair => { b with ep := some pair }
    | none => b
  else b

/-- Steps 3–5 of `apply_move`, shared by every branch once the captures are
settled: clear the source square, write the mover to the destination,
attempt the promotion, re-index the destination occupant, run the broken
royal-cache fallback if the occupant is royal, and finalize the en-passant
target. -/
def applyMoveTail (b : Board) (mv : Move) (piece : Piece) : ARes :=
  (b.clear mv.fx mv.fy).andThen fun b =>
  let b := b.setCell mv.tx mv.ty (some piece)
  let promoted : Option Piece := promoCreate mv piece.color b.nextUid
  let b := promoPlace b mv promoted
  (b.indexAdd mv.tx mv.ty).andThen fun b =>
  let occupant := promoted.getD piece
  let b :=
    if occupant.isRoyal then
      { b with royal := dset b.royal occupant.color (.rtup (mv.tx, mv.ty)) }
    else b
  .ok (epFinalize b mv)

/-- Embeds `Board.apply_move(mv)`, preserving the exact order of effects of
the source:
0. bounds checks on source and destination; ValueError when the source is
   empty (the `mv.piece is not piece` comparison is a no-op `pass`);
1. the source entry is removed from the piece index **before** any further
   validation;
2. en-passant: the recorded target must exist and match the destination and
   the victim square must hold an opposite-color piece, else ValueError
   (raised after the index removal of step 1); the victim is unindexed and
   cleared;
3. a same-color destination raises ValueError (again after step 1); an
   occupied destination is unindexed and cleared unless the move is
   en-passant (the en-passant-with-occupied-destination hole);
4. source square cleared, mover written to the destination square;
5. promotion: the catalog constructs the replacement; on failure the mover
   silently stays (`except Exception`);
6. the destination occupant is re-indexed; if it is royal, the missing
   `_royal_cache_set` helper makes the fallback **assign a bare tuple** over
   the royal bucket of that color;
7. the en-passant target is reset, and recomputed if the move is a
   double-step. -/
def Board.applyMove (b : Board) (mv : Move) : ARes :=
  if ¬ b.inB mv.fx mv.fy then .err oobMsg b
  else if ¬ b.inB mv.tx mv.ty then .err oobMsg b
  else
    match b.cellAt mv.fx mv.fy with
    | none => .err "No piece at source" b
    | some piece =>
      (b.indexRemove mv.fx mv.fy).andThen fun b =>
      -- 1) en passant: remove the victim before moving
      (show ARes from
        if mv.is_en_passant then
          match b.ep with
          | none => .err "EN PASSANT move but no en_passant_target set." b
          | some ((etx, ety), (cx, cy)) =>
            if ¬ (etx = mv.tx ∧ ety = mv.ty) then .err "EN PASSANT destination mismatch." b
            else if ¬ b.inB cx cy then .err oobMsg b
            else
              match b.cellAt cx cy with
              | none => .err "Invalid EN PASSANT victim square." b
              | some victim =>
                if victim.color = piece.color then .err "Invalid EN PASSANT victim square." b
                else (b.indexRemove cx cy).andThen fun b => b.clear cx cy
        else .ok b).andThen fun b =>
      -- 2) ordinary capture (when not en passant)
      (show ARes from
        match b.cellAt mv.tx mv.ty with
        | some dst =>
          if dst.color = piece.color then .err "Destination occupied by same-color piece." b
          else if ¬ mv.is_en_passant then
            (b.indexRemove mv.tx mv.ty).andThen fun b => b.clear mv.tx mv.ty
          else .ok b
        | none => .ok b).andThen fun b =>
      -- 3–5) clear the source, place the mover, promote, re-index, royal
      -- fallback, en-passant finalize
      applyMoveTail b mv piece

/-! ### core/board.py — self-check simulation -/

/-- The revert block of `causes_self_check` (the `finally:` part), run on
whatever state the simulate phase reached: restore the saved en-passant
target, clear the destination, restore a normally-captured piece (with
re-indexing and a swallowed-exception royal re-add), restore an en-passant
victim likewise, and restore the source piece.  A raise inside the block
(`clear` on a royal destination occupant whose royal bucket has become the
tuple fallback, or an index KeyError) aborts the remaining steps, exactly as
a raise inside a Python `finally:` would. -/
def selfCheckRevert (b : Board) (mv : Move) (prevEp : Option ((Int × Int) × (Int × Int)))
    (srcPiece dstBefore : Option Piece) (epVictim : Option (Piece × Int × Int)) : ARes :=
  let b := { b with ep := prevEp }
  (b.clear mv.tx mv.ty).andThen fun b =>
  -- restore a normal capture (not en passant)
  (if ¬ mv.is_en_passant then
    match dstBefore with
    | some d =>
      let b := b.setCell mv.tx mv.ty (some d)
      (b.indexAdd mv.tx mv.ty).andThen fun b =>
      .ok (if d.isRoyal then b.royalAddSafe d.color (mv.tx, mv.ty) else b)
    | none => .ok b
  else .ok b).andThen fun b =>
  -- restore the en-passant victim
  (match epVictim with
   | some (v, cx, cy) =>
     if mv.is_en_passant then
       let b := b.setCell cx cy (some v)
       (b.indexAdd cx cy).andThen fun b =>
       .ok (if v.isRoyal then b.royalAddSafe v.color (cx, cy) else b)
     else .ok b
   | none => .ok b).andThen fun b =>
  -- restore the source piece (the original object)
  let b := b.setCell mv.fx mv.fy srcPiece
  (b.indexAdd mv.fx mv.fy).andThen fun b =>
  .ok (match srcPiece with
       | some sp => if sp.isRoyal then b.royalAddSafe sp.color (mv.fx, mv.fy) else b
       | none => b)

/-- Embeds `Board.causes_self_check(mv)`: snapshot the en-passant target,
the source and destination occupants and (for en-passant) the victim, then
simulate via `apply_move`, query `is_in_check` for the mover's side, and
revert unconditionally (`finally:`).  The result pairs the Python return
value or exception with the final state of the board object.  `mv.piece` is
a mandatory dataclass field, so the side is always taken from it. -/
def Board.causesSelfCheck (b : Board) (mv : Move) : Except String Bool × Board :=
  let side := mv.piece.color
  let prevEp := b.ep
  -- src_piece = self.at(mv.fx, mv.fy); dst = self.at(mv.tx, mv.ty): both
  -- bounds-checked reads that raise before any mutation
  if ¬ b.inB mv.fx mv.fy then (.error oobMsg, b)
  else if ¬ b.inB mv.tx mv.ty then (.error oobMsg, b)
  else
    let srcPiece := b.cellAt mv.fx mv.fy
    let dstBefore := b.cellAt mv.tx mv.ty
    -- side_piece is None only when mv.piece would be missing; here the
    -- dataclass field is always present, so the first ValueError of the
    -- source is unreachable
    let epScan : Except String (Option (Piece × Int × Int)) :=
      if mv.is_en_passant then
        match b.ep with
        | none => .error "causes_self_check: EP flagged but no EP target."
        | some ((etx, ety), (cx, cy)) =>
          if ¬ (etx = mv.tx ∧ ety = mv.ty) then
            .error "causes_self_check: EP destination mismatch."
          else if ¬ b.inB cx cy then .error oobMsg
          else
            match b.cellAt cx cy with
            | some v => .ok (some (v, cx, cy))
            | none => .ok none
      else .ok none
    match epScan with
    | .error e => (.error e, b)
    | .ok epVictim =>
      -- try: apply_move + is_in_check
      match b.applyMove mv with
      | .err e b₁ =>
        -- the apply raised; the finally block still reverts
        (match selfCheckRevert b₁ mv prevEp srcPiece dstBefore epVictim with
         | .ok b₂ => (.error e, b₂)
         | .err e₂ b₂ => (.error e₂, b₂))
      | .ok b₁ =>
        match b₁.isInCheck side with
        | .error e =>
          (match selfCheckRevert b₁ mv prevEp srcPiece dstBefore epVictim with
           | .ok b₂ => (.error e, b₂)
           | .err e₂ b₂ => (.error e₂, b₂))
        | .ok inCheck =>
          match selfCheckRevert b₁ mv prevEp srcPiece dstBefore epVictim with
          | .ok b₂ => (.ok inCheck, b₂)
          | .err e₂ b₂ => (.error e₂, b₂)

/-! ### core/board.py — legal move enumeration -/

/-- Embeds `Board.legal_moves_for(color)`.

The source first returns the empty list when the color's royal bucket is
falsy.  It then extracts one royal square with `kx, ky = next(iter(rps))`
(a TypeError when the bucket is the bare-tuple fallback, whose first
iterated element is an `int`) and enumerates current checkers with

    for (ax, ay) in opp_pos: ...

But `_pieces` buckets hold **3-tuples** `(piece, x, y)`, so the first
iteration of a non-empty opponent bucket raises
`ValueError: too many values to unpack (expected 2)`.  When the opponent
bucket is empty the attacker list is empty, the double-check branch is
skipped and the capture/block sets stay empty; the main loop

    for (x, y) in list(my_pos): ...

then raises the same ValueError on a non-empty own bucket, and with both
buckets empty the loop body (collect_moves / pruning / causes_self_check)
never runs and the accumulated `legal` list is returned empty.  Every
downstream statement of the source is therefore unreachable, and the
embedding returns at the corresponding raise point; since the raise happens
before any simulation, the board is not mutated and no state is returned.
The result does not depend on which royal square the set iteration yields
first, so the unspecified Python set order is immaterial. -/
def Board.legalMovesFor (b : Board) (color : String) : Except String (List Move) :=
  match dget b.royal color with
  | none => .ok []                       -- `if not rps` (None is falsy)
  | some (.rset []) => .ok []            -- empty set is falsy
  | some (.rtup _) => .error "TypeError: cannot unpack non-iterable int object"
  | some (.rset (_ :: _)) =>
    let opp := if color = "w" then "b" else "w"
    match b.bucketOr opp with
    | _ :: _ => .error "ValueError: too many values to unpack (expected 2)"
    | [] =>
      match b.bucketOr color with
      | _ :: _ => .error "ValueError: too many values to unpack (expected 2)"
      | [] => .ok []

/-- Embeds `Board.is_checkmated(color)`: not in check means not mated;
otherwise mated exactly when the legal move list is empty (exceptions from
either query propagate). -/
def Board.isCheckmated (b : Board) (color : String) : Except String Bool :=
  match b.isInCheck color with
  | .error e => .error e
  | .ok false => .ok false
  | .ok true =>
    match b.legalMovesFor color with
    | .error e => .error e
    | .ok ms => .ok (ms.length == 0)

/-! ### core/board.py — layout setup -/

/-- Python `str.split(sep)` for a one-character separator (empty pieces are
kept, as in Python). -/
def splitOnChar (sep : Char) : List Char → List (List Char)
  | [] => [[]]
  | c :: rest =>
    let r := splitOnChar sep rest
    if c = sep then [] :: r
    else
      match r with
      | h :: t => (c :: h) :: t
      | [] => [[c]]

/-- The layout literal of `Board.setup_from_layout` (the source applies
`.strip()` to the triple-quoted literal; the embedded text is the same
character sequence). -/
def layoutRaw : String :=
  "x,x,x,x,x,x,x,x,x,x,x,x,x,x/\n          x,x,x,x,x,x,x,x,x,x,x,x,x,x/\n          x,x,yV,yY,yR,yH,yQ,yK,yH,yR,yY,yV,x,x/\n          x,x,yM,yδ,yN,yδ,yY,yY,yδ,yN,yδ,yM,x,x/\n          x,x,yK,yP,yP,yP,yP,yP,yP,yP,yP,yK,x,x/\n          x,x,10,x,x/\n          x,x,10,x,x/\n          x,x,10,x,x/\n          x,x,10,x,x/\n          x,x,rK,rP,rP,rP,rP,rP,rP,rP,rP,rK,x,x/\n          x,x,rM,rδ,rN,rδ,rY,rY,rδ,rN,rδ,rM,x,x/\n          x,x,rV,rY,rR,rH,rQ,rK,rH,rR,rY,rV,x,x/\n          x,x,x,x,x,x,x,x,x,x,x,x,x,x/\n          x,x,x,x,x,x,x,x,x,x,x,x,x,x"

/-- Parse one layout token: `x` is padding, `10` is ten empty cells, a
`<color><kind>` token (color `r` maps to white, `y` to black) is one piece
cell; anything else is a ValueError. -/
def parseLayoutToken (tok : List Char) : Except String (List (Option (String × String))) :=
  if tok = ['x'] then .ok []
  else if tok = ['1', '0'] then .ok (List.replicate 10 none)
  else
    match tok with
    | c :: rest =>
      if 2 ≤ (c :: rest).length ∧ (c = 'r' ∨ c = 'y') then
        .ok [some (String.mk rest, if c = 'r' then "w" else "b")]
      else .error "ValueError: invalid layout token"
    | [] => .error "ValueError: invalid layout token"

/-- Cells of one layout row: split on commas, strip, drop empties, parse
each token in order. -/
def rowCells (row : List Char) : Except String (List (Option (String × String))) :=
  let tokens := ((splitOnChar ',' row).map pyStripList).filter (fun t => ¬ t.isEmpty)
  tokens.foldl
    (fun acc tok =>
      match acc with
      | .error e => .error e
      | .ok cs =>
        match parseLayoutToken tok with
        | .error e => .error e
        | .ok more => .ok (cs ++ more))
    (.ok [])

/-- Place the parsed cells of one content row on grid row `x`; pieces are
written **directly into the squares** (`Square.set_piece` via `create`) —
the piece index is never touched, exactly as in the source. -/
def placeRow (x : Nat) : Board → Nat → List (Option (String × String)) → ARes
  | b, _, [] => .ok b
  | b, y, none :: rest => placeRow x (b.setCell (x : Int) (y : Int) none) (y + 1) rest
  | b, y, some (kind, clr) :: rest =>
    match createPiece kind clr b.nextUid with
    | none => .err "ValueError: invalid layout token at cell" b
    | some p =>
      let b1 := b.setCell (x : Int) (y : Int) (some p)
      placeRow x { b1 with nextUid := b1.nextUid + 1 } (y + 1) rest

/-- The row loop of `setup_from_layout`: skip all-padding rows, require
exactly `w` cells per content row, place the cells, count content rows and
fail as soon as the count exceeds `h`; after the loop the count must be
exactly `h`. -/
def setupLoop : Board → Nat → List (List Char) → ARes
  | b, bx, [] =>
    if bx = b.h then .ok b else .err "ValueError: wrong number of content rows" b
  | b, bx, row :: rest =>
    match rowCells row with
    | .error e => .err e b
    | .ok [] => setupLoop b bx rest
    | .ok cells =>
      if cells.length ≠ b.w then .err "ValueError: content row does not have w cells" b
      else
        (placeRow bx b 0 cells).andThen fun b =>
        if b.h < bx + 1 then .err "ValueError: too many content rows" b
        else setupLoop b (bx + 1) rest

/-- Embeds `Board.setup_from_layout()`: every square is first cleared (grid
only), the stripped layout is split into `/`-separated rows, content rows
are placed, and the two reserved royal squares (file F, ranks 1 and 10) are
marked royal through `set_royal_alg`. -/
def Board.setupFromLayout (b : Board) : ARes :=
  let layout := pyStripList layoutRaw.data
  let b' := { b with grid := fun q => if b.inB q.1 q.2 then none else b.grid q }
  let rows := ((splitOnChar '/' layout).map pyStripList).filter (fun r => ¬ r.isEmpty)
  (setupLoop b' 0 rows).andThen fun b =>
  (b.setRoyalAlg "f" 1 true).andThen fun b =>
  b.setRoyalAlg "f" 10 true

/-! ### core/game.py -/

/-- One element of the position-key item list: `(kind, color, royal-flag,
x, y)` for a piece on the board. -/
structure PosItem where
  kind : String
  color : String
  royalFlag : Nat
  px : Int
  py : Int
deriving DecidableEq, Repr

/-- The sort key of `position_key`: lexicographic on
`(color, kind, x, y, royal-flag)` — the source's `key=lambda t: (t[1],
t[0], t[3], t[4], t[2])`. -/
def itemLe (a b : PosItem) : Bool :=
  if a.color ≠ b.color then decide (a.color < b.color)
  else if a.kind ≠ b.kind then decide (a.kind < b.kind)
  else if a.px ≠ b.px then decide (a.px < b.px)
  else if a.py ≠ b.py then decide (a.py < b.py)
  else a.royalFlag ≤ b.royalFlag

/-- Stable insertion into a sorted list (used to model Python's stable
`list.sort`; with the full tuple as the key, equal keys mean equal items,
so any stable sort yields the Python result). -/
def insertByLe {α : Type} (le : α → α → Bool) (a : α) : List α → List α
  | [] => [a]
  | x :: xs => if le a x then a :: x :: xs else x :: insertByLe le a xs

/-- Stable insertion sort. -/
def sortByLe {α : Type} (le : α → α → Bool) (l : List α) : List α :=
  l.foldr (insertByLe le) []

/-- Rendering of one sorted item inside the position key:
`f"{k},{c},{r},{x},{y}"`. -/
def fmtPosItem (it : PosItem) : String :=
  it.kind ++ "," ++ it.color ++ "," ++ pyStrNat it.royalFlag ++ "," ++
    pyStrInt it.px ++ "," ++ pyStrInt it.py

/-- Embeds `position_key(board, turn)` from `core/game.py`: items are read
from the two index buckets (each entry is a well-shaped `(piece, x, y)`
triple, so the defensive isinstance/arity/None guards of the source all
pass, and the `elif idx:` branch is dead because `_pieces` is always a
dict); when the index yields no items a full grid scan is the fallback;
items are sorted by the fixed total order and joined with the side to move
and the en-passant rights. -/
def positionKey (b : Board) (turn : String) : String :=
  let entries :=
    (match dget b.pieces "w" with | some l => l | none => []) ++
    (match dget b.pieces "b" with | some l => l | none => [])
  let items := entries.map (fun e =>
    PosItem.mk e.1.kind e.1.color (if e.1.isRoyal then 1 else 0) e.2.1 e.2.2)
  let items :=
    if items.isEmpty then
      (List.range b.h).foldl
        (fun acc x =>
          (List.range b.w).foldl
            (fun acc y =>
              match b.cellAt (x : Int) (y : Int) with
              | some p =>
                acc ++ [PosItem.mk p.kind p.color (if p.isRoyal then 1 else 0) (x : Int) (y : Int)]
              | none => acc)
            acc)
        []
    else items
  let sorted := sortByLe itemLe items
  let epStr :=
    match b.ep with
    | some ((mx, my), _) => pyStrInt mx ++ "," ++ pyStrInt my
    | none => "~"
  "t=" ++ turn ++ "|p=" ++ String.intercalate ";" (sorted.map fmtPosItem) ++ "|ep=" ++ epStr

/-- Python `self.position_counts[k] = self.position_counts.get(k, 0) + 1`. -/
def bumpCount (d : List (String × Nat)) (k : String) : List (String × Nat) :=
  match dget d k with
  | some n => dset d k (n + 1)
  | none => dset d k 1

/-- Embeds the `Game` state: board, side to move, half-move clock and the
threefold-repetition table. -/
structure Game where
  board : Board
  turn : String
  halfmove_clock : Nat
  position_counts : List (String × Nat)

/-- Embeds `Game.__init__(board, turn)`. -/
def Game.start (board : Board) (turn : String) : Game :=
  { board := board, turn := turn, halfmove_clock := 0,
    position_counts := bumpCount [] (positionKey board turn) }

/-- Result of `Game.play` (exceptions propagate with the mutated state). -/
inductive GRes where
  | ok (g : Game)
  | err (msg : String) (g : Game)

/-- The game carried by a play result. -/
def GRes.gameOf : GRes → Game
  | .ok g => g
  | .err _ g => g

/-- Whether the play completed without raising. -/
def GRes.isOk : GRes → Bool
  | .ok _ => true
  | .err _ _ => false

/-- Embeds `Game.play(mv)`: capture detection from the pre-apply
destination occupant or the en-passant flag, delegation to `apply_move`,
half-move-clock update (reset on a capture or on a pawn-like mover,
increment otherwise), turn flip, and repetition-table update. -/
def Game.play (g : Game) (mv : Move) : GRes :=
  if ¬ g.board.inB mv.tx mv.ty then .err oobMsg g
  else
    let dst := g.board.cellAt mv.tx mv.ty
    let didCapture := mv.is_en_passant ||
      (match dst with | some d => decide (d.color ≠ mv.piece.color) | none => false)
    match g.board.applyMove mv with
    | .err m b => .err m { g with board := b }
    | .ok b =>
      let isPawnLike := pawnLikeKind mv.piece.kind
      let clock := if didCapture || isPawnLike then 0 else g.halfmove_clock + 1
      let turn' := if g.turn = "w" then "b" else "w"
      let k := positionKey b turn'
      .ok { board := b, turn := turn', halfmove_clock := clock,
            position_counts := bumpCount g.position_counts k }

/-! ### Invariant predicates (statements of the spec's properties) -/

/-- The royal-cache bucket list for a color (empty when the key is missing
or the bucket is in the tuple fallback state). -/
def Board.royalOr (b : Board) (c : String) : List (Int × Int) :=
  match dget b.royal c with
  | some (.rset l) => l
  | _ => []

/-- The piece-index exactness invariant of the spec: for every color bucket,
each entry matches the grid and carries the bucket's color, every living
piece of that color has an entry, and no two entries share a square —
together: exactly one entry per living piece, coordinates matching the
grid. -/
def IndexExact (b : Board) : Prop :=
  ∀ c l, dget b.pieces c = some l →
    ((∀ e ∈ l, b.cellAt e.2.1 e.2.2 = some e.1 ∧ e.1.color = c) ∧
     (∀ x y p, b.grid (x, y) = some p → p.color = c → (p, x, y) ∈ l) ∧
     l.Pairwise (fun e₁ e₂ => ¬(e₁.2.1 = e₂.2.1 ∧ e₁.2.2 = e₂.2.2)))

/-- The royal-cache exactness invariant of the spec: every royal bucket is
an honest set (not the tuple fallback) holding exactly the coordinates of
the royal pieces of its color. -/
def RoyalExact (b : Board) : Prop :=
  ∀ c bk, dget b.royal c = some bk →
    ∃ lr, bk = .rset lr ∧ lr.Nodup ∧
      (∀ q : Int × Int, q ∈ lr ↔ ∃ p, b.grid q = some p ∧ p.isRoyal = true ∧ p.color = c)

/-- Strengthened induction invariant for boards built by `put`, `clear` and
`apply_move` only: no piece on the grid is royal (none of these three
operations can mark one royal, since the catalog never creates royal
pieces), the royal cache still has its pristine construction value, and the
index is exact. -/
def Good (b : Board) : Prop :=
  (∀ q p, b.grid q = some p → p.isRoyal = false) ∧
  b.royal = [("w", .rset []), ("b", .rset [])] ∧
  IndexExact b

/-- Boards reachable from a fresh board by successful `put`, `clear` and
`apply_move` calls; applied en-passant moves are additionally required to
have an empty destination square (the counterexample shows the invariant is
otherwise lost even on a successful call). -/
inductive ReachedOK : Board → Prop where
  | init (w h : Nat) : ReachedOK (Board.init w h)
  | putStep {b : Board} (x y : Int) (k c : String) : ReachedOK b →
      (b.put x y k c).isOk = true → ReachedOK (b.put x y k c).boardOf
  | clearStep {b : Board} (x y : Int) : ReachedOK b →
      (b.clear x y).isOk = true → ReachedOK (b.clear x y).boardOf
  | applyStep {b : Board} (mv : Move) : ReachedOK b →
      (mv.is_en_passant = true → b.cellAt mv.tx mv.ty = none) →
      (b.applyMove mv).isOk = true → ReachedOK (b.applyMove mv).boardOf

/-- Membership-wise equality of the piece-index buckets of two boards (the
order inside a bucket list is not preserved by the simulate-and-revert
cycle, its content is). -/
def bucketsMemEq (b₁ b₂ : Board) : Prop :=
  ∀ c e, e ∈ b₁.bucketOr c ↔ e ∈ b₂.bucketOr c

/-- Membership-wise equality of the royal caches of two boards (Python sets
compare by content). -/
def royalMemEq (b₁ b₂ : Board) : Prop :=
  ∀ c q, q ∈ b₁.royalOr c ↔ q ∈ b₂.royalOr c

/-- The piece that occupies the destination square after the simulated
move: the promotion replacement when the catalog can construct it, else the
original mover (`u` is the allocation counter at promotion time, which is
the board's counter — no earlier step of `apply_move` allocates). -/
def simOccupant (sp : Piece) (mv : Move) (u : Nat) : Piece :=
  (promoCreate mv sp.color u).getD sp

/-- Decidable side conditions under which `causes_self_check` restores the
board (the amended claim C3): in-bounds move squares; an occupied source
whose piece is indexed in its color bucket; a non-royal mover (a royal
destination occupant makes `apply_move` overwrite the royal-set bucket with
a bare tuple, and the revert then raises — the counterexample); and for the
capture cases a non-royal, opposite-color, properly indexed victim, with an
en-passant destination that is empty and matches the recorded target. -/
def simSafeB (b : Board) (mv : Move) : Bool :=
  b.inB mv.fx mv.fy && b.inB mv.tx mv.ty &&
  (match b.cellAt mv.fx mv.fy with
   | none => false
   | some sp =>
     !sp.isRoyal &&
     (match dget b.pieces sp.color with
      | none => false
      | some ls => decide ((sp, mv.fx, mv.fy) ∈ ls)) &&
     (if mv.is_en_passant then
        match b.ep with
        | some ((etx, ety), (cx, cy)) =>
          (etx == mv.tx && ety == mv.ty) &&
          b.inB cx cy &&
          (b.cellAt mv.tx mv.ty).isNone &&
          (match b.cellAt cx cy with
           | some v =>
             !v.isRoyal && (v.color != sp.color) &&
             (match dget b.pieces v.color with
              | none => false
              | some lv => decide ((v, cx, cy) ∈ lv))
           | none => false)
        | none => false
      else
        match b.cellAt mv.tx mv.ty with
        | none => true
        | some d =>
          !d.isRoyal && (d.color != sp.color) &&
          (match dget b.pieces d.color with
           | none => false
           | some ld => decide ((d, mv.tx, mv.ty) ∈ ld))))

/-- Number of occupied squares of the grid (observation used to state that
a layout actually populated the board). -/
def occupiedCount (b : Board) : Nat :=
  (List.range b.h).foldl
    (fun acc x =>
      (List.range b.w).foldl
        (fun acc y => acc + (if (b.cellAt (x : Int) (y : Int)).isSome then 1 else 0))
        acc)
    0

/-- Whether the catalog knows a kind symbol (the registry key set). -/
def createPieceKnown (k : String) : Bool :=
  k == "K" || k == "Q" || k == "R" || k == "N" || k == "P" ||
  k == "M" || k == "V" || k == "Y" || k == "δ" || k == "H"

/-! ### Concrete scenario boards -/

/-- White King piece value allocated first on a fresh board (not royal). -/
def pKw0 : Piece := { uid := 0, cls := .king, kind := "K", color := "w", isRoyal := false }

/-- The same object after `set_royal` flips its flag. -/
def pKw0r : Piece := { uid := 0, cls := .king, kind := "K", color := "w", isRoyal := true }

/-- White Pawn piece value allocated first on a fresh board. -/
def pPw0 : Piece := { uid := 0, cls := .pawn, kind := "P", color := "w", isRoyal := false }

/-- Black Queen piece value allocated third on a fresh board. -/
def pQb2 : Piece := { uid := 2, cls := .queen, kind := "Q", color := "b", isRoyal := false }

/-- The checkmate-scenario board of the spec (and of the source's own mock
test): White King at (0,0), Black Queen at (1,1), Black King at (2,2),
the White King marked royal. -/
def c1Chain : ARes :=
  ((((Board.init 10 10).put 0 0 "K" "w").andThen fun b =>
    b.put 1 1 "Q" "b").andThen fun b =>
    b.put 2 2 "K" "b").andThen fun b =>
    b.setRoyal 0 0 true

/-- The board produced by `c1Chain`. -/
def c1Board : Board := c1Chain.boardOf

/-- The ValueError text raised by unpacking a 3-tuple index entry into two
names. -/
def unpackMsg : String := "ValueError: too many values to unpack (expected 2)"

/-- A minimal in-check position for C5: royal White King at (0,0), Black
Queen at (1,1). -/
def c5Chain : ARes :=
  (((Board.init 10 10).put 0 0 "K" "w").andThen fun b =>
    b.setRoyal 0 0 true).andThen fun b =>
    b.put 1 1 "Q" "b"

/-- The board produced by `c5Chain`. -/
def c5Board : Board := c5Chain.boardOf

/-- C4 scenario: White King at (0,0) and White Queen at (1,1). -/
def c4Chain : ARes :=
  ((Board.init 10 10).put 0 0 "K" "w").andThen fun b => b.put 1 1 "Q" "w"

/-- The board produced by `c4Chain`. -/
def c4Board : Board := c4Chain.boardOf

/-- White Queen piece value allocated second on a fresh board. -/
def pQw1 : Piece := { uid := 1, cls := .queen, kind := "Q", color := "w", isRoyal := false }

/-- The rejected move of the C4 scenario: King onto the same-color Queen. -/
def c4Move : Move := { fx := 0, fy := 0, tx := 1, ty := 1, piece := pKw0 }

/-- C3 scenario (a): a lone royal White King. -/
def c3aChain : ARes :=
  ((Board.init 10 10).put 0 0 "K" "w").andThen fun b => b.setRoyal 0 0 true

/-- The board produced by `c3aChain`. -/
def c3aBoard : Board := c3aChain.boardOf

/-- The royal king step simulated in scenario (a). -/
def c3aMove : Move := { fx := 0, fy := 0, tx := 0, ty := 1, piece := pKw0r }

/-- C3 scenario (b): non-royal White King at (0,0) and White Rook at (5,5). -/
def c3bChain : ARes :=
  ((Board.init 10 10).put 0 0 "K" "w").andThen fun b => b.put 5 5 "R" "w"

/-- The board produced by `c3bChain`. -/
def c3bBoard : Board := c3bChain.boardOf

/-- The quiet king step simulated in scenario (b). -/
def c3bMove : Move := { fx := 0, fy := 0, tx := 0, ty := 1, piece := pKw0 }

/-- The double-step pawn move used to set an en-passant target in the
en-passant scenarios. -/
def dsMove : Move :=
  { fx := 3, fy := 3, tx := 1, ty := 3, piece := pPw0, is_double_step := true }

/-- C3 scenario (c) (also the second C2 counterexample): a White Pawn
double-steps from (3,3) to (1,3), recording the en-passant target; a White
Knight is then placed on the recorded capture-destination square (2,3) and
a Black Queen on (5,5). -/
def c3cChain : ARes :=
  ((((Board.init 10 10).put 3 3 "P" "w").andThen fun b =>
    b.applyMove dsMove).andThen fun b =>
    b.put 2 3 "N" "w").andThen fun b =>
    b.put 5 5 "Q" "b"

/-- The board produced by `c3cChain`. -/
def c3cBoard : Board := c3cChain.boardOf

/-- The en-passant capture into the occupied destination square. -/
def c3cMove : Move :=
  { fx := 5, fy := 5, tx := 2, ty := 3, piece := pQb2, is_en_passant := true }

/-- C3 witness scenario: King and Rook board with a quiet king step whose
side conditions hold. -/
def c3wBoard : Board := c3bBoard

/-- C9 scenario: the default layout loaded on a fresh 10×10 board. -/
def c9Res : ARes := (Board.init 10 10).setupFromLayout

/-- The board produced by `c9Res`. -/
def c9Board : Board := c9Res.boardOf

/-- C7 witness scenario: a lone White Pawn at (3,3). -/
def c7Chain : ARes := (Board.init 10 10).put 3 3 "P" "w"

/-- The board produced by `c7Chain`. -/
def c7Board : Board := c7Chain.boardOf

/-- A move carrying an unknown promotion kind symbol. -/
def c7Move : Move :=
  { fx := 3, fy := 3, tx := 2, ty := 3, piece := pPw0, promotion_to := some "Z" }

/-- C6 witness scenario: the game holding the C4 board, White to move. -/
def c6Game : Game := Game.start c4Board "w"

/-- A quiet king step for the C6 witness (no capture, king kind). -/
def c6Move : Move := { fx := 0, fy := 0, tx := 0, ty := 1, piece := pKw0 }

/-! ### General lemmas -/

/-- A board whose two index buckets are empty has an empty bucket for every
color string (the dict lookup finds nothing else). -/
theorem bucketOr_of_pieces_empties (b : Board)
    (hp : b.pieces = [("w", []), ("b", [])]) (c : String) : b.bucketOr c = [] := by
  unfold Board.bucketOr
  rw [hp]
  by_cases h1 : ("w" : String) = c <;> by_cases h2 : ("b" : String) = c <;>
    simp [dget, h1, h2]

/-! ### Claim C1 -/

/-- C1: the claim states that on the checkmate scenario board (White King
at (0,0) marked royal, Black Queen at (1,1), Black King at (2,2)) the
queries return `is_in_check("White") = true`, an empty
`legal_moves_for("White")` list and `is_checkmated("White") = true`.  The
code delivers only the first: `is_in_check` is true, but
`legal_moves_for` — and hence `is_checkmated`, which calls it — raises
`ValueError: too many values to unpack (expected 2)`, because its attacker
loop unpacks the 3-tuple `_pieces` entries `(piece, x, y)` into the two
names `(ax, ay)`.  This theorem evaluates the embedded code on exactly that
board. -/
theorem c1_checkmate_queries_crash :
    c1Chain.isOk = true ∧
    c1Board.isInCheck "w" = .ok true ∧
    c1Board.legalMovesFor "w" = .error unpackMsg ∧
    c1Board.isCheckmated "w" = .error unpackMsg :=
  ⟨rfl, rfl, rfl, rfl⟩

/-! ### Claim C5 -/

/-- C5: the claim states that the pruned `legal_moves_for` returns, as a
set, exactly the result of the naive enumerate-and-filter reference.  On
any position with at least one indexed piece on either side the pruned
implementation returns no set at all: its very first loop over the
opponent's index entries unpacks 3-tuples into two names and raises
`ValueError: too many values to unpack (expected 2)` (and the naive
reference would crash in `causes_self_check` on every simulated royal-king
move as well).  This theorem evaluates the pruned enumeration on a minimal
in-check position — royal White King at (0,0), Black Queen at (1,1) — and
shows it raises instead of producing a move set. -/
theorem c5_pruned_enumeration_crashes :
    c5Chain.isOk = true ∧
    c5Board.isInCheck "w" = .ok true ∧
    c5Board.legalMovesFor "w" = .error unpackMsg :=
  ⟨rfl, rfl, rfl⟩

/-! ### Claim C4 -/

/-- C4: the claim states that every rejected `apply_move` fails before
mutating anything.  The code removes the source entry from the piece index
**before** validating the destination: rejecting the move King (0,0) →
(1,1) onto the same-color Queen raises
"Destination occupied by same-color piece." yet leaves the index bucket of
White as `[(Queen,1,1)]` — the King entry is gone while the King is still
on the grid (grid, royal cache and en-passant target are indeed
unchanged).  This theorem evaluates the embedded code at that failing
input. -/
theorem c4_rejected_move_mutates_index :
    c4Chain.isOk = true ∧
    (c4Board.applyMove c4Move).isOk = false ∧
    (c4Board.applyMove c4Move).errMsg = some "Destination occupied by same-color piece." ∧
    dget c4Board.pieces "w" = some [(pKw0, 0, 0), (pQw1, 1, 1)] ∧
    dget (c4Board.applyMove c4Move).boardOf.pieces "w" = some [(pQw1, 1, 1)] ∧
    (c4Board.applyMove c4Move).boardOf.cellAt 0 0 = some pKw0 ∧
    (c4Board.applyMove c4Move).boardOf.asAscii = c4Board.asAscii ∧
    (c4Board.applyMove c4Move).boardOf.ep = c4Board.ep ∧
    (c4Board.applyMove c4Move).boardOf.royal = c4Board.royal :=
  ⟨rfl, rfl, rfl, rfl, rfl, rfl, rfl, rfl, rfl⟩

/-! ### Claim C9 -/

/-- C9: `setup_from_layout` writes the sixty pieces of the default layout
straight into the grid squares and never touches the per-color piece
index, so immediately afterwards both index buckets are empty; because
`is_square_attacked` iterates only the (empty) attacker bucket, it returns
false for every square and every color, and `is_in_check` — which tests
the two royal squares the setup marked — returns false for both colors,
even though the grid holds the full sixty-piece position. -/
theorem c9_layout_leaves_index_empty :
    c9Res.isOk = true ∧
    dget c9Board.pieces "w" = some [] ∧
    dget c9Board.pieces "b" = some [] ∧
    (∀ x y : Int, ∀ c : String, c9Board.isSquareAttacked x y c = .ok false) ∧
    c9Board.isInCheck "w" = .ok false ∧
    c9Board.isInCheck "b" = .ok false ∧
    occupiedCount c9Board = 60 := by
  refine ⟨rfl, rfl, rfl, ?_, rfl, rfl, rfl⟩
  intro x y c
  unfold Board.isSquareAttacked
  rw [bucketOr_of_pieces_empties c9Board (by decide) c]
  rfl

/-! ### Claim C10 -/

/-- C10: the `Piece` constructor uppercases the kind code, so the catalog's
Sergeant (symbol 'δ') reports kind 'Δ' — the capital delta that the
pawn-like set `{"P", "Δ"}` of `Game.play` matches — while every other
registered kind already is its uppercase symbol and is reported
unchanged. -/
theorem c10_sergeant_kind_uppercased (c : String) (u : Nat) :
    (createPiece "δ" c u).map Piece.kind = some "Δ" ∧
    pawnLikeKind "Δ" = true ∧
    (createPiece "K" c u).map Piece.kind = some "K" ∧
    (createPiece "Q" c u).map Piece.kind = some "Q" ∧
    (createPiece "R" c u).map Piece.kind = some "R" ∧
    (createPiece "N" c u).map Piece.kind = some "N" ∧
    (createPiece "P" c u).map Piece.kind = some "P" ∧
    (createPiece "M" c u).map Piece.kind = some "M" ∧
    (createPiece "V" c u).map Piece.kind = some "V" ∧
    (createPiece "Y" c u).map Piece.kind = some "Y" ∧
    (createPiece "H" c u).map Piece.kind = some "H" :=
  ⟨rfl, rfl, rfl, rfl, rfl, rfl, rfl, rfl, rfl, rfl, rfl⟩

/-- Assoc-list dict: reading back the key just written. -/
theorem dget_dset_self {α : Type} (d : List (String × α)) (k : String) (v : α) :
    dget (dset d k v) k = some v := by
  induction d with
  | nil => simp [dget, dset]
  | cons e d ih =>
    by_cases he : e.1 = k <;> simp [dget, dset, he, ih]

/-- Assoc-list dict: writing one key leaves every other key unchanged. -/
theorem dget_dset_ne {α : Type} (d : List (String × α)) (k k' : String) (v : α)
    (h : k' ≠ k) : dget (dset d k v) k' = dget d k' := by
  induction d with
  | nil => simp [dget, dset, Ne.symm h]
  | cons e d ih =>
    by_cases he : e.1 = k <;> by_cases he' : e.1 = k'
    · exact absurd (he.symm.trans he') (Ne.symm h)
    · simp [dget, dset, he, he', Ne.symm h]
    · simp [dget, dset, he, he', h, ih]
    · simp [dget, dset, he, he', ih]

/-- The bucket accessor under a known lookup. -/
theorem bucketOr_eq_of_dget (b : Board) (c : String) (l : List (Piece × Int × Int))
    (h : dget b.pieces c = some l) : b.bucketOr c = l := by
  unfold Board.bucketOr
  rw [h]

/-- Projections of `setCell`: the grid is a pointwise update. -/
theorem setCell_grid (b : Board) (x y : Int) (v : Option Piece) :
    (b.setCell x y v).grid = Function.update b.grid (x, y) v := rfl

/-- `setCell` leaves the piece index unchanged. -/
theorem setCell_pieces (b : Board) (x y : Int) (v : Option Piece) :
    (b.setCell x y v).pieces = b.pieces := rfl

/-- Reading back the square just written. -/
theorem cellAt_setCell_self (b : Board) (x y : Int) (v : Option Piece) :
    (b.setCell x y v).cellAt x y = v := by
  unfold Board.cellAt Board.setCell
  simp [Function.update]

/-- Reading any other square after a write. -/
theorem cellAt_setCell_ne (b : Board) (x y x' y' : Int) (v : Option Piece)
    (h : ¬ (x' = x ∧ y' = y)) : (b.setCell x y v).cellAt x' y' = b.cellAt x' y' := by
  unfold Board.cellAt Board.setCell
  have hq : ((x', y') : Int × Int) ≠ (x, y) := by
    intro hq
    exact h ⟨congrArg Prod.fst hq, congrArg Prod.snd hq⟩
  simp [Function.update, hq]

/-- `_index_remove` on an empty square is the identity. -/
theorem indexRemove_none (b : Board) (x y : Int) (h : b.cellAt x y = none) :
    b.indexRemove x y = .ok b := by
  simp only [Board.indexRemove, h]

/-- `_index_remove` on an occupied square with a live bucket pops the first
matching entry. -/
theorem indexRemove_some (b : Board) (x y : Int) (p : Piece) (l : List (Piece × Int × Int))
    (h : b.cellAt x y = some p) (hg : dget b.pieces p.color = some l) :
    b.indexRemove x y = .ok { b with pieces := dset b.pieces p.color (l.eraseP (fun e => e.1 == p && e.2.1 == x && e.2.2 == y)) } := by
  simp only [Board.indexRemove, h, hg]

/-- `_index_add` on an empty square is the identity. -/
theorem indexAdd_none (b : Board) (x y : Int) (h : b.cellAt x y = none) :
    b.indexAdd x y = .ok b := by
  simp only [Board.indexAdd, h]

/-- `_index_add` on an occupied square with a live bucket appends. -/
theorem indexAdd_some (b : Board) (x y : Int) (p : Piece) (l : List (Piece × Int × Int))
    (h : b.cellAt x y = some p) (hg : dget b.pieces p.color = some l) :
    b.indexAdd x y = .ok { b with pieces := dset b.pieces p.color (l ++ [(p, x, y)]) } := by
  simp only [Board.indexAdd, h, hg]

/-- Discarding from an honest royal set bucket. -/
theorem royalDiscard_rset (b : Board) (c : String) (q : Int × Int)
    (r : List (Int × Int)) (h : dget b.royal c = some (.rset r)) :
    b.royalDiscard c q = .ok { b with royal := dset b.royal c (.rset (r.erase q)) } := by
  simp only [Board.royalDiscard, h]

/-- The swallowed-exception royal re-add on an honest set bucket. -/
theorem royalAddSafe_rset (b : Board) (c : String) (q : Int × Int)
    (r : List (Int × Int)) (h : dget b.royal c = some (.rset r)) :
    b.royalAddSafe c q = { b with royal := dset b.royal c (.rset (rsetAdd r q)) } := by
  simp only [Board.royalAddSafe, Board.royalInsert, h]

/-- `clear` on an occupied square with a non-royal occupant. -/
theorem clear_some_nonroyal (b : Board) (x y : Int) (p : Piece) (l : List (Piece × Int × Int))
    (hin : b.inB x y = true) (h : b.cellAt x y = some p) (hr : p.isRoyal = false)
    (hg : dget b.pieces p.color = some l) :
    b.clear x y = .ok (Board.setCell { b with pieces := dset b.pieces p.color (l.eraseP (fun e => e.1 == p && e.2.1 == x && e.2.2 == y)) } x y none) := by
  have h1 := indexRemove_some b x y p l h hg
  simp [Board.clear, hin, h, hr, h1, ARes.andThen]

/-- `clear` on an occupied square with a royal occupant whose royal bucket
is an honest set. -/
theorem clear_some_royal (b : Board) (x y : Int) (p : Piece) (l : List (Piece × Int × Int))
    (r : List (Int × Int))
    (hin : b.inB x y = true) (h : b.cellAt x y = some p) (hr : p.isRoyal = true)
    (hrg : dget b.royal p.color = some (.rset r))
    (hg : dget b.pieces p.color = some l) :
    b.clear x y = .ok (Board.setCell { b with royal := dset b.royal p.color (.rset (r.erase (x, y))), pieces := dset b.pieces p.color (l.eraseP (fun e => e.1 == p && e.2.1 == x && e.2.2 == y)) } x y none) := by
  have h1 := royalDiscard_rset b p.color (x, y) r hrg
  have h2 : ({ b with royal := dset b.royal p.color (.rset (r.erase (x, y))) } : Board).cellAt x y = some p := h
  have h3 : dget ({ b with royal := dset b.royal p.color (.rset (r.erase (x, y))) } : Board).pieces p.color = some l := hg
  have h4 := indexRemove_some _ x y p l h2 h3
  simp [Board.clear, hin, h, hr, h1, h4, ARes.andThen]

/-- `clear` on an empty square is the identity. -/
theorem clear_none (b : Board) (x y : Int) (hin : b.inB x y = true)
    (h : b.cellAt x y = none) : b.clear x y = .ok b := by
  simp [Board.clear, hin, h]

/-- Pieces built by the catalog carry the requested color and are never
royal. -/
theorem createPiece_color {k c : String} {u : Nat} {p : Piece}
    (h : createPiece k c u = some p) : p.color = c ∧ p.isRoyal = false := by
  unfold createPiece at h
  split_ifs at h <;>
    first
      | (simp only [Option.some.injEq] at h; subst h; exact ⟨rfl, rfl⟩)
      | exact Option.noConfusion h

/-- The promotion constructor either fails or yields a non-royal piece of
the mover's color. -/
theorem promoCreate_color {mv : Move} {c : String} {u : Nat} {p : Piece}
    (h : promoCreate mv c u = some p) : p.color = c ∧ p.isRoyal = false := by
  unfold promoCreate at h
  cases hp : mv.promotion_to with
  | none => rw [hp] at h; exact Option.noConfusion h
  | some s => rw [hp] at h; exact createPiece_color h

/-- The simulated destination occupant keeps the mover's color. -/
theorem simOccupant_color (sp : Piece) (mv : Move) (u : Nat) :
    (simOccupant sp mv u).color = sp.color := by
  unfold simOccupant
  cases hc : promoCreate mv sp.color u with
  | none => rfl
  | some pr => simpa using (promoCreate_color hc).1

/-- The simulated destination occupant of a non-royal mover is not royal. -/
theorem simOccupant_royal (sp : Piece) (mv : Move) (u : Nat) (h : sp.isRoyal = false) :
    (simOccupant sp mv u).isRoyal = false := by
  unfold simOccupant
  cases hc : promoCreate mv sp.color u with
  | none => exact h
  | some pr => simpa using (promoCreate_color hc).2

/-- Projections of the promotion placement applied over the freshly set
mover: the grid update collapses to the final occupant, everything else is
untouched. -/
theorem promoPlace_proj (b : Board) (mv : Move) (P : Option Piece) (sp : Piece) :
    (promoPlace (b.setCell mv.tx mv.ty (some sp)) mv P).grid
        = Function.update b.grid (mv.tx, mv.ty) (some (P.getD sp)) ∧
    (promoPlace (b.setCell mv.tx mv.ty (some sp)) mv P).pieces = b.pieces ∧
    (promoPlace (b.setCell mv.tx mv.ty (some sp)) mv P).royal = b.royal ∧
    (promoPlace (b.setCell mv.tx mv.ty (some sp)) mv P).ep = b.ep ∧
    (promoPlace (b.setCell mv.tx mv.ty (some sp)) mv P).w = b.w ∧
    (promoPlace (b.setCell mv.tx mv.ty (some sp)) mv P).h = b.h := by
  cases P with
  | none => exact ⟨rfl, rfl, rfl, rfl, rfl, rfl⟩
  | some pr =>
    refine ⟨?_, rfl, rfl, rfl, rfl, rfl⟩
    show Function.update (Function.update b.grid (mv.tx, mv.ty) (some sp)) (mv.tx, mv.ty) (some pr) = _
    rw [Function.update_idem]
    rfl

/-- Projections of the en-passant finalization step. -/
theorem epFinalize_proj (b : Board) (mv : Move) :
    (epFinalize b mv).ep = computeEnPassantTarget mv ∧
    (epFinalize b mv).grid = b.grid ∧
    (epFinalize b mv).pieces = b.pieces ∧
    (epFinalize b mv).royal = b.royal ∧
    (epFinalize b mv).w = b.w ∧
    (epFinalize b mv).h = b.h := by
  cases hds : mv.is_double_step <;>
    simp [epFinalize, computeEnPassantTarget, hds] <;> exact ⟨rfl, rfl, rfl, rfl, rfl⟩

/-! ### Characterizations of a successful `apply_move` (for claims C2 and C3) -/

/-- Steps 3–5 of `apply_move` on any board whose source square holds a
non-royal, color-indexed piece: the call succeeds, the mover (or its
promotion replacement) lands on the destination, the source bucket loses
one matching entry and gains the destination entry, and the en-passant
target is finalized. -/
theorem applyMoveTail_char (b : Board) (mv : Move) (sp : Piece) (lb : List (Piece × Int × Int))
    (hfx : b.inB mv.fx mv.fy = true)
    (hsrc : b.cellAt mv.fx mv.fy = some sp) (hspr : sp.isRoyal = false)
    (hpc : dget b.pieces sp.color = some lb) :
    ∃ b₁, applyMoveTail b mv sp = .ok b₁ ∧
      b₁.w = b.w ∧ b₁.h = b.h ∧
      b₁.grid = Function.update (Function.update b.grid (mv.fx, mv.fy) none) (mv.tx, mv.ty) (some (simOccupant sp mv b.nextUid)) ∧
      dget b₁.pieces sp.color = some ((lb.eraseP (fun e => e.1 == sp && e.2.1 == mv.fx && e.2.2 == mv.fy)) ++ [(simOccupant sp mv b.nextUid, mv.tx, mv.ty)]) ∧
      (∀ c, c ≠ sp.color → dget b₁.pieces c = dget b.pieces c) ∧
      b₁.royal = b.royal ∧
      b₁.ep = computeEnPassantTarget mv := by
  set m : (Piece × Int × Int) → Bool := fun e => e.1 == sp && e.2.1 == mv.fx && e.2.2 == mv.fy with hm
  have h2 := clear_some_nonroyal b mv.fx mv.fy sp lb hfx hsrc hspr hpc
  set ls2 : List (Piece × Int × Int) := lb.eraseP m with hls2
  set B2 : Board := Board.setCell { b with pieces := dset b.pieces sp.color ls2 } mv.fx mv.fy none with hB2
  set P : Option Piece := promoCreate mv sp.color b.nextUid with hP
  set occ : Piece := P.getD sp with hocc
  set BS : Board := B2.setCell mv.tx mv.ty (some sp) with hBS
  set BP : Board := promoPlace BS mv P with hBP
  have hproj := promoPlace_proj B2 mv P sp
  have hBPcell : BP.cellAt mv.tx mv.ty = some occ := by
    show BP.grid (mv.tx, mv.ty) = some occ
    rw [hBP, hBS, hproj.1]
    simp [Function.update]
  have hoccc : occ.color = sp.color := by
    rw [hocc, hP]
    exact simOccupant_color sp mv b.nextUid
  have hBPget : dget BP.pieces occ.color = some ls2 := by
    rw [hoccc, hBP, hBS, hproj.2.1]
    show dget (dset b.pieces sp.color ls2) sp.color = some ls2
    exact dget_dset_self _ _ _
  have h3 := indexAdd_some BP mv.tx mv.ty occ ls2 hBPcell hBPget
  have hoccr : occ.isRoyal = false := by
    rw [hocc, hP]
    exact simOccupant_royal sp mv b.nextUid hspr
  set B3 : Board := { BP with pieces := dset BP.pieces occ.color (ls2 ++ [(occ, mv.tx, mv.ty)]) } with hB3
  have hmain : applyMoveTail b mv sp = .ok (epFinalize B3 mv) := by
    unfold applyMoveTail
    rw [h2]
    simp only [ARes.andThen]
    have hnu : (B2.setCell mv.tx mv.ty (some sp)).nextUid = b.nextUid := rfl
    rw [hnu, ← hP, ← hBS, ← hBP, ← hocc, h3]
    simp only [hoccr, Bool.false_eq_true, if_false]
  have hepj := epFinalize_proj B3 mv
  refine ⟨epFinalize B3 mv, hmain, ?_, ?_, ?_, ?_, ?_, ?_, ?_⟩
  · rw [hepj.2.2.2.2.1]
    show BP.w = b.w
    rw [hBP, hBS, hproj.2.2.2.2.1]
    rfl
  · rw [hepj.2.2.2.2.2]
    show BP.h = b.h
    rw [hBP, hBS, hproj.2.2.2.2.2]
    rfl
  · rw [hepj.2.1]
    show BP.grid = _
    rw [hBP, hBS, hproj.1]
    rfl
  · rw [hepj.2.2.1]
    show dget (dset BP.pieces occ.color (ls2 ++ [(occ, mv.tx, mv.ty)])) sp.color = _
    rw [hoccc]
    rw [dget_dset_self]
    rfl
  · intro c hc
    rw [hepj.2.2.1]
    show dget (dset BP.pieces occ.color (ls2 ++ [(occ, mv.tx, mv.ty)])) c = _
    rw [hoccc, dget_dset_ne _ _ _ _ hc]
    rw [hBP, hBS, hproj.2.1]
    show dget (dset b.pieces sp.color ls2) c = _
    rw [dget_dset_ne _ _ _ _ hc]
  · rw [hepj.2.2.2.1]
    show BP.royal = b.royal
    rw [hBP, hBS, hproj.2.2.1]
    rfl
  · exact hepj.1

/-- `apply_move` on a quiet move (no capture, no en passant) of a
non-royal indexed piece to an empty in-bounds square: full state
characterization of the resulting board. -/
theorem applyMove_char_A (b : Board) (mv : Move) (sp : Piece) (ls : List (Piece × Int × Int))
    (hfx : b.inB mv.fx mv.fy = true) (htx : b.inB mv.tx mv.ty = true)
    (hsrc : b.cellAt mv.fx mv.fy = some sp) (hspr : sp.isRoyal = false)
    (hep : mv.is_en_passant = false) (hdst : b.cellAt mv.tx mv.ty = none)
    (hpc : dget b.pieces sp.color = some ls) :
    ∃ b₁, b.applyMove mv = .ok b₁ ∧
      b₁.w = b.w ∧ b₁.h = b.h ∧
      b₁.grid = Function.update (Function.update b.grid (mv.fx, mv.fy) none) (mv.tx, mv.ty) (some (simOccupant sp mv b.nextUid)) ∧
      dget b₁.pieces sp.color = some (((ls.eraseP (fun e => e.1 == sp && e.2.1 == mv.fx && e.2.2 == mv.fy)).eraseP (fun e => e.1 == sp && e.2.1 == mv.fx && e.2.2 == mv.fy)) ++ [(simOccupant sp mv b.nextUid, mv.tx, mv.ty)]) ∧
      (∀ c, c ≠ sp.color → dget b₁.pieces c = dget b.pieces c) ∧
      b₁.royal = b.royal ∧
      b₁.ep = computeEnPassantTarget mv := by
  have h1 := indexRemove_some b mv.fx mv.fy sp ls hsrc hpc
  set m : (Piece × Int × Int) → Bool := fun e => e.1 == sp && e.2.1 == mv.fx && e.2.2 == mv.fy with hm
  set B1 : Board := { b with pieces := dset b.pieces sp.color (ls.eraseP m) } with hB1
  have hB1fx : B1.inB mv.fx mv.fy = true := hfx
  have hB1src : B1.cellAt mv.fx mv.fy = some sp := hsrc
  have hB1pc : dget B1.pieces sp.color = some (ls.eraseP m) := dget_dset_self _ _ _
  obtain ⟨b₁, htail, hw, hh, hg, hcs, hco, hr, hepr⟩ :=
    applyMoveTail_char B1 mv sp (ls.eraseP m) hB1fx hB1src hspr hB1pc
  have hdstB1 : B1.cellAt mv.tx mv.ty = none := hdst
  have hmain : b.applyMove mv = .ok b₁ := by
    unfold Board.applyMove
    rw [hsrc]
    simp only [hfx, htx, not_true, if_false]
    rw [h1]
    simp only [ARes.andThen]
    simp only [hep, Bool.false_eq_true, if_false]
    rw [hdstB1]
    simp only []
    exact htail
  refine ⟨b₁, hmain, hw, hh, ?_, hcs, ?_, hr, hepr⟩
  · rw [hg]
  · intro c hc
    rw [hco c hc]
    exact dget_dset_ne _ _ _ _ hc

/-- `apply_move` on an ordinary capture by a non-royal indexed piece of a
non-royal indexed opposite-color piece: full state characterization.  The
destination bucket is erased **twice** (`_index_remove` then `clear`). -/
theorem applyMove_char_B (b : Board) (mv : Move) (sp d : Piece)
    (ls ld : List (Piece × Int × Int))
    (hfx : b.inB mv.fx mv.fy = true) (htx : b.inB mv.tx mv.ty = true)
    (hsrc : b.cellAt mv.fx mv.fy = some sp) (hspr : sp.isRoyal = false)
    (hep : mv.is_en_passant = false) (hdst : b.cellAt mv.tx mv.ty = some d)
    (hdr : d.isRoyal = false) (hdc : d.color ≠ sp.color)
    (hpc : dget b.pieces sp.color = some ls)
    (hpd : dget b.pieces d.color = some ld) :
    ∃ b₁, b.applyMove mv = .ok b₁ ∧
      b₁.w = b.w ∧ b₁.h = b.h ∧
      b₁.grid = Function.update (Function.update (Function.update b.grid (mv.tx, mv.ty) none) (mv.fx, mv.fy) none) (mv.tx, mv.ty) (some (simOccupant sp mv b.nextUid)) ∧
      dget b₁.pieces sp.color = some (((ls.eraseP (fun e => e.1 == sp && e.2.1 == mv.fx && e.2.2 == mv.fy)).eraseP (fun e => e.1 == sp && e.2.1 == mv.fx && e.2.2 == mv.fy)) ++ [(simOccupant sp mv b.nextUid, mv.tx, mv.ty)]) ∧
      dget b₁.pieces d.color = some ((ld.eraseP (fun e => e.1 == d && e.2.1 == mv.tx && e.2.2 == mv.ty)).eraseP (fun e => e.1 == d && e.2.1 == mv.tx && e.2.2 == mv.ty)) ∧
      (∀ c, c ≠ sp.color → c ≠ d.color → dget b₁.pieces c = dget b.pieces c) ∧
      b₁.royal = b.royal ∧
      b₁.ep = computeEnPassantTarget mv := by
  have hne : ¬ (mv.fx = mv.tx ∧ mv.fy = mv.ty) := by
    rintro ⟨hx, hy⟩
    rw [hx, hy, hdst] at hsrc
    exact hdc (by injection hsrc with h; rw [h])
  have h1 := indexRemove_some b mv.fx mv.fy sp ls hsrc hpc
  set m : (Piece × Int × Int) → Bool := fun e => e.1 == sp && e.2.1 == mv.fx && e.2.2 == mv.fy with hm
  set md : (Piece × Int × Int) → Bool := fun e => e.1 == d && e.2.1 == mv.tx && e.2.2 == mv.ty with hmd
  set B1 : Board := { b with pieces := dset b.pieces sp.color (ls.eraseP m) } with hB1
  have hB1dst : B1.cellAt mv.tx mv.ty = some d := hdst
  have hB1d : dget B1.pieces d.color = some ld := by
    rw [hB1]
    show dget (dset b.pieces sp.color (ls.eraseP m)) d.color = some ld
    rw [dget_dset_ne _ _ _ _ hdc]
    exact hpd
  have h2 := indexRemove_some B1 mv.tx mv.ty d ld hB1dst hB1d
  set B1d : Board := { B1 with pieces := dset B1.pieces d.color (ld.eraseP md) } with hB1d2
  have hB1ddst : B1d.cellAt mv.tx mv.ty = some d := hdst
  have hB1dtx : B1d.inB mv.tx mv.ty = true := htx
  have hB1dget : dget B1d.pieces d.color = some (ld.eraseP md) := dget_dset_self _ _ _
  have h3 := clear_some_nonroyal B1d mv.tx mv.ty d (ld.eraseP md) hB1dtx hB1ddst hdr hB1dget
  set Bb : Board := Board.setCell { B1d with pieces := dset B1d.pieces d.color ((ld.eraseP md).eraseP md) } mv.tx mv.ty none with hBb
  have hBbfx : Bb.inB mv.fx mv.fy = true := hfx
  have hBbsrc : Bb.cellAt mv.fx mv.fy = some sp := by
    rw [hBb, cellAt_setCell_ne _ _ _ _ _ _ hne]
    exact hsrc
  have hscdc : sp.color ≠ d.color := fun h => hdc h.symm
  have hBbpc : dget Bb.pieces sp.color = some (ls.eraseP m) := by
    show dget (dset B1d.pieces d.color ((ld.eraseP md).eraseP md)) sp.color = _
    rw [dget_dset_ne _ _ _ _ hscdc]
    show dget (dset B1.pieces d.color (ld.eraseP md)) sp.color = _
    rw [dget_dset_ne _ _ _ _ hscdc]
    exact dget_dset_self _ _ _
  obtain ⟨b₁, htail, hw, hh, hg, hcs, hco, hr, hepr⟩ :=
    applyMoveTail_char Bb mv sp (ls.eraseP m) hBbfx hBbsrc hspr hBbpc
  have hmain : b.applyMove mv = .ok b₁ := by
    unfold Board.applyMove
    rw [hsrc]
    simp only [hfx, htx, not_true, if_false]
    rw [h1]
    simp only [ARes.andThen]
    simp only [hep, Bool.false_eq_true, if_false]
    rw [hB1dst]
    simp only [if_neg hdc]
    simp only [hep, Bool.false_eq_true, not_false_eq_true, if_true]
    rw [h2]
    simp only [ARes.andThen]
    rw [h3]
    simp only [ARes.andThen]
    exact htail
  refine ⟨b₁, hmain, hw, hh, ?_, hcs, ?_, ?_, hr, hepr⟩
  · exact hg.trans rfl
  · rw [hco d.color hdc]
    show dget (dset B1d.pieces d.color ((ld.eraseP md).eraseP md)) d.color = _
    exact dget_dset_self _ _ _
  · intro c hc hc2
    rw [hco c hc]
    show dget (dset B1d.pieces d.color ((ld.eraseP md).eraseP md)) c = _
    rw [dget_dset_ne _ _ _ _ hc2]
    show dget (dset B1.pieces d.color (ld.eraseP md)) c = _
    rw [dget_dset_ne _ _ _ _ hc2]
    show dget (dset b.pieces sp.color (ls.eraseP m)) c = _
    rw [dget_dset_ne _ _ _ _ hc]

/-- `apply_move` on an en-passant capture with an empty destination and a
non-royal indexed victim on the recorded victim square: full state
characterization. -/
theorem applyMove_char_C (b : Board) (mv : Move) (sp v : Piece) (cx cy : Int)
    (ls lv : List (Piece × Int × Int))
    (hfx : b.inB mv.fx mv.fy = true) (htx : b.inB mv.tx mv.ty = true)
    (hsrc : b.cellAt mv.fx mv.fy = some sp) (hspr : sp.isRoyal = false)
    (hep : mv.is_en_passant = true)
    (hept : b.ep = some ((mv.tx, mv.ty), (cx, cy)))
    (hcin : b.inB cx cy = true)
    (hvic : b.cellAt cx cy = some v) (hvr : v.isRoyal = false)
    (hvc : v.color ≠ sp.color)
    (hdst : b.cellAt mv.tx mv.ty = none)
    (hpc : dget b.pieces sp.color = some ls)
    (hpv : dget b.pieces v.color = some lv) :
    ∃ b₁, b.applyMove mv = .ok b₁ ∧
      b₁.w = b.w ∧ b₁.h = b.h ∧
      b₁.grid = Function.update (Function.update (Function.update b.grid (cx, cy) none) (mv.fx, mv.fy) none) (mv.tx, mv.ty) (some (simOccupant sp mv b.nextUid)) ∧
      dget b₁.pieces sp.color = some (((ls.eraseP (fun e => e.1 == sp && e.2.1 == mv.fx && e.2.2 == mv.fy)).eraseP (fun e => e.1 == sp && e.2.1 == mv.fx && e.2.2 == mv.fy)) ++ [(simOccupant sp mv b.nextUid, mv.tx, mv.ty)]) ∧
      dget b₁.pieces v.color = some ((lv.eraseP (fun e => e.1 == v && e.2.1 == cx && e.2.2 == cy)).eraseP (fun e => e.1 == v && e.2.1 == cx && e.2.2 == cy)) ∧
      (∀ c, c ≠ sp.color → c ≠ v.color → dget b₁.pieces c = dget b.pieces c) ∧
      b₁.royal = b.royal ∧
      b₁.ep = computeEnPassantTarget mv := by
  have hnec : ¬ (mv.fx = cx ∧ mv.fy = cy) := by
    rintro ⟨hx, hy⟩
    rw [hx, hy, hvic] at hsrc
    exact hvc (by injection hsrc with h; rw [h])
  have hnetc : ¬ (mv.tx = cx ∧ mv.ty = cy) := by
    rintro ⟨hx, hy⟩
    rw [hx, hy, hvic] at hdst
    exact Option.noConfusion hdst
  have hnetf : ¬ (mv.fx = mv.tx ∧ mv.fy = mv.ty) := by
    rintro ⟨hx, hy⟩
    rw [hx, hy, hdst] at hsrc
    exact Option.noConfusion hsrc
  have h1 := indexRemove_some b mv.fx mv.fy sp ls hsrc hpc
  set m : (Piece × Int × Int) → Bool := fun e => e.1 == sp && e.2.1 == mv.fx && e.2.2 == mv.fy with hm
  set mw : (Piece × Int × Int) → Bool := fun e => e.1 == v && e.2.1 == cx && e.2.2 == cy with hmw
  set B1 : Board := { b with pieces := dset b.pieces sp.color (ls.eraseP m) } with hB1
  have hB1ep : B1.ep = some ((mv.tx, mv.ty), (cx, cy)) := hept
  have hB1vic : B1.cellAt cx cy = some v := hvic
  have hB1v : dget B1.pieces v.color = some lv := by
    show dget (dset b.pieces sp.color (ls.eraseP m)) v.color = some lv
    rw [dget_dset_ne _ _ _ _ hvc]
    exact hpv
  have h2 := indexRemove_some B1 cx cy v lv hB1vic hB1v
  set B1v : Board := { B1 with pieces := dset B1.pieces v.color (lv.eraseP mw) } with hB1v2
  have hB1vvic : B1v.cellAt cx cy = some v := hvic
  have hB1vcin : B1v.inB cx cy = true := hcin
  have hB1vget : dget B1v.pieces v.color = some (lv.eraseP mw) := dget_dset_self _ _ _
  have h3 := clear_some_nonroyal B1v cx cy v (lv.eraseP mw) hB1vcin hB1vvic hvr hB1vget
  set Bv : Board := Board.setCell { B1v with pieces := dset B1v.pieces v.color ((lv.eraseP mw).eraseP mw) } cx cy none with hBv
  have hBvdst : Bv.cellAt mv.tx mv.ty = none := by
    rw [hBv, cellAt_setCell_ne _ _ _ _ _ _ hnetc]
    exact hdst
  have hBvfx : Bv.inB mv.fx mv.fy = true := hfx
  have hBvsrc : Bv.cellAt mv.fx mv.fy = some sp := by
    rw [hBv, cellAt_setCell_ne _ _ _ _ _ _ hnec]
    exact hsrc
  have hscvc : sp.color ≠ v.color := fun h => hvc h.symm
  have hBvpc : dget Bv.pieces sp.color = some (ls.eraseP m) := by
    show dget (dset B1v.pieces v.color ((lv.eraseP mw).eraseP mw)) sp.color = _
    rw [dget_dset_ne _ _ _ _ hscvc]
    show dget (dset B1.pieces v.color (lv.eraseP mw)) sp.color = _
    rw [dget_dset_ne _ _ _ _ hscvc]
    exact dget_dset_self _ _ _
  obtain ⟨b₁, htail, hw, hh, hg, hcs, hco, hr, hepr⟩ :=
    applyMoveTail_char Bv mv sp (ls.eraseP m) hBvfx hBvsrc hspr hBvpc
  have hmain : b.applyMove mv = .ok b₁ := by
    unfold Board.applyMove
    rw [hsrc]
    simp only [hfx, htx, not_true, if_false]
    rw [h1]
    simp only [ARes.andThen]
    simp only [hep, if_true]
    rw [hB1ep]
    simp only [eq_self_iff_true, and_self, not_true, if_false]
    have hB1cin : B1.inB cx cy = true := hcin
    simp only [hB1cin, not_true, if_false]
    rw [hB1vic]
    simp only [if_neg hvc]
    rw [h2]
    simp only [ARes.andThen]
    rw [h3]
    simp only [ARes.andThen]
    rw [hBvdst]
    simp only []
    exact htail
  refine ⟨b₁, hmain, hw, hh, ?_, hcs, ?_, ?_, hr, hepr⟩
  · exact hg.trans rfl
  · rw [hco v.color hvc]
    show dget (dset B1v.pieces v.color ((lv.eraseP mw).eraseP mw)) v.color = _
    exact dget_dset_self _ _ _
  · intro c hc hc2
    rw [hco c hc]
    show dget (dset B1v.pieces v.color ((lv.eraseP mw).eraseP mw)) c = _
    rw [dget_dset_ne _ _ _ _ hc2]
    show dget (dset B1.pieces v.color (lv.eraseP mw)) c = _
    rw [dget_dset_ne _ _ _ _ hc2]
    show dget (dset b.pieces sp.color (ls.eraseP m)) c = _
    rw [dget_dset_ne _ _ _ _ hc]

/-- The `_index_remove` match predicate holds exactly on the given entry
(object identity is structural equality here thanks to `uid`). -/
theorem matchProp_iff (q : Piece) (x y : Int) (e : Piece × Int × Int) :
    (e.1 == q && e.2.1 == x && e.2.2 == y) = true ↔ e = (q, x, y) := by
  obtain ⟨p, a, b⟩ := e
  simp [Bool.and_eq_true, beq_iff_eq, Prod.ext_iff]
  tauto

/-- Erasing by a predicate that only the entry `a` satisfies does not
change membership of any other element. -/
theorem mem_eraseP_iff_of_ne {α : Type} (l : List α) (p : α → Bool) (a e : α)
    (hall : ∀ x, p x = true ↔ x = a) (he : e ≠ a) : e ∈ l.eraseP p ↔ e ∈ l := by
  induction l with
  | nil => simp
  | cons x xs ih =>
    by_cases hx : p x = true
    · rw [List.eraseP_cons_of_pos hx]
      have hxa : x = a := (hall x).1 hx
      subst hxa
      simp [he]
    · rw [List.eraseP_cons_of_neg (by simpa using hx)]
      simp [ih]

/-- After appending a matching entry and erasing one match, the entry is a
member iff it already occurred in the prefix. -/
theorem self_mem_eraseP_append {α : Type} (l : List α) (p : α → Bool) (a : α)
    (hall : ∀ x, p x = true ↔ x = a) : a ∈ (l ++ [a]).eraseP p ↔ a ∈ l := by
  induction l with
  | nil =>
    simp [List.eraseP_cons_of_pos ((hall a).2 rfl)]
  | cons x xs ih =>
    by_cases hx : p x = true
    · have hxa : x = a := (hall x).1 hx
      subst hxa
      rw [List.cons_append, List.eraseP_cons_of_pos hx]
      simp
    · rw [List.cons_append, List.eraseP_cons_of_neg (by simpa using hx)]
      have hxa : x ≠ a := fun h => hx ((hall x).2 h)
      simp [ih, Ne.symm hxa]

/-- Membership restoration for a piece-index bucket that went through the
simulate/revert cycle: erase the moved entry (twice), append the occupant
entry, erase it again, and re-append the original entry. -/
theorem mem_revert_bucket {α : Type} (ls Y : List α) (q : α → Bool) (a c : α)
    (hq : ∀ x, q x = true ↔ x = c)
    (ha : a ∈ ls) (hY : ∀ e, e ≠ a → (e ∈ Y ↔ e ∈ ls)) (hca : c ≠ a) (e : α) :
    e ∈ ((Y ++ [c]).eraseP q) ++ [a] ↔ e ∈ ls := by
  by_cases hea : e = a
  · subst hea
    simp [ha]
  · rw [List.mem_append]
    simp only [List.mem_singleton, hea, or_false]
    by_cases hec : e = c
    · subst hec
      rw [self_mem_eraseP_append Y q e hq]
      exact hY e hea
    · rw [mem_eraseP_iff_of_ne _ q c e hq hec, List.mem_append]
      simp only [List.mem_singleton, hec, or_false]
      exact hY e hea

/-- Membership restoration for the bucket of a captured piece: the erased
entry is re-appended. -/
theorem mem_append_single {α : Type} (ls Y : List α) (a : α) (ha : a ∈ ls)
    (hY : ∀ e, e ≠ a → (e ∈ Y ↔ e ∈ ls)) (e : α) : e ∈ Y ++ [a] ↔ e ∈ ls := by
  by_cases hea : e = a
  · subst hea
    simp [ha]
  · rw [List.mem_append]
    simp only [List.mem_singleton, hea, or_false]
    exact hY e hea

/-- Double erasure by an entry-specific predicate preserves membership of
all other elements. -/
theorem mem_doubleErase_iff {α : Type} (l : List α) (p : α → Bool) (a e : α)
    (hall : ∀ x, p x = true ↔ x = a) (he : e ≠ a) :
    e ∈ (l.eraseP p).eraseP p ↔ e ∈ l :=
  (mem_eraseP_iff_of_ne _ p a e hall he).trans (mem_eraseP_iff_of_ne _ p a e hall he)

/-- `causes_self_check` on a quiet move of a non-royal indexed piece:
the grid, dimensions, royal cache and en-passant target are restored
exactly, the piece-index buckets up to membership. -/
theorem csc_restore_A (b : Board) (mv : Move) (sp : Piece) (ls : List (Piece × Int × Int))
    (hfx : b.inB mv.fx mv.fy = true) (htx : b.inB mv.tx mv.ty = true)
    (hsrc : b.cellAt mv.fx mv.fy = some sp) (hspr : sp.isRoyal = false)
    (hep : mv.is_en_passant = false) (hdst : b.cellAt mv.tx mv.ty = none)
    (hpc : dget b.pieces sp.color = some ls)
    (hmem : (sp, mv.fx, mv.fy) ∈ ls) :
    (b.causesSelfCheck mv).2.grid = b.grid ∧
    (b.causesSelfCheck mv).2.w = b.w ∧ (b.causesSelfCheck mv).2.h = b.h ∧
    bucketsMemEq (b.causesSelfCheck mv).2 b ∧
    (b.causesSelfCheck mv).2.royal = b.royal ∧
    (b.causesSelfCheck mv).2.ep = b.ep := by
  obtain ⟨b₁, happ, hw, hh, hg, hcs, hco, hr, hepr⟩ :=
    applyMove_char_A b mv sp ls hfx htx hsrc hspr hep hdst hpc
  set m : (Piece × Int × Int) → Bool := fun e => e.1 == sp && e.2.1 == mv.fx && e.2.2 == mv.fy with hm
  set occ : Piece := simOccupant sp mv b.nextUid with hocc
  set Y : List (Piece × Int × Int) := (ls.eraseP m).eraseP m with hY
  have hoccr : occ.isRoyal = false := simOccupant_royal sp mv b.nextUid hspr
  have hoccc : occ.color = sp.color := simOccupant_color sp mv b.nextUid
  -- the revert, step by step
  set R0 : Board := { b₁ with ep := b.ep } with hR0
  have hR0tx : R0.inB mv.tx mv.ty = true := by
    show ((0 ≤ mv.tx && mv.tx < (b₁.h : Int)) && (0 ≤ mv.ty && mv.ty < (b₁.w : Int))) = true
    rw [hw, hh]
    exact htx
  have hR0cell : R0.cellAt mv.tx mv.ty = some occ := by
    show b₁.grid (mv.tx, mv.ty) = some occ
    rw [hg]
    simp [Function.update]
  have hR0get : dget R0.pieces occ.color = some (Y ++ [(occ, mv.tx, mv.ty)]) := by
    show dget b₁.pieces occ.color = _
    rw [hoccc]
    exact hcs
  have h1 := clear_some_nonroyal R0 mv.tx mv.ty occ (Y ++ [(occ, mv.tx, mv.ty)]) hR0tx hR0cell hoccr hR0get
  set Z : List (Piece × Int × Int) := (Y ++ [(occ, mv.tx, mv.ty)]).eraseP (fun e => e.1 == occ && e.2.1 == mv.tx && e.2.2 == mv.ty) with hZ
  set R1 : Board := Board.setCell { R0 with pieces := dset R0.pieces occ.color Z } mv.tx mv.ty none with hR1
  set R2 : Board := R1.setCell mv.fx mv.fy (some sp) with hR2
  have hR2cell : R2.cellAt mv.fx mv.fy = some sp := cellAt_setCell_self _ _ _ _
  have hR2get : dget R2.pieces sp.color = some Z := by
    show dget (dset R0.pieces occ.color Z) sp.color = some Z
    rw [hoccc]
    exact dget_dset_self _ _ _
  have h2 := indexAdd_some R2 mv.fx mv.fy sp Z hR2cell hR2get
  set R3 : Board := { R2 with pieces := dset R2.pieces sp.color (Z ++ [(sp, mv.fx, mv.fy)]) } with hR3
  have hrev : selfCheckRevert b₁ mv b.ep (some sp) none none = .ok R3 := by
    simp only [selfCheckRevert]
    rw [show ({ b₁ with ep := b.ep } : Board) = R0 from rfl]
    rw [h1]
    simp only [ARes.andThen]
    simp only [hep, Bool.false_eq_true, not_false_eq_true, if_true]
    rw [show R1.setCell mv.fx mv.fy (some sp) = R2 from rfl]
    rw [h2]
    simp only [ARes.andThen]
    simp only [hspr, Bool.false_eq_true, if_false]
  have hsnd : (b.causesSelfCheck mv).2 = R3 := by
    unfold Board.causesSelfCheck
    simp only [hfx, htx, not_true, if_false]
    simp only [hep, Bool.false_eq_true, if_false]
    rw [hsrc, hdst, happ]
    simp only []
    cases hchk : b₁.isInCheck mv.piece.color with
    | error e => rw [hrev]
    | ok v => rw [hrev]
  rw [hsnd]
  have hne : ((mv.fx, mv.fy) : Int × Int) ≠ (mv.tx, mv.ty) := by
    intro hq
    have hx : mv.fx = mv.tx := congrArg Prod.fst hq
    have hy : mv.fy = mv.ty := congrArg Prod.snd hq
    rw [hx, hy, hdst] at hsrc
    exact Option.noConfusion hsrc
  have hgrid : R3.grid = b.grid := by
    funext q
    show Function.update (Function.update b₁.grid (mv.tx, mv.ty) none) (mv.fx, mv.fy) (some sp) q = b.grid q
    rw [hg]
    by_cases hq1 : q = ((mv.fx, mv.fy) : Int × Int)
    · subst hq1
      simp [Function.update, hne]
      exact hsrc.symm
    · by_cases hq2 : q = ((mv.tx, mv.ty) : Int × Int)
      · subst hq2
        simp [Function.update, hq1]
        exact hdst.symm
      · simp [Function.update, hq1, hq2]
  have hRco : ∀ c, c ≠ sp.color → dget R3.pieces c = dget b.pieces c := by
    intro c hc
    show dget (dset R2.pieces sp.color (Z ++ [(sp, mv.fx, mv.fy)])) c = _
    rw [dget_dset_ne _ _ _ _ hc]
    show dget (dset R0.pieces occ.color Z) c = _
    rw [hoccc, dget_dset_ne _ _ _ _ hc]
    exact hco c hc
  have hRcs : dget R3.pieces sp.color = some (Z ++ [(sp, mv.fx, mv.fy)]) := dget_dset_self _ _ _
  refine ⟨hgrid, hw, hh, ?_, hr, rfl⟩
  intro c e
  by_cases hc : c = sp.color
  · subst hc
    unfold Board.bucketOr
    rw [hRcs, hpc]
    refine mem_revert_bucket ls Y (fun e => e.1 == occ && e.2.1 == mv.tx && e.2.2 == mv.ty) (sp, mv.fx, mv.fy) (occ, mv.tx, mv.ty) ?_ hmem ?_ ?_ e
    · intro x
      exact matchProp_iff occ mv.tx mv.ty x
    · intro e2 he2
      exact mem_doubleErase_iff ls m (sp, mv.fx, mv.fy) e2 (fun x => matchProp_iff sp mv.fx mv.fy x) he2
    · intro hq
      have : ((mv.fx, mv.fy) : Int × Int) = (mv.tx, mv.ty) := (congrArg Prod.snd hq).symm
      exact hne this
  · unfold Board.bucketOr
    rw [hRco c hc]

/-- `causes_self_check` on an ordinary capture of a non-royal indexed
victim by a non-royal indexed piece: the grid, dimensions, royal cache and
en-passant target are restored exactly, the buckets up to membership. -/
theorem csc_restore_B (b : Board) (mv : Move) (sp d : Piece)
    (ls ld : List (Piece × Int × Int))
    (hfx : b.inB mv.fx mv.fy = true) (htx : b.inB mv.tx mv.ty = true)
    (hsrc : b.cellAt mv.fx mv.fy = some sp) (hspr : sp.isRoyal = false)
    (hep : mv.is_en_passant = false) (hdst : b.cellAt mv.tx mv.ty = some d)
    (hdr : d.isRoyal = false) (hdc : d.color ≠ sp.color)
    (hpc : dget b.pieces sp.color = some ls)
    (hpd : dget b.pieces d.color = some ld)
    (hmem : (sp, mv.fx, mv.fy) ∈ ls)
    (hmemd : (d, mv.tx, mv.ty) ∈ ld) :
    (b.causesSelfCheck mv).2.grid = b.grid ∧
    (b.causesSelfCheck mv).2.w = b.w ∧ (b.causesSelfCheck mv).2.h = b.h ∧
    bucketsMemEq (b.causesSelfCheck mv).2 b ∧
    (b.causesSelfCheck mv).2.royal = b.royal ∧
    (b.causesSelfCheck mv).2.ep = b.ep := by
  obtain ⟨b₁, happ, hw, hh, hg, hcs, hcd, hco, hr, hepr⟩ :=
    applyMove_char_B b mv sp d ls ld hfx htx hsrc hspr hep hdst hdr hdc hpc hpd
  set m : (Piece × Int × Int) → Bool := fun e => e.1 == sp && e.2.1 == mv.fx && e.2.2 == mv.fy with hm
  set md : (Piece × Int × Int) → Bool := fun e => e.1 == d && e.2.1 == mv.tx && e.2.2 == mv.ty with hmd
  set occ : Piece := simOccupant sp mv b.nextUid with hocc
  set Y : List (Piece × Int × Int) := (ls.eraseP m).eraseP m with hY
  set Yd : List (Piece × Int × Int) := (ld.eraseP md).eraseP md with hYd
  have hoccr : occ.isRoyal = false := simOccupant_royal sp mv b.nextUid hspr
  have hoccc : occ.color = sp.color := simOccupant_color sp mv b.nextUid
  have hscdc : sp.color ≠ d.color := fun h => hdc h.symm
  set R0 : Board := { b₁ with ep := b.ep } with hR0
  have hR0tx : R0.inB mv.tx mv.ty = true := by
    show ((0 ≤ mv.tx && mv.tx < (b₁.h : Int)) && (0 ≤ mv.ty && mv.ty < (b₁.w : Int))) = true
    rw [hw, hh]
    exact htx
  have hR0cell : R0.cellAt mv.tx mv.ty = some occ := by
    show b₁.grid (mv.tx, mv.ty) = some occ
    rw [hg]
    simp [Function.update]
  have hR0get : dget R0.pieces occ.color = some (Y ++ [(occ, mv.tx, mv.ty)]) := by
    show dget b₁.pieces occ.color = _
    rw [hoccc]
    exact hcs
  have h1 := clear_some_nonroyal R0 mv.tx mv.ty occ (Y ++ [(occ, mv.tx, mv.ty)]) hR0tx hR0cell hoccr hR0get
  set Z : List (Piece × Int × Int) := (Y ++ [(occ, mv.tx, mv.ty)]).eraseP (fun e => e.1 == occ && e.2.1 == mv.tx && e.2.2 == mv.ty) with hZ
  set R1 : Board := Board.setCell { R0 with pieces := dset R0.pieces occ.color Z } mv.tx mv.ty none with hR1
  set R2 : Board := R1.setCell mv.tx mv.ty (some d) with hR2
  have hR2cell : R2.cellAt mv.tx mv.ty = some d := cellAt_setCell_self _ _ _ _
  have hR2get : dget R2.pieces d.color = some Yd := by
    show dget (dset R0.pieces occ.color Z) d.color = some Yd
    rw [hoccc, dget_dset_ne _ _ _ _ hdc]
    exact hcd
  have h2 := indexAdd_some R2 mv.tx mv.ty d Yd hR2cell hR2get
  set R2b : Board := { R2 with pieces := dset R2.pieces d.color (Yd ++ [(d, mv.tx, mv.ty)]) } with hR2b
  set R3 : Board := R2b.setCell mv.fx mv.fy (some sp) with hR3
  have hR3cell : R3.cellAt mv.fx mv.fy = some sp := cellAt_setCell_self _ _ _ _
  have hR3get : dget R3.pieces sp.color = some Z := by
    show dget (dset R2.pieces d.color (Yd ++ [(d, mv.tx, mv.ty)])) sp.color = some Z
    rw [dget_dset_ne _ _ _ _ hscdc]
    show dget (dset R0.pieces occ.color Z) sp.color = some Z
    rw [hoccc]
    exact dget_dset_self _ _ _
  have h3 := indexAdd_some R3 mv.fx mv.fy sp Z hR3cell hR3get
  set R4 : Board := { R3 with pieces := dset R3.pieces sp.color (Z ++ [(sp, mv.fx, mv.fy)]) } with hR4
  have hrev : selfCheckRevert b₁ mv b.ep (some sp) (some d) none = .ok R4 := by
    simp only [selfCheckRevert]
    rw [show ({ b₁ with ep := b.ep } : Board) = R0 from rfl]
    rw [h1]
    simp only [ARes.andThen]
    simp only [hep, Bool.false_eq_true, not_false_eq_true, if_true]
    rw [show R1.setCell mv.tx mv.ty (some d) = R2 from rfl]
    rw [h2]
    simp only [ARes.andThen]
    simp only [hdr, Bool.false_eq_true, if_false]
    rw [show R2b.setCell mv.fx mv.fy (some sp) = R3 from rfl]
    rw [h3]
    simp only [ARes.andThen]
    simp only [hspr, Bool.false_eq_true, if_false]
  have hsnd : (b.causesSelfCheck mv).2 = R4 := by
    unfold Board.causesSelfCheck
    simp only [hfx, htx, not_true, if_false]
    simp only [hep, Bool.false_eq_true, if_false]
    rw [hsrc, hdst, happ]
    simp only []
    cases hchk : b₁.isInCheck mv.piece.color with
    | error e => rw [hrev]
    | ok v => rw [hrev]
  rw [hsnd]
  have hne : ((mv.fx, mv.fy) : Int × Int) ≠ (mv.tx, mv.ty) := by
    intro hq
    have hx : mv.fx = mv.tx := congrArg Prod.fst hq
    have hy : mv.fy = mv.ty := congrArg Prod.snd hq
    rw [hx, hy, hdst] at hsrc
    exact hdc (by injection hsrc with h; rw [h])
  have hgrid : R4.grid = b.grid := by
    funext q
    show Function.update (Function.update (Function.update b₁.grid (mv.tx, mv.ty) none) (mv.tx, mv.ty) (some d)) (mv.fx, mv.fy) (some sp) q = b.grid q
    rw [hg]
    by_cases hq1 : q = ((mv.fx, mv.fy) : Int × Int)
    · subst hq1
      simp [Function.update, hne]
      exact hsrc.symm
    · by_cases hq2 : q = ((mv.tx, mv.ty) : Int × Int)
      · subst hq2
        simp [Function.update, hq1]
        exact hdst.symm
      · simp [Function.update, hq1, hq2]
  have hRco : ∀ c, c ≠ sp.color → c ≠ d.color → dget R4.pieces c = dget b.pieces c := by
    intro c hc hc2
    show dget (dset R3.pieces sp.color (Z ++ [(sp, mv.fx, mv.fy)])) c = _
    rw [dget_dset_ne _ _ _ _ hc]
    show dget (dset R2.pieces d.color (Yd ++ [(d, mv.tx, mv.ty)])) c = _
    rw [dget_dset_ne _ _ _ _ hc2]
    show dget (dset R0.pieces occ.color Z) c = _
    rw [hoccc, dget_dset_ne _ _ _ _ hc]
    exact hco c hc hc2
  have hRcs : dget R4.pieces sp.color = some (Z ++ [(sp, mv.fx, mv.fy)]) := dget_dset_self _ _ _
  have hRcd : dget R4.pieces d.color = some (Yd ++ [(d, mv.tx, mv.ty)]) := by
    show dget (dset R3.pieces sp.color (Z ++ [(sp, mv.fx, mv.fy)])) d.color = _
    rw [dget_dset_ne _ _ _ _ hdc]
    show dget (dset R2.pieces d.color (Yd ++ [(d, mv.tx, mv.ty)])) d.color = _
    exact dget_dset_self _ _ _
  refine ⟨hgrid, hw, hh, ?_, hr, rfl⟩
  intro c e
  by_cases hc : c = sp.color
  · subst hc
    unfold Board.bucketOr
    rw [hRcs, hpc]
    refine mem_revert_bucket ls Y (fun e => e.1 == occ && e.2.1 == mv.tx && e.2.2 == mv.ty) (sp, mv.fx, mv.fy) (occ, mv.tx, mv.ty) ?_ hmem ?_ ?_ e
    · intro x
      exact matchProp_iff occ mv.tx mv.ty x
    · intro e2 he2
      exact mem_doubleErase_iff ls m (sp, mv.fx, mv.fy) e2 (fun x => matchProp_iff sp mv.fx mv.fy x) he2
    · intro hq
      have : ((mv.fx, mv.fy) : Int × Int) = (mv.tx, mv.ty) := (congrArg Prod.snd hq).symm
      exact hne this
  · by_cases hc2 : c = d.color
    · subst hc2
      unfold Board.bucketOr
      rw [hRcd, hpd]
      refine mem_append_single ld Yd (d, mv.tx, mv.ty) hmemd ?_ e
      intro e2 he2
      exact mem_doubleErase_iff ld md (d, mv.tx, mv.ty) e2 (fun x => matchProp_iff d mv.tx mv.ty x) he2
    · unfold Board.bucketOr
      rw [hRco c hc hc2]

/-- `causes_self_check` on an en-passant capture (empty destination
matching the recorded target, non-royal indexed victim): the grid,
dimensions, royal cache and en-passant target are restored exactly, the
buckets up to membership. -/
theorem csc_restore_C (b : Board) (mv : Move) (sp v : Piece) (cx cy : Int)
    (ls lv : List (Piece × Int × Int))
    (hfx : b.inB mv.fx mv.fy = true) (htx : b.inB mv.tx mv.ty = true)
    (hsrc : b.cellAt mv.fx mv.fy = some sp) (hspr : sp.isRoyal = false)
    (hep : mv.is_en_passant = true)
    (hept : b.ep = some ((mv.tx, mv.ty), (cx, cy)))
    (hcin : b.inB cx cy = true)
    (hvic : b.cellAt cx cy = some v) (hvr : v.isRoyal = false)
    (hvc : v.color ≠ sp.color)
    (hdst : b.cellAt mv.tx mv.ty = none)
    (hpc : dget b.pieces sp.color = some ls)
    (hpv : dget b.pieces v.color = some lv)
    (hmem : (sp, mv.fx, mv.fy) ∈ ls)
    (hmemv : (v, cx, cy) ∈ lv) :
    (b.causesSelfCheck mv).2.grid = b.grid ∧
    (b.causesSelfCheck mv).2.w = b.w ∧ (b.causesSelfCheck mv).2.h = b.h ∧
    bucketsMemEq (b.causesSelfCheck mv).2 b ∧
    (b.causesSelfCheck mv).2.royal = b.royal ∧
    (b.causesSelfCheck mv).2.ep = b.ep := by
  obtain ⟨b₁, happ, hw, hh, hg, hcs, hcv, hco, hr, hepr⟩ :=
    applyMove_char_C b mv sp v cx cy ls lv hfx htx hsrc hspr hep hept hcin hvic hvr hvc hdst hpc hpv
  set m : (Piece × Int × Int) → Bool := fun e => e.1 == sp && e.2.1 == mv.fx && e.2.2 == mv.fy with hm
  set mw : (Piece × Int × Int) → Bool := fun e => e.1 == v && e.2.1 == cx && e.2.2 == cy with hmw
  set occ : Piece := simOccupant sp mv b.nextUid with hocc
  set Y : List (Piece × Int × Int) := (ls.eraseP m).eraseP m with hY
  set Yv : List (Piece × Int × Int) := (lv.eraseP mw).eraseP mw with hYv
  have hoccr : occ.isRoyal = false := simOccupant_royal sp mv b.nextUid hspr
  have hoccc : occ.color = sp.color := simOccupant_color sp mv b.nextUid
  have hscvc : sp.color ≠ v.color := fun h => hvc h.symm
  set R0 : Board := { b₁ with ep := some ((mv.tx, mv.ty), (cx, cy)) } with hR0
  have hR0tx : R0.inB mv.tx mv.ty = true := by
    show ((0 ≤ mv.tx && mv.tx < (b₁.h : Int)) && (0 ≤ mv.ty && mv.ty < (b₁.w : Int))) = true
    rw [hw, hh]
    exact htx
  have hR0cell : R0.cellAt mv.tx mv.ty = some occ := by
    show b₁.grid (mv.tx, mv.ty) = some occ
    rw [hg]
    simp [Function.update]
  have hR0get : dget R0.pieces occ.color = some (Y ++ [(occ, mv.tx, mv.ty)]) := by
    show dget b₁.pieces occ.color = _
    rw [hoccc]
    exact hcs
  have h1 := clear_some_nonroyal R0 mv.tx mv.ty occ (Y ++ [(occ, mv.tx, mv.ty)]) hR0tx hR0cell hoccr hR0get
  set Z : List (Piece × Int × Int) := (Y ++ [(occ, mv.tx, mv.ty)]).eraseP (fun e => e.1 == occ && e.2.1 == mv.tx && e.2.2 == mv.ty) with hZ
  set R1 : Board := Board.setCell { R0 with pieces := dset R0.pieces occ.color Z } mv.tx mv.ty none with hR1
  set R2 : Board := R1.setCell cx cy (some v) with hR2
  have hR2cell : R2.cellAt cx cy = some v := cellAt_setCell_self _ _ _ _
  have hR2get : dget R2.pieces v.color = some Yv := by
    show dget (dset R0.pieces occ.color Z) v.color = some Yv
    rw [hoccc, dget_dset_ne _ _ _ _ hvc]
    exact hcv
  have h2 := indexAdd_some R2 cx cy v Yv hR2cell hR2get
  set R2b : Board := { R2 with pieces := dset R2.pieces v.color (Yv ++ [(v, cx, cy)]) } with hR2b
  set R3 : Board := R2b.setCell mv.fx mv.fy (some sp) with hR3
  have hR3cell : R3.cellAt mv.fx mv.fy = some sp := cellAt_setCell_self _ _ _ _
  have hR3get : dget R3.pieces sp.color = some Z := by
    show dget (dset R2.pieces v.color (Yv ++ [(v, cx, cy)])) sp.color = some Z
    rw [dget_dset_ne _ _ _ _ hscvc]
    show dget (dset R0.pieces occ.color Z) sp.color = some Z
    rw [hoccc]
    exact dget_dset_self _ _ _
  have h3 := indexAdd_some R3 mv.fx mv.fy sp Z hR3cell hR3get
  set R4 : Board := { R3 with pieces := dset R3.pieces sp.color (Z ++ [(sp, mv.fx, mv.fy)]) } with hR4
  have hrev : selfCheckRevert b₁ mv (some ((mv.tx, mv.ty), (cx, cy))) (some sp) none (some (v, cx, cy)) = .ok R4 := by
    simp only [selfCheckRevert]
    rw [show ({ b₁ with ep := some ((mv.tx, mv.ty), (cx, cy)) } : Board) = R0 from rfl]
    rw [h1]
    simp only [ARes.andThen]
    simp only [hep, not_true, if_false]
    simp only [hep, if_true]
    rw [show R1.setCell cx cy (some v) = R2 from rfl]
    rw [h2]
    simp only [ARes.andThen]
    simp only [hvr, Bool.false_eq_true, if_false]
    rw [show R2b.setCell mv.fx mv.fy (some sp) = R3 from rfl]
    rw [h3]
    simp only [ARes.andThen]
    simp only [hspr, Bool.false_eq_true, if_false]
  have hsnd : (b.causesSelfCheck mv).2 = R4 := by
    unfold Board.causesSelfCheck
    simp only [hfx, htx, not_true, if_false]
    simp only [hep, if_true]
    rw [hept]
    simp only [eq_self_iff_true, and_self, not_true, if_false]
    simp only [hcin, not_true, if_false]
    rw [hvic]
    simp only []
    rw [hsrc, hdst, happ]
    simp only []
    cases hchk : b₁.isInCheck mv.piece.color with
    | error e => rw [hrev]
    | ok vv => rw [hrev]
  rw [hsnd]
  have hne : ((mv.fx, mv.fy) : Int × Int) ≠ (mv.tx, mv.ty) := by
    intro hq
    have hx : mv.fx = mv.tx := congrArg Prod.fst hq
    have hy : mv.fy = mv.ty := congrArg Prod.snd hq
    rw [hx, hy, hdst] at hsrc
    exact Option.noConfusion hsrc
  have hnec : ((mv.fx, mv.fy) : Int × Int) ≠ (cx, cy) := by
    intro hq
    have hx : mv.fx = cx := congrArg Prod.fst hq
    have hy : mv.fy = cy := congrArg Prod.snd hq
    rw [hx, hy, hvic] at hsrc
    exact hvc (by injection hsrc with h; rw [h])
  have hnetc : ((cx, cy) : Int × Int) ≠ (mv.tx, mv.ty) := by
    intro hq
    have hx : cx = mv.tx := congrArg Prod.fst hq
    have hy : cy = mv.ty := congrArg Prod.snd hq
    rw [← hx, ← hy, hvic] at hdst
    exact Option.noConfusion hdst
  have hgrid : R4.grid = b.grid := by
    funext q
    show Function.update (Function.update (Function.update b₁.grid (mv.tx, mv.ty) none) (cx, cy) (some v)) (mv.fx, mv.fy) (some sp) q = b.grid q
    rw [hg]
    by_cases hq1 : q = ((mv.fx, mv.fy) : Int × Int)
    · subst hq1
      simp [Function.update, hne, hnec]
      exact hsrc.symm
    · by_cases hq2 : q = ((cx, cy) : Int × Int)
      · subst hq2
        simp [Function.update, hq1, hnetc]
        exact hvic.symm
      · by_cases hq3 : q = ((mv.tx, mv.ty) : Int × Int)
        · subst hq3
          simp [Function.update, hq1, hq2]
          exact hdst.symm
        · simp [Function.update, hq1, hq2, hq3]
  have hRco : ∀ c, c ≠ sp.color → c ≠ v.color → dget R4.pieces c = dget b.pieces c := by
    intro c hc hc2
    show dget (dset R3.pieces sp.color (Z ++ [(sp, mv.fx, mv.fy)])) c = _
    rw [dget_dset_ne _ _ _ _ hc]
    show dget (dset R2.pieces v.color (Yv ++ [(v, cx, cy)])) c = _
    rw [dget_dset_ne _ _ _ _ hc2]
    show dget (dset R0.pieces occ.color Z) c = _
    rw [hoccc, dget_dset_ne _ _ _ _ hc]
    exact hco c hc hc2
  have hRcs : dget R4.pieces sp.color = some (Z ++ [(sp, mv.fx, mv.fy)]) := dget_dset_self _ _ _
  have hRcv : dget R4.pieces v.color = some (Yv ++ [(v, cx, cy)]) := by
    show dget (dset R3.pieces sp.color (Z ++ [(sp, mv.fx, mv.fy)])) v.color = _
    rw [dget_dset_ne _ _ _ _ hvc]
    show dget (dset R2.pieces v.color (Yv ++ [(v, cx, cy)])) v.color = _
    exact dget_dset_self _ _ _
  refine ⟨hgrid, hw, hh, ?_, hr, hept.symm⟩
  intro c e
  by_cases hc : c = sp.color
  · subst hc
    unfold Board.bucketOr
    rw [hRcs, hpc]
    refine mem_revert_bucket ls Y (fun e => e.1 == occ && e.2.1 == mv.tx && e.2.2 == mv.ty) (sp, mv.fx, mv.fy) (occ, mv.tx, mv.ty) ?_ hmem ?_ ?_ e
    · intro x
      exact matchProp_iff occ mv.tx mv.ty x
    · intro e2 he2
      exact mem_doubleErase_iff ls m (sp, mv.fx, mv.fy) e2 (fun x => matchProp_iff sp mv.fx mv.fy x) he2
    · intro hq
      have : ((mv.fx, mv.fy) : Int × Int) = (mv.tx, mv.ty) := (congrArg Prod.snd hq).symm
      exact hne this
  · by_cases hc2 : c = v.color
    · subst hc2
      unfold Board.bucketOr
      rw [hRcv, hpv]
      refine mem_append_single lv Yv (v, cx, cy) hmemv ?_ e
      intro e2 he2
      exact mem_doubleErase_iff lv mw (v, cx, cy) e2 (fun x => matchProp_iff v cx cy x) he2
    · unfold Board.bucketOr
      rw [hRco c hc hc2]

/-- `as_ascii` only reads the dimensions and the grid. -/
theorem asAscii_congr (b₁ b₂ : Board) (hw : b₁.w = b₂.w) (hh : b₁.h = b₂.h)
    (hg : b₁.grid = b₂.grid) : b₁.asAscii = b₂.asAscii := by
  unfold Board.asAscii Board.cellAt
  rw [hw, hh, hg]

/-- Claim C3 (amended): under the `simSafeB` side conditions — in-bounds
squares, indexed non-royal mover, and a non-royal indexed opposite-color
victim with an empty matching destination in the capture cases —
`causes_self_check` returns the board to its previous observable state:
the ASCII rendering, the grid, the royal cache and the en-passant target
are restored exactly, and the `_pieces` index buckets are restored up to
membership (Python set/contains semantics); entry order within a bucket is
**not** restored, which is why the original byte-for-bit claim fails. -/
theorem c3_selfcheck_restores_amended (b : Board) (mv : Move) (h : simSafeB b mv = true) :
    (b.causesSelfCheck mv).2.asAscii = b.asAscii ∧
    (b.causesSelfCheck mv).2.grid = b.grid ∧
    bucketsMemEq (b.causesSelfCheck mv).2 b ∧
    (b.causesSelfCheck mv).2.royal = b.royal ∧
    (b.causesSelfCheck mv).2.ep = b.ep := by
  have hmain : (b.causesSelfCheck mv).2.grid = b.grid ∧
      (b.causesSelfCheck mv).2.w = b.w ∧ (b.causesSelfCheck mv).2.h = b.h ∧
      bucketsMemEq (b.causesSelfCheck mv).2 b ∧
      (b.causesSelfCheck mv).2.royal = b.royal ∧
      (b.causesSelfCheck mv).2.ep = b.ep := by
    simp only [simSafeB] at h
    cases hcell : b.cellAt mv.fx mv.fy with
    | none =>
      rw [hcell] at h
      simp at h
    | some sp =>
      rw [hcell] at h
      simp only [Bool.and_eq_true] at h
      obtain ⟨⟨hfx, htx⟩, hsp⟩ := h
      obtain ⟨⟨hnr, hls⟩, hrest⟩ := hsp
      have hspr : sp.isRoyal = false := by
        cases hsr : sp.isRoyal
        · rfl
        · rw [hsr] at hnr
          exact absurd hnr (by decide)
      obtain ⟨ls, hget, hmem⟩ : ∃ ls, dget b.pieces sp.color = some ls ∧ (sp, mv.fx, mv.fy) ∈ ls := by
        cases hg : dget b.pieces sp.color with
        | none =>
          rw [hg] at hls
          simp at hls
        | some ls =>
          rw [hg] at hls
          exact ⟨ls, rfl, of_decide_eq_true hls⟩
      cases hepb : mv.is_en_passant with
      | false =>
        rw [hepb] at hrest
        simp only [Bool.false_eq_true, if_false] at hrest
        cases hd : b.cellAt mv.tx mv.ty with
        | none =>
          exact csc_restore_A b mv sp ls hfx htx hcell hspr hepb hd hget hmem
        | some d =>
          rw [hd] at hrest
          simp only [Bool.and_eq_true] at hrest
          obtain ⟨⟨hdnr, hdcne⟩, hld⟩ := hrest
          have hdr : d.isRoyal = false := by
            cases hx : d.isRoyal
            · rfl
            · rw [hx] at hdnr
              exact absurd hdnr (by decide)
          have hdc : d.color ≠ sp.color := by
            intro hx
            rw [hx] at hdcne
            simp [bne] at hdcne
          obtain ⟨ld, hgetd, hmemd⟩ : ∃ ld, dget b.pieces d.color = some ld ∧ (d, mv.tx, mv.ty) ∈ ld := by
            cases hg2 : dget b.pieces d.color with
            | none =>
              rw [hg2] at hld
              simp at hld
            | some ld =>
              rw [hg2] at hld
              exact ⟨ld, rfl, of_decide_eq_true hld⟩
          exact csc_restore_B b mv sp d ls ld hfx htx hcell hspr hepb hd hdr hdc hget hgetd hmem hmemd
      | true =>
        rw [hepb] at hrest
        simp only [if_true] at hrest
        cases hepx : b.ep with
        | none =>
          rw [hepx] at hrest
          simp at hrest
        | some pr =>
          obtain ⟨⟨etx, ety⟩, cx, cy⟩ := pr
          rw [hepx] at hrest
          simp only [Bool.and_eq_true] at hrest
          obtain ⟨⟨⟨⟨heq1, heq2⟩, hcin⟩, hdno⟩, hvm⟩ := hrest
          have hetx : etx = mv.tx := by
            exact of_decide_eq_true heq1
          have hety : ety = mv.ty := by
            exact of_decide_eq_true heq2
          subst hetx
          subst hety
          have hdst : b.cellAt mv.tx mv.ty = none := Option.isNone_iff_eq_none.1 hdno
          cases hv : b.cellAt cx cy with
          | none =>
            rw [hv] at hvm
            simp at hvm
          | some v =>
            rw [hv] at hvm
            simp only [Bool.and_eq_true] at hvm
            obtain ⟨⟨hvnr, hvcne⟩, hlv⟩ := hvm
            have hvr : v.isRoyal = false := by
              cases hx : v.isRoyal
              · rfl
              · rw [hx] at hvnr
                exact absurd hvnr (by decide)
            have hvc : v.color ≠ sp.color := by
              intro hx
              rw [hx] at hvcne
              simp [bne] at hvcne
            obtain ⟨lv, hgetv, hmemv⟩ : ∃ lv, dget b.pieces v.color = some lv ∧ (v, cx, cy) ∈ lv := by
              cases hg2 : dget b.pieces v.color with
              | none =>
                rw [hg2] at hlv
                simp at hlv
              | some lv =>
                rw [hg2] at hlv
                exact ⟨lv, rfl, of_decide_eq_true hlv⟩
            rw [← hepx]
            exact csc_restore_C b mv sp v cx cy ls lv hfx htx hcell hspr hepb hepx hcin hv hvr hvc hdst hget hgetv hmem hmemv
  obtain ⟨hg, hw, hh, hb, hr, hep⟩ := hmain
  exact ⟨asAscii_congr _ _ hw hh hg, hg, hb, hr, hep⟩

/-- Counterexample to claim C3 as stated: simulating (a) a royal king step
leaves the rendered board changed (the revert raises before restoring the
source square), (b) a quiet non-royal king step permutes the white index
bucket (Python list equality is order sensitive, so `_pieces` is not
byte-for-bit identical), and (c) a successful en-passant capture onto an
occupied destination erases the destination occupant for good. -/
theorem c3_selfcheck_mutates_board :
    (c3aBoard.causesSelfCheck c3aMove).2.asAscii ≠ c3aBoard.asAscii ∧
    (c3bBoard.causesSelfCheck c3bMove).2.bucketOr "w" ≠ c3bBoard.bucketOr "w" ∧
    (c3cBoard.causesSelfCheck c3cMove).2.asAscii ≠ c3cBoard.asAscii := by
  decide

/-- Witness for the amended C3 theorem: the side conditions hold for the
quiet king step on the King-and-Rook board, and the theorem applies. -/
theorem c3_selfcheck_restores_amended_witness :
    simSafeB c3wBoard c3bMove = true ∧
    ((c3wBoard.causesSelfCheck c3bMove).2.asAscii = c3wBoard.asAscii ∧
     (c3wBoard.causesSelfCheck c3bMove).2.grid = c3wBoard.grid ∧
     bucketsMemEq (c3wBoard.causesSelfCheck c3bMove).2 c3wBoard ∧
     (c3wBoard.causesSelfCheck c3bMove).2.royal = c3wBoard.royal ∧
     (c3wBoard.causesSelfCheck c3bMove).2.ep = c3wBoard.ep) :=
  ⟨by decide, c3_selfcheck_restores_amended c3wBoard c3bMove (by decide)⟩

/-- An element that does not satisfy the predicate survives `eraseP`. -/
theorem mem_eraseP_of_not {α : Type} (l : List α) (p : α → Bool) (e : α)
    (he : e ∈ l) (hp : p e = false) : e ∈ l.eraseP p := by
  induction l with
  | nil => cases he
  | cons x xs ih =>
    by_cases hx : p x = true
    · rw [List.eraseP_cons_of_pos hx]
      rcases List.mem_cons.1 he with h | h
      · subst h
        rw [hx] at hp
        cases hp
      · exact h
    · rw [List.eraseP_cons_of_neg (by simpa using hx)]
      rcases List.mem_cons.1 he with h | h
      · subst h
        exact List.mem_cons_self _ _
      · exact List.mem_cons_of_mem _ (ih h)

/-- Erasing the index entry of the piece occupying `(x, y)` from a bucket
whose entries sit on pairwise distinct squares: the entry at `(x, y)` is
removed and nothing else, a second erase is a no-op, and pairwise
distinctness survives. -/
theorem eraseP_entry_facts (l : List (Piece × Int × Int)) (sp : Piece) (x y : Int)
    (hpair : l.Pairwise (fun e₁ e₂ => ¬(e₁.2.1 = e₂.2.1 ∧ e₁.2.2 = e₂.2.2)))
    (hmem : (sp, x, y) ∈ l) :
    (∀ e ∈ l.eraseP (fun e => e.1 == sp && e.2.1 == x && e.2.2 == y),
       e ∈ l ∧ ¬(e.2.1 = x ∧ e.2.2 = y)) ∧
    (∀ e ∈ l, ¬(e.2.1 = x ∧ e.2.2 = y) →
       e ∈ l.eraseP (fun e => e.1 == sp && e.2.1 == x && e.2.2 == y)) ∧
    ((l.eraseP (fun e => e.1 == sp && e.2.1 == x && e.2.2 == y)).eraseP
       (fun e => e.1 == sp && e.2.1 == x && e.2.2 == y)
     = l.eraseP (fun e => e.1 == sp && e.2.1 == x && e.2.2 == y)) ∧
    (l.eraseP (fun e => e.1 == sp && e.2.1 == x && e.2.2 == y)).Pairwise
      (fun e₁ e₂ => ¬(e₁.2.1 = e₂.2.1 ∧ e₁.2.2 = e₂.2.2)) := by
  have hnosq : ∀ e ∈ l.eraseP (fun e => e.1 == sp && e.2.1 == x && e.2.2 == y),
      ¬(e.2.1 = x ∧ e.2.2 = y) := by
    induction l with
    | nil => intro e he; cases he
    | cons a t ih =>
      intro e he hsq
      rw [List.pairwise_cons] at hpair
      by_cases ha : (a.1 == sp && a.2.1 == x && a.2.2 == y) = true
      · simp only [List.eraseP_cons, ha, cond_true] at he
        have haeq : a = (sp, x, y) := (matchProp_iff sp x y a).1 ha
        exact hpair.1 e he (by rw [haeq]; exact ⟨hsq.1.symm, hsq.2.symm⟩)
      · simp only [List.eraseP_cons, ha, cond_false] at he
        have hane : a ≠ (sp, x, y) := fun h => ha ((matchProp_iff sp x y a).2 h)
        rcases List.mem_cons.1 hmem with h | hmt
        · exact hane h.symm
        · rcases List.mem_cons.1 he with h | het
          · subst h
            exact hpair.1 (sp, x, y) hmt (by rw [hsq.1, hsq.2]; exact ⟨rfl, rfl⟩)
          · exact ih hpair.2 hmt e het hsq
  refine ⟨?_, ?_, ?_, ?_⟩
  · intro e he
    exact ⟨(List.eraseP_sublist _).subset he, hnosq e he⟩
  · intro e he hsq
    refine mem_eraseP_of_not _ _ e he ?_
    cases hx : (e.1 == sp && e.2.1 == x && e.2.2 == y)
    · rfl
    · exact absurd ((matchProp_iff sp x y e).1 hx ▸ ⟨rfl, rfl⟩) hsq
  · refine List.eraseP_of_forall_not ?_
    intro a ha hm
    exact hnosq a ha (((matchProp_iff sp x y a).1 hm) ▸ ⟨rfl, rfl⟩)
  · exact hpair.sublist (List.eraseP_sublist _)

/-- A fresh board satisfies the induction invariant. -/
theorem good_init (w h : Nat) : Good (Board.init w h) := by
  refine ⟨fun q p hp => Option.noConfusion hp, rfl, ?_⟩
  intro c l hl
  have hl2 : l = [] := by
    simp only [Board.init, dget] at hl
    by_cases hc : c = "w"
    · subst hc
      simp at hl
      exact hl
    · by_cases hb : c = "b"
      · subst hb
        simp at hl
        exact hl
      · simp [Ne.symm hc, Ne.symm hb] at hl
  subst hl2
  exact ⟨fun e he => absurd he (List.not_mem_nil e),
         fun x y p hp => Option.noConfusion hp, List.Pairwise.nil⟩

/-- A successful `clear` preserves the induction invariant. -/
theorem good_clear (b : Board) (x y : Int) (hg : Good b)
    (hok : (b.clear x y).isOk = true) : Good (b.clear x y).boardOf := by
  obtain ⟨hnr, hroy, hidx⟩ := hg
  by_cases hin : b.inB x y = true
  swap
  · have hbad : b.clear x y = .err oobMsg b := by
      unfold Board.clear
      rw [if_pos hin]
    rw [hbad] at hok
    simp [ARes.isOk] at hok
  cases hc : b.cellAt x y with
  | none =>
    rw [clear_none b x y hin hc]
    exact ⟨hnr, hroy, hidx⟩
  | some p =>
    have hpr : p.isRoyal = false := hnr (x, y) p hc
    cases hgp : dget b.pieces p.color with
    | none =>
      have hir : b.indexRemove x y = .err "KeyError: _pieces color" b := by
        simp only [Board.indexRemove, hc, hgp]
      have hbad : b.clear x y = .err "KeyError: _pieces color" b := by
        simp [Board.clear, hin, hc, hpr, hir, ARes.andThen]
      rw [hbad] at hok
      simp [ARes.isOk] at hok
    | some l =>
      have hcl := clear_some_nonroyal b x y p l hin hc hpr hgp
      rw [hcl]
      simp only [ARes.boardOf]
      have hbprops := hidx p.color l hgp
      have hmem : (p, x, y) ∈ l := hbprops.2.1 x y p hc rfl
      have hfacts := eraseP_entry_facts l p x y hbprops.2.2 hmem
      refine ⟨?_, hroy, ?_⟩
      · intro q pp hq
        by_cases hqq : q = ((x, y) : Int × Int)
        · subst hqq
          simp [Board.setCell, Function.update] at hq
        · simp [Board.setCell, Function.update, hqq] at hq
          exact hnr q pp hq
      · intro c l' hl'
        by_cases hcc : c = p.color
        · subst hcc
          have h0 : some l' = some (l.eraseP (fun e => e.1 == p && e.2.1 == x && e.2.2 == y)) := by
            rw [← hl']
            exact dget_dset_self _ _ _
          injection h0 with h00
          subst h00
          refine ⟨?_, ?_, hfacts.2.2.2⟩
          · intro e he
            obtain ⟨hel, hesq⟩ := hfacts.1 e he
            have hold := (hbprops.1 e hel)
            refine ⟨?_, hold.2⟩
            show Function.update b.grid (x, y) none (e.2.1, e.2.2) = some e.1
            rw [Function.update]
            simp only []
            rw [dif_neg (by intro hq; exact hesq ⟨congrArg Prod.fst hq, congrArg Prod.snd hq⟩)]
            exact hold.1
          · intro a bb q hq hcol
            have hne : ¬(a = x ∧ bb = y) := by
              rintro ⟨h1, h2⟩
              subst h1; subst h2
              simp [Board.setCell, Function.update] at hq
            have hq2 : b.grid (a, bb) = some q := by
              simp only [Board.setCell, Function.update] at hq
              rw [dif_neg (by intro hh; exact hne ⟨congrArg Prod.fst hh, congrArg Prod.snd hh⟩)] at hq
              exact hq
            exact hfacts.2.1 (q, a, bb) (hbprops.2.1 a bb q hq2 hcol) hne
        · rw [show ((Board.setCell { b with pieces := dset b.pieces p.color (l.eraseP (fun e => e.1 == p && e.2.1 == x && e.2.2 == y)) } x y none) : Board).pieces = dset b.pieces p.color (l.eraseP (fun e => e.1 == p && e.2.1 == x && e.2.2 == y)) from rfl, dget_dset_ne _ _ _ _ hcc] at hl'
          have hold := hidx c l' hl'
          refine ⟨?_, ?_, hold.2.2⟩
          · intro e he
            have h1 := hold.1 e he
            refine ⟨?_, h1.2⟩
            have hesq : ¬(e.2.1 = x ∧ e.2.2 = y) := by
              rintro ⟨h2, h3⟩
              have : b.cellAt e.2.1 e.2.2 = some e.1 := h1.1
              rw [h2, h3, hc] at this
              injection this with h4
              exact hcc (h4 ▸ h1.2).symm
            show Function.update b.grid (x, y) none (e.2.1, e.2.2) = some e.1
            rw [Function.update]
            simp only []
            rw [dif_neg (by intro hq; exact hesq ⟨congrArg Prod.fst hq, congrArg Prod.snd hq⟩)]
            exact h1.1
          · intro a bb q hq hcol
            have hne : ¬(a = x ∧ bb = y) := by
              rintro ⟨h1, h2⟩
              subst h1; subst h2
              simp [Board.setCell, Function.update] at hq
            have hq2 : b.grid (a, bb) = some q := by
              simp only [Board.setCell, Function.update] at hq
              rw [dif_neg (by intro hh; exact hne ⟨congrArg Prod.fst hh, congrArg Prod.snd hh⟩)] at hq
              exact hq
            exact hold.2.1 a bb q hq2 hcol

/-- The creation half of `put` turns an index that is exact away from the
target square (with no entries on it) into an exact index. -/
theorem good_putTail (b2 : Board) (x y : Int) (k c : String)
    (hnr2 : ∀ q p, b2.grid q = some p → p.isRoyal = false)
    (hroy2 : b2.royal = [("w", .rset []), ("b", .rset [])])
    (hidx2 : ∀ c' l', dget b2.pieces c' = some l' →
      ((∀ e ∈ l', b2.cellAt e.2.1 e.2.2 = some e.1 ∧ e.1.color = c' ∧ ¬(e.2.1 = x ∧ e.2.2 = y)) ∧
       (∀ a bb q, b2.grid (a, bb) = some q → q.color = c' → ¬(a = x ∧ bb = y) → (q, a, bb) ∈ l') ∧
       l'.Pairwise (fun e₁ e₂ => ¬(e₁.2.1 = e₂.2.1 ∧ e₁.2.2 = e₂.2.2))))
    (hok : (b2.putTail x y k c).isOk = true) :
    Good (b2.putTail x y k c).boardOf := by
  cases hcp : createPiece k c b2.nextUid with
  | none =>
    have hbad : b2.putTail x y k c = .err "ValueError: cannot create piece" b2 := by
      simp only [Board.putTail, hcp]
    rw [hbad] at hok
    simp [ARes.isOk] at hok
  | some p =>
    obtain ⟨hpc, hpr⟩ := createPiece_color hcp
    set B3 : Board := { b2 with grid := Function.update b2.grid (x, y) (some p), nextUid := b2.nextUid + 1 } with hB3
    have hB3cell : B3.cellAt x y = some p := by
      show Function.update b2.grid (x, y) (some p) (x, y) = some p
      simp [Function.update]
    cases hb : dget b2.pieces p.color with
    | none =>
      have hia : B3.indexAdd x y = .err "KeyError: _pieces color" B3 := by
        have hbp : dget B3.pieces p.color = none := hb
        simp only [Board.indexAdd, hB3cell, hbp]
      have hbad : b2.putTail x y k c = .err "KeyError: _pieces color" B3 := by
        simp only [Board.putTail, hcp]
        rw [show ({ b2.setCell x y (some p) with nextUid := (b2.setCell x y (some p)).nextUid + 1 } : Board) = B3 from rfl]
        rw [hia]
        simp [ARes.andThen]
      rw [hbad] at hok
      simp [ARes.isOk] at hok
    | some l2 =>
      have hB3get : dget B3.pieces p.color = some l2 := hb
      have hia := indexAdd_some B3 x y p l2 hB3cell hB3get
      set B4 : Board := { B3 with pieces := dset B3.pieces p.color (l2 ++ [(p, x, y)]) } with hB4
      have hgood : b2.putTail x y k c = .ok B4 := by
        simp only [Board.putTail, hcp]
        rw [show ({ b2.setCell x y (some p) with nextUid := (b2.setCell x y (some p)).nextUid + 1 } : Board) = B3 from rfl]
        rw [hia]
        simp only [ARes.andThen]
        simp only [hpr, Bool.false_eq_true, if_false]
      rw [hgood]
      simp only [ARes.boardOf]
      have hfacts2 := hidx2 p.color l2 hb
      refine ⟨?_, hroy2, ?_⟩
      · intro q pp hq
        by_cases hqq : q = ((x, y) : Int × Int)
        · subst hqq
          have hq2 : Function.update b2.grid (x, y) (some p) (x, y) = some pp := hq
          rw [Function.update] at hq2
          simp at hq2
          rw [← hq2]
          exact hpr
        · have hq2 : Function.update b2.grid (x, y) (some p) q = some pp := hq
          rw [Function.update] at hq2
          simp only [dif_neg hqq] at hq2
          exact hnr2 q pp hq2
      · intro c' l' hl'
        by_cases hcc : c' = p.color
        · subst hcc
          have h0 : some l' = some (l2 ++ [(p, x, y)]) := by
            rw [← hl']
            exact dget_dset_self _ _ _
          injection h0 with h00
          subst h00
          refine ⟨?_, ?_, ?_⟩
          · intro e he
            rcases List.mem_append.1 he with h | h
            · obtain ⟨hc1, hc2, hc3⟩ := hfacts2.1 e h
              refine ⟨?_, hc2⟩
              show Function.update b2.grid (x, y) (some p) (e.2.1, e.2.2) = some e.1
              rw [Function.update]
              simp only []
              rw [dif_neg (by intro hq; exact hc3 ⟨congrArg Prod.fst hq, congrArg Prod.snd hq⟩)]
              exact hc1
            · rw [List.mem_singleton.1 h]
              exact ⟨hB3cell, rfl⟩
          · intro a bb q hq hcol
            have hq2 : Function.update b2.grid (x, y) (some p) (a, bb) = some q := hq
            by_cases hab : ((a, bb) : Int × Int) = (x, y)
            · rw [hab] at hq2
              rw [Function.update] at hq2
              simp at hq2
              have hax : a = x := congrArg Prod.fst hab
              have hby : bb = y := congrArg Prod.snd hab
              subst hax; subst hby
              rw [← hq2]
              exact List.mem_append.2 (Or.inr (List.mem_singleton.2 rfl))
            · rw [Function.update] at hq2
              simp only [dif_neg hab] at hq2
              refine List.mem_append.2 (Or.inl ?_)
              exact hfacts2.2.1 a bb q hq2 hcol
                (by intro hh; exact hab (by rw [hh.1, hh.2]))
          · rw [List.pairwise_append]
            refine ⟨hfacts2.2.2, List.pairwise_singleton _ _, ?_⟩
            intro e he e2 he2
            rw [List.mem_singleton.1 he2]
            intro hcon
            exact (hfacts2.1 e he).2.2 ⟨hcon.1, hcon.2⟩
        · have hl2 : dget b2.pieces c' = some l' := by
            rw [show (B4 : Board).pieces = dset B3.pieces p.color (l2 ++ [(p, x, y)]) from rfl] at hl'
            rw [dget_dset_ne _ _ _ _ hcc] at hl'
            exact hl'
          obtain ⟨hf1, hf2, hf3⟩ := hidx2 c' l' hl2
          refine ⟨?_, ?_, hf3⟩
          · intro e he
            obtain ⟨hc1, hc2, hc3⟩ := hf1 e he
            refine ⟨?_, hc2⟩
            show Function.update b2.grid (x, y) (some p) (e.2.1, e.2.2) = some e.1
            rw [Function.update]
            simp only []
            rw [dif_neg (by intro hq; exact hc3 ⟨congrArg Prod.fst hq, congrArg Prod.snd hq⟩)]
            exact hc1
          · intro a bb q hq hcol
            have hq2 : Function.update b2.grid (x, y) (some p) (a, bb) = some q := hq
            by_cases hab : ((a, bb) : Int × Int) = (x, y)
            · rw [hab] at hq2
              rw [Function.update] at hq2
              simp at hq2
              rw [← hq2] at hcol
              exact absurd (hpc ▸ hcol : p.color = c').symm (fun hh => hcc hh)
            · rw [Function.update] at hq2
              simp only [dif_neg hab] at hq2
              exact hf2 a bb q hq2 hcol (by intro hh; exact hab (by rw [hh.1, hh.2]))

/-- A successful `put` preserves the induction invariant. -/
theorem good_put (b : Board) (x y : Int) (k c : String) (hg : Good b)
    (hok : (b.put x y k c).isOk = true) : Good (b.put x y k c).boardOf := by
  obtain ⟨hnr, hroy, hidx⟩ := hg
  by_cases hin : b.inB x y = true
  swap
  · have hbad : b.put x y k c = .err oobMsg b := by
      unfold Board.put
      rw [if_pos hin]
    rw [hbad] at hok
    simp [ARes.isOk] at hok
  cases hold : b.cellAt x y with
  | none =>
    have hput : b.put x y k c = b.putTail x y k c := by
      unfold Board.put
      rw [if_neg (fun h => h hin)]
      rw [hold]
      simp [ARes.andThen]
    rw [hput] at hok ⊢
    apply good_putTail b x y k c hnr hroy ?_ hok
    intro c' l' hl'
    obtain ⟨hf1, hf2, hf3⟩ := hidx c' l' hl'
    refine ⟨?_, ?_, hf3⟩
    · intro e he
      obtain ⟨hc1, hc2⟩ := hf1 e he
      refine ⟨hc1, hc2, ?_⟩
      rintro ⟨h1, h2⟩
      rw [h1, h2, hold] at hc1
      exact Option.noConfusion hc1
    · intro a bb q hq hcol hne
      exact hf2 a bb q hq hcol
  | some old =>
    have holdr : old.isRoyal = false := hnr (x, y) old hold
    cases hgo : dget b.pieces old.color with
    | none =>
      have hir : b.indexRemove x y = .err "KeyError: _pieces color" b := by
        simp only [Board.indexRemove, hold, hgo]
      have hbad : b.put x y k c = .err "KeyError: _pieces color" b := by
        unfold Board.put
        rw [if_neg (fun h => h hin)]
        rw [hold]
        simp [holdr, hir, ARes.andThen]
      rw [hbad] at hok
      simp [ARes.isOk] at hok
    | some lo =>
      have hir := indexRemove_some b x y old lo hold hgo
      set B2 : Board := { b with pieces := dset b.pieces old.color (lo.eraseP (fun e => e.1 == old && e.2.1 == x && e.2.2 == y)) } with hB2
      have hput : b.put x y k c = B2.putTail x y k c := by
        unfold Board.put
        rw [if_neg (fun h => h hin)]
        rw [hold]
        simp only [holdr, Bool.false_eq_true, if_false]
        simp only [ARes.andThen]
        rw [hir]
      rw [hput] at hok ⊢
      obtain ⟨ho1, ho2, ho3⟩ := hidx old.color lo hgo
      have hmemo : (old, x, y) ∈ lo := ho2 x y old hold rfl
      have hfo := eraseP_entry_facts lo old x y ho3 hmemo
      apply good_putTail B2 x y k c hnr hroy ?_ hok
      intro c' l' hl'
      by_cases hcc : c' = old.color
      · subst hcc
        have h0 : some l' = some (lo.eraseP (fun e => e.1 == old && e.2.1 == x && e.2.2 == y)) := by
          rw [← hl']
          exact dget_dset_self _ _ _
        injection h0 with h00
        subst h00
        refine ⟨?_, ?_, hfo.2.2.2⟩
        · intro e he
          obtain ⟨hel, hesq⟩ := hfo.1 e he
          obtain ⟨hc1, hc2⟩ := ho1 e hel
          exact ⟨hc1, hc2, hesq⟩
        · intro a bb q hq hcol hne
          exact hfo.2.1 (q, a, bb) (ho2 a bb q hq hcol) hne
      · have hl2 : dget b.pieces c' = some l' := by
          rw [show (B2 : Board).pieces = dset b.pieces old.color (lo.eraseP (fun e => e.1 == old && e.2.1 == x && e.2.2 == y)) from rfl] at hl'
          rw [dget_dset_ne _ _ _ _ hcc] at hl'
          exact hl'
        obtain ⟨hf1, hf2, hf3⟩ := hidx c' l' hl2
        refine ⟨?_, ?_, hf3⟩
        · intro e he
          obtain ⟨hc1, hc2⟩ := hf1 e he
          refine ⟨hc1, hc2, ?_⟩
          rintro ⟨h1, h2⟩
          rw [h1, h2, hold] at hc1
          injection hc1 with h3
          have hoc : old.color = c' := by rw [h3]; exact hc2
          exact hcc hoc.symm
        · intro a bb q hq hcol hne
          exact hf2 a bb q hq hcol

/-- The board after a successful quiet `apply_move` satisfies the
induction invariant. -/
theorem good_after_A (b b₁ : Board) (mv : Move) (sp : Piece) (ls : List (Piece × Int × Int))
    (hnr : ∀ q p, b.grid q = some p → p.isRoyal = false)
    (hroy : b.royal = [("w", .rset []), ("b", .rset [])])
    (hidx : IndexExact b)
    (hsrc : b.cellAt mv.fx mv.fy = some sp) (hspr : sp.isRoyal = false)
    (hdst : b.cellAt mv.tx mv.ty = none)
    (hget : dget b.pieces sp.color = some ls)
    (hgr : b₁.grid = Function.update (Function.update b.grid (mv.fx, mv.fy) none) (mv.tx, mv.ty) (some (simOccupant sp mv b.nextUid)))
    (hcs : dget b₁.pieces sp.color = some (((ls.eraseP (fun e => e.1 == sp && e.2.1 == mv.fx && e.2.2 == mv.fy)).eraseP (fun e => e.1 == sp && e.2.1 == mv.fx && e.2.2 == mv.fy)) ++ [(simOccupant sp mv b.nextUid, mv.tx, mv.ty)]))
    (hco : ∀ c, c ≠ sp.color → dget b₁.pieces c = dget b.pieces c)
    (hr : b₁.royal = b.royal) :
    Good b₁ := by
  obtain ⟨ho1, ho2, ho3⟩ := hidx sp.color ls hget
  have hmem : (sp, mv.fx, mv.fy) ∈ ls := ho2 _ _ sp hsrc rfl
  have hfo := eraseP_entry_facts ls sp mv.fx mv.fy ho3 hmem
  have hnotxy : ∀ e ∈ ls, ¬(e.2.1 = mv.tx ∧ e.2.2 = mv.ty) := by
    intro e he hsq
    have h1 := (ho1 e he).1
    rw [hsq.1, hsq.2, hdst] at h1
    exact Option.noConfusion h1
  set occ : Piece := simOccupant sp mv b.nextUid with hocc
  have hoccr : occ.isRoyal = false := simOccupant_royal sp mv b.nextUid hspr
  have hoccc : occ.color = sp.color := simOccupant_color sp mv b.nextUid
  refine ⟨?_, by rw [hr]; exact hroy, ?_⟩
  · intro q p hq
    rw [hgr] at hq
    by_cases hq1 : q = ((mv.tx, mv.ty) : Int × Int)
    · rw [hq1, Function.update] at hq
      simp at hq
      rw [← hq]
      exact hoccr
    · rw [Function.update] at hq
      simp only [dif_neg hq1] at hq
      by_cases hq2 : q = ((mv.fx, mv.fy) : Int × Int)
      · rw [hq2, Function.update] at hq
        simp at hq
      · rw [Function.update] at hq
        simp only [dif_neg hq2] at hq
        exact hnr q p hq
  · intro c' l' hl'
    by_cases hcc : c' = sp.color
    · subst hcc
      rw [hfo.2.2.1] at hcs
      have h0 : some l' = some ((ls.eraseP (fun e => e.1 == sp && e.2.1 == mv.fx && e.2.2 == mv.fy)) ++ [(occ, mv.tx, mv.ty)]) := by
        rw [← hl', hcs]
      injection h0 with h00
      subst h00
      refine ⟨?_, ?_, ?_⟩
      · intro e he
        rcases List.mem_append.1 he with h | h
        · obtain ⟨hel, hesq⟩ := hfo.1 e h
          obtain ⟨hc1, hc2⟩ := ho1 e hel
          have hnt : ¬(e.2.1 = mv.tx ∧ e.2.2 = mv.ty) := hnotxy e hel
          refine ⟨?_, hc2⟩
          show b₁.grid (e.2.1, e.2.2) = some e.1
          rw [hgr, Function.update]
          simp only []
          rw [dif_neg (by intro hh; exact hnt ⟨congrArg Prod.fst hh, congrArg Prod.snd hh⟩)]
          rw [Function.update]
          simp only []
          rw [dif_neg (by intro hh; exact hesq ⟨congrArg Prod.fst hh, congrArg Prod.snd hh⟩)]
          exact hc1
        · rw [List.mem_singleton.1 h]
          refine ⟨?_, hoccc⟩
          show b₁.grid (mv.tx, mv.ty) = some occ
          rw [hgr]
          simp [Function.update]
      · intro a bb q hq hcol
        rw [hgr] at hq
        by_cases hab : ((a, bb) : Int × Int) = (mv.tx, mv.ty)
        · rw [hab, Function.update] at hq
          simp at hq
          have hax : a = mv.tx := congrArg Prod.fst hab
          have hby : bb = mv.ty := congrArg Prod.snd hab
          subst hax; subst hby
          rw [← hq]
          exact List.mem_append.2 (Or.inr (List.mem_singleton.2 rfl))
        · rw [Function.update] at hq
          simp only [dif_neg hab] at hq
          by_cases hab2 : ((a, bb) : Int × Int) = (mv.fx, mv.fy)
          · rw [hab2, Function.update] at hq
            simp at hq
          · rw [Function.update] at hq
            simp only [dif_neg hab2] at hq
            refine List.mem_append.2 (Or.inl ?_)
            refine hfo.2.1 (q, a, bb) (ho2 a bb q hq hcol) ?_
            intro hh
            exact hab2 (by rw [show a = mv.fx from hh.1, show bb = mv.fy from hh.2])
      · rw [List.pairwise_append]
        refine ⟨hfo.2.2.2, List.pairwise_singleton _ _, ?_⟩
        intro e he e2 he2
        rw [List.mem_singleton.1 he2]
        intro hcon
        exact hnotxy e (hfo.1 e he).1 ⟨hcon.1, hcon.2⟩
    · rw [hco c' hcc] at hl'
      obtain ⟨hf1, hf2, hf3⟩ := hidx c' l' hl'
      refine ⟨?_, ?_, hf3⟩
      · intro e he
        obtain ⟨hc1, hc2⟩ := hf1 e he
        have hnt : ¬(e.2.1 = mv.tx ∧ e.2.2 = mv.ty) := by
          rintro ⟨h1, h2⟩
          rw [h1, h2, hdst] at hc1
          exact Option.noConfusion hc1
        have hnf : ¬(e.2.1 = mv.fx ∧ e.2.2 = mv.fy) := by
          rintro ⟨h1, h2⟩
          rw [h1, h2, hsrc] at hc1
          injection hc1 with h3
          have : sp.color = c' := by rw [h3]; exact hc2
          exact hcc this.symm
        refine ⟨?_, hc2⟩
        show b₁.grid (e.2.1, e.2.2) = some e.1
        rw [hgr, Function.update]
        simp only []
        rw [dif_neg (by intro hh; exact hnt ⟨congrArg Prod.fst hh, congrArg Prod.snd hh⟩)]
        rw [Function.update]
        simp only []
        rw [dif_neg (by intro hh; exact hnf ⟨congrArg Prod.fst hh, congrArg Prod.snd hh⟩)]
        exact hc1
      · intro a bb q hq hcol
        rw [hgr] at hq
        by_cases hab : ((a, bb) : Int × Int) = (mv.tx, mv.ty)
        · rw [hab, Function.update] at hq
          simp at hq
          rw [← hq] at hcol
          exact absurd (hoccc ▸ hcol : sp.color = c').symm (fun hh => hcc hh)
        · rw [Function.update] at hq
          simp only [dif_neg hab] at hq
          by_cases hab2 : ((a, bb) : Int × Int) = (mv.fx, mv.fy)
          · rw [hab2, Function.update] at hq
            simp at hq
          · rw [Function.update] at hq
            simp only [dif_neg hab2] at hq
            exact hf2 a bb q hq hcol

/-- The board after a successful capturing `apply_move` satisfies the
induction invariant. -/
theorem good_after_B (b b₁ : Board) (mv : Move) (sp d : Piece)
    (ls ld : List (Piece × Int × Int))
    (hnr : ∀ q p, b.grid q = some p → p.isRoyal = false)
    (hroy : b.royal = [("w", .rset []), ("b", .rset [])])
    (hidx : IndexExact b)
    (hsrc : b.cellAt mv.fx mv.fy = some sp) (hspr : sp.isRoyal = false)
    (hdst : b.cellAt mv.tx mv.ty = some d) (hdc : d.color ≠ sp.color)
    (hget : dget b.pieces sp.color = some ls)
    (hgetd : dget b.pieces d.color = some ld)
    (hgr : b₁.grid = Function.update (Function.update (Function.update b.grid (mv.tx, mv.ty) none) (mv.fx, mv.fy) none) (mv.tx, mv.ty) (some (simOccupant sp mv b.nextUid)))
    (hcs : dget b₁.pieces sp.color = some (((ls.eraseP (fun e => e.1 == sp && e.2.1 == mv.fx && e.2.2 == mv.fy)).eraseP (fun e => e.1 == sp && e.2.1 == mv.fx && e.2.2 == mv.fy)) ++ [(simOccupant sp mv b.nextUid, mv.tx, mv.ty)]))
    (hcd : dget b₁.pieces d.color = some ((ld.eraseP (fun e => e.1 == d && e.2.1 == mv.tx && e.2.2 == mv.ty)).eraseP (fun e => e.1 == d && e.2.1 == mv.tx && e.2.2 == mv.ty)))
    (hco : ∀ c, c ≠ sp.color → c ≠ d.color → dget b₁.pieces c = dget b.pieces c)
    (hr : b₁.royal = b.royal) :
    Good b₁ := by
  obtain ⟨ho1, ho2, ho3⟩ := hidx sp.color ls hget
  obtain ⟨hd1, hd2, hd3⟩ := hidx d.color ld hgetd
  have hmem : (sp, mv.fx, mv.fy) ∈ ls := ho2 _ _ sp hsrc rfl
  have hmemd : (d, mv.tx, mv.ty) ∈ ld := hd2 _ _ d hdst rfl
  have hfo := eraseP_entry_facts ls sp mv.fx mv.fy ho3 hmem
  have hfd := eraseP_entry_facts ld d mv.tx mv.ty hd3 hmemd
  have hnotxy : ∀ e ∈ ls, ¬(e.2.1 = mv.tx ∧ e.2.2 = mv.ty) := by
    intro e he hsq
    have h1 := (ho1 e he).1
    rw [hsq.1, hsq.2, hdst] at h1
    injection h1 with h2
    have : d.color = sp.color := by rw [h2]; exact (ho1 e he).2
    exact hdc this
  have hdnofxy : ∀ e ∈ ld, ¬(e.2.1 = mv.fx ∧ e.2.2 = mv.fy) := by
    intro e he hsq
    have h1 := (hd1 e he).1
    rw [hsq.1, hsq.2, hsrc] at h1
    injection h1 with h2
    have : sp.color = d.color := by rw [h2]; exact (hd1 e he).2
    exact hdc this.symm
  set occ : Piece := simOccupant sp mv b.nextUid with hocc
  have hoccr : occ.isRoyal = false := simOccupant_royal sp mv b.nextUid hspr
  have hoccc : occ.color = sp.color := simOccupant_color sp mv b.nextUid
  have hcell1 : b₁.grid (mv.tx, mv.ty) = some occ := by
    rw [hgr]
    simp [Function.update]
  have hcellOther : ∀ a bb : Int, ¬(a = mv.tx ∧ bb = mv.ty) → ¬(a = mv.fx ∧ bb = mv.fy) →
      b₁.grid (a, bb) = b.grid (a, bb) := by
    intro a bb h1 h2
    rw [hgr, Function.update]
    simp only []
    rw [dif_neg (by intro hh; exact h1 ⟨congrArg Prod.fst hh, congrArg Prod.snd hh⟩)]
    rw [Function.update]
    simp only []
    rw [dif_neg (by intro hh; exact h2 ⟨congrArg Prod.fst hh, congrArg Prod.snd hh⟩)]
    rw [Function.update]
    simp only []
    rw [dif_neg (by intro hh; exact h1 ⟨congrArg Prod.fst hh, congrArg Prod.snd hh⟩)]
  have hcellF : b₁.grid (mv.fx, mv.fy) = none ∨ ((mv.fx, mv.fy) : Int × Int) = (mv.tx, mv.ty) := by
    by_cases hq : ((mv.fx, mv.fy) : Int × Int) = (mv.tx, mv.ty)
    · exact Or.inr hq
    · refine Or.inl ?_
      rw [hgr, Function.update]
      simp only []
      rw [dif_neg hq]
      simp [Function.update]
  refine ⟨?_, by rw [hr]; exact hroy, ?_⟩
  · intro q p hq
    by_cases hq1 : q = ((mv.tx, mv.ty) : Int × Int)
    · rw [hq1, hcell1] at hq
      injection hq with h2
      rw [← h2]
      exact hoccr
    · by_cases hq2 : q = ((mv.fx, mv.fy) : Int × Int)
      · rcases hcellF with h | h
        · rw [hq2, h] at hq
          exact Option.noConfusion hq
        · rw [hq2, h, hcell1] at hq
          injection hq with h2
          rw [← h2]
          exact hoccr
      · obtain ⟨qa, qb⟩ := q
        rw [hcellOther qa qb (fun hh => hq1 (by rw [hh.1, hh.2])) (fun hh => hq2 (by rw [hh.1, hh.2]))] at hq
        exact hnr _ p hq
  · intro c' l' hl'
    by_cases hcc : c' = sp.color
    · subst hcc
      rw [hfo.2.2.1] at hcs
      have h0 : some l' = some ((ls.eraseP (fun e => e.1 == sp && e.2.1 == mv.fx && e.2.2 == mv.fy)) ++ [(occ, mv.tx, mv.ty)]) := by
        rw [← hl', hcs]
      injection h0 with h00
      subst h00
      refine ⟨?_, ?_, ?_⟩
      · intro e he
        rcases List.mem_append.1 he with h | h
        · obtain ⟨hel, hesq⟩ := hfo.1 e h
          obtain ⟨hc1, hc2⟩ := ho1 e hel
          have hnt : ¬(e.2.1 = mv.tx ∧ e.2.2 = mv.ty) := hnotxy e hel
          refine ⟨?_, hc2⟩
          show b₁.grid (e.2.1, e.2.2) = some e.1
          rw [hcellOther _ _ hnt hesq]
          exact hc1
        · rw [List.mem_singleton.1 h]
          exact ⟨hcell1, hoccc⟩
      · intro a bb q hq hcol
        by_cases hab : ((a, bb) : Int × Int) = (mv.tx, mv.ty)
        · rw [hab, hcell1] at hq
          have hax : a = mv.tx := congrArg Prod.fst hab
          have hby : bb = mv.ty := congrArg Prod.snd hab
          subst hax; subst hby
          injection hq with h2
          rw [h2]
          exact List.mem_append.2 (Or.inr (List.mem_singleton.2 rfl))
        · by_cases hab2 : ((a, bb) : Int × Int) = (mv.fx, mv.fy)
          · rcases hcellF with h | h
            · rw [hab2, h] at hq
              exact Option.noConfusion hq
            · exact absurd (hab2.trans h) hab
          · rw [hcellOther a bb (fun hh => hab (by rw [hh.1, hh.2])) (fun hh => hab2 (by rw [hh.1, hh.2]))] at hq
            refine List.mem_append.2 (Or.inl ?_)
            refine hfo.2.1 (q, a, bb) (ho2 a bb q hq hcol) ?_
            intro hh
            exact hab2 (by rw [show a = mv.fx from hh.1, show bb = mv.fy from hh.2])
      · rw [List.pairwise_append]
        refine ⟨hfo.2.2.2, List.pairwise_singleton _ _, ?_⟩
        intro e he e2 he2
        rw [List.mem_singleton.1 he2]
        intro hcon
        exact hnotxy e (hfo.1 e he).1 ⟨hcon.1, hcon.2⟩
    · by_cases hcc2 : c' = d.color
      · subst hcc2
        rw [hfd.2.2.1] at hcd
        have h0 : some l' = some (ld.eraseP (fun e => e.1 == d && e.2.1 == mv.tx && e.2.2 == mv.ty)) := by
          rw [← hl', hcd]
        injection h0 with h00
        subst h00
        refine ⟨?_, ?_, hfd.2.2.2⟩
        · intro e he
          obtain ⟨hel, hesq⟩ := hfd.1 e he
          obtain ⟨hc1, hc2⟩ := hd1 e hel
          have hnf : ¬(e.2.1 = mv.fx ∧ e.2.2 = mv.fy) := hdnofxy e hel
          refine ⟨?_, hc2⟩
          show b₁.grid (e.2.1, e.2.2) = some e.1
          rw [hcellOther _ _ hesq hnf]
          exact hc1
        · intro a bb q hq hcol
          by_cases hab : ((a, bb) : Int × Int) = (mv.tx, mv.ty)
          · rw [hab, hcell1] at hq
            injection hq with h2
            rw [← h2] at hcol
            rw [hoccc] at hcol
            exact absurd hcol.symm hcc
          · by_cases hab2 : ((a, bb) : Int × Int) = (mv.fx, mv.fy)
            · rcases hcellF with h | h
              · rw [hab2, h] at hq
                exact Option.noConfusion hq
              · exact absurd (hab2.trans h) hab
            · rw [hcellOther a bb (fun hh => hab (by rw [hh.1, hh.2])) (fun hh => hab2 (by rw [hh.1, hh.2]))] at hq
              refine hfd.2.1 (q, a, bb) (hd2 a bb q hq hcol) ?_
              intro hh
              exact hab (by rw [show a = mv.tx from hh.1, show bb = mv.ty from hh.2])
      · rw [hco c' hcc hcc2] at hl'
        obtain ⟨hf1, hf2, hf3⟩ := hidx c' l' hl'
        refine ⟨?_, ?_, hf3⟩
        · intro e he
          obtain ⟨hc1, hc2⟩ := hf1 e he
          have hnt : ¬(e.2.1 = mv.tx ∧ e.2.2 = mv.ty) := by
            rintro ⟨h1, h2⟩
            rw [h1, h2, hdst] at hc1
            injection hc1 with h3
            have : d.color = c' := by rw [h3]; exact hc2
            exact hcc2 this.symm
          have hnf : ¬(e.2.1 = mv.fx ∧ e.2.2 = mv.fy) := by
            rintro ⟨h1, h2⟩
            rw [h1, h2, hsrc] at hc1
            injection hc1 with h3
            have : sp.color = c' := by rw [h3]; exact hc2
            exact hcc this.symm
          refine ⟨?_, hc2⟩
          show b₁.grid (e.2.1, e.2.2) = some e.1
          rw [hcellOther _ _ hnt hnf]
          exact hc1
        · intro a bb q hq hcol
          by_cases hab : ((a, bb) : Int × Int) = (mv.tx, mv.ty)
          · rw [hab, hcell1] at hq
            injection hq with h2
            rw [← h2] at hcol
            rw [hoccc] at hcol
            exact absurd hcol.symm hcc
          · by_cases hab2 : ((a, bb) : Int × Int) = (mv.fx, mv.fy)
            · rcases hcellF with h | h
              · rw [hab2, h] at hq
                exact Option.noConfusion hq
              · exact absurd (hab2.trans h) hab
            · rw [hcellOther a bb (fun hh => hab (by rw [hh.1, hh.2])) (fun hh => hab2 (by rw [hh.1, hh.2]))] at hq
              exact hf2 a bb q hq hcol

/-- The board after a successful en-passant `apply_move` with an empty
destination satisfies the induction invariant. -/
theorem good_after_C (b b₁ : Board) (mv : Move) (sp v : Piece) (cx cy : Int)
    (ls lv : List (Piece × Int × Int))
    (hnr : ∀ q p, b.grid q = some p → p.isRoyal = false)
    (hroy : b.royal = [("w", .rset []), ("b", .rset [])])
    (hidx : IndexExact b)
    (hsrc : b.cellAt mv.fx mv.fy = some sp) (hspr : sp.isRoyal = false)
    (hvic : b.cellAt cx cy = some v) (hvc : v.color ≠ sp.color)
    (hdst : b.cellAt mv.tx mv.ty = none)
    (hget : dget b.pieces sp.color = some ls)
    (hgetv : dget b.pieces v.color = some lv)
    (hgr : b₁.grid = Function.update (Function.update (Function.update b.grid (cx, cy) none) (mv.fx, mv.fy) none) (mv.tx, mv.ty) (some (simOccupant sp mv b.nextUid)))
    (hcs : dget b₁.pieces sp.color = some (((ls.eraseP (fun e => e.1 == sp && e.2.1 == mv.fx && e.2.2 == mv.fy)).eraseP (fun e => e.1 == sp && e.2.1 == mv.fx && e.2.2 == mv.fy)) ++ [(simOccupant sp mv b.nextUid, mv.tx, mv.ty)]))
    (hcv : dget b₁.pieces v.color = some ((lv.eraseP (fun e => e.1 == v && e.2.1 == cx && e.2.2 == cy)).eraseP (fun e => e.1 == v && e.2.1 == cx && e.2.2 == cy)))
    (hco : ∀ c, c ≠ sp.color → c ≠ v.color → dget b₁.pieces c = dget b.pieces c)
    (hr : b₁.royal = b.royal) :
    Good b₁ := by
  obtain ⟨ho1, ho2, ho3⟩ := hidx sp.color ls hget
  obtain ⟨hv1, hv2, hv3⟩ := hidx v.color lv hgetv
  have hmem : (sp, mv.fx, mv.fy) ∈ ls := ho2 _ _ sp hsrc rfl
  have hmemv : (v, cx, cy) ∈ lv := hv2 _ _ v hvic rfl
  have hfo := eraseP_entry_facts ls sp mv.fx mv.fy ho3 hmem
  have hfv := eraseP_entry_facts lv v cx cy hv3 hmemv
  have hnotxy : ∀ e ∈ ls, ¬(e.2.1 = mv.tx ∧ e.2.2 = mv.ty) := by
    intro e he hsq
    have h1 := (ho1 e he).1
    rw [hsq.1, hsq.2, hdst] at h1
    exact Option.noConfusion h1
  have hnocxy : ∀ e ∈ ls, ¬(e.2.1 = cx ∧ e.2.2 = cy) := by
    intro e he hsq
    have h1 := (ho1 e he).1
    rw [hsq.1, hsq.2, hvic] at h1
    injection h1 with h2
    have : v.color = sp.color := by rw [h2]; exact (ho1 e he).2
    exact hvc this
  have hvnofxy : ∀ e ∈ lv, ¬(e.2.1 = mv.fx ∧ e.2.2 = mv.fy) := by
    intro e he hsq
    have h1 := (hv1 e he).1
    rw [hsq.1, hsq.2, hsrc] at h1
    injection h1 with h2
    have : sp.color = v.color := by rw [h2]; exact (hv1 e he).2
    exact hvc this.symm
  have hvnotxy : ∀ e ∈ lv, ¬(e.2.1 = mv.tx ∧ e.2.2 = mv.ty) := by
    intro e he hsq
    have h1 := (hv1 e he).1
    rw [hsq.1, hsq.2, hdst] at h1
    exact Option.noConfusion h1
  set occ : Piece := simOccupant sp mv b.nextUid with hocc
  have hoccr : occ.isRoyal = false := simOccupant_royal sp mv b.nextUid hspr
  have hoccc : occ.color = sp.color := simOccupant_color sp mv b.nextUid
  have hcell1 : b₁.grid (mv.tx, mv.ty) = some occ := by
    rw [hgr]
    simp [Function.update]
  have hcellOther : ∀ a bb : Int, ¬(a = mv.tx ∧ bb = mv.ty) → ¬(a = mv.fx ∧ bb = mv.fy) →
      ¬(a = cx ∧ bb = cy) → b₁.grid (a, bb) = b.grid (a, bb) := by
    intro a bb h1 h2 h3
    rw [hgr, Function.update]
    simp only []
    rw [dif_neg (by intro hh; exact h1 ⟨congrArg Prod.fst hh, congrArg Prod.snd hh⟩)]
    rw [Function.update]
    simp only []
    rw [dif_neg (by intro hh; exact h2 ⟨congrArg Prod.fst hh, congrArg Prod.snd hh⟩)]
    rw [Function.update]
    simp only []
    rw [dif_neg (by intro hh; exact h3 ⟨congrArg Prod.fst hh, congrArg Prod.snd hh⟩)]
  have hcellF : ∀ a bb : Int, ¬(a = mv.tx ∧ bb = mv.ty) →
      ((a = mv.fx ∧ bb = mv.fy) ∨ (a = cx ∧ bb = cy)) → b₁.grid (a, bb) = none := by
    intro a bb h1 h2
    rw [hgr, Function.update]
    simp only []
    rw [dif_neg (by intro hh; exact h1 ⟨congrArg Prod.fst hh, congrArg Prod.snd hh⟩)]
    rcases h2 with h | h
    · rw [h.1, h.2]
      simp [Function.update]
    · rw [h.1, h.2, Function.update]
      simp only []
      by_cases hq : ((cx, cy) : Int × Int) = (mv.fx, mv.fy)
      · rw [dif_pos hq]
        simp
      · rw [dif_neg hq]
        simp [Function.update]
  refine ⟨?_, by rw [hr]; exact hroy, ?_⟩
  · intro q p hq
    obtain ⟨qa, qb⟩ := q
    by_cases hq1 : qa = mv.tx ∧ qb = mv.ty
    · rw [hq1.1, hq1.2, hcell1] at hq
      injection hq with h2
      rw [← h2]
      exact hoccr
    · by_cases hq2 : (qa = mv.fx ∧ qb = mv.fy) ∨ (qa = cx ∧ qb = cy)
      · rw [hcellF qa qb hq1 hq2] at hq
        exact Option.noConfusion hq
      · push_neg at hq2
        rw [hcellOther qa qb hq1 ?hh1 ?hh2] at hq
        · exact hnr _ p hq
        · intro hh
          exact hq2.1 hh.1 hh.2
        · intro hh
          exact hq2.2 hh.1 hh.2
  · intro c' l' hl'
    by_cases hcc : c' = sp.color
    · subst hcc
      rw [hfo.2.2.1] at hcs
      have h0 : some l' = some ((ls.eraseP (fun e => e.1 == sp && e.2.1 == mv.fx && e.2.2 == mv.fy)) ++ [(occ, mv.tx, mv.ty)]) := by
        rw [← hl', hcs]
      injection h0 with h00
      subst h00
      refine ⟨?_, ?_, ?_⟩
      · intro e he
        rcases List.mem_append.1 he with h | h
        · obtain ⟨hel, hesq⟩ := hfo.1 e h
          obtain ⟨hc1, hc2⟩ := ho1 e hel
          refine ⟨?_, hc2⟩
          show b₁.grid (e.2.1, e.2.2) = some e.1
          rw [hcellOther _ _ (hnotxy e hel) hesq (hnocxy e hel)]
          exact hc1
        · rw [List.mem_singleton.1 h]
          exact ⟨hcell1, hoccc⟩
      · intro a bb q hq hcol
        by_cases hab : a = mv.tx ∧ bb = mv.ty
        · rw [hab.1, hab.2, hcell1] at hq
          injection hq with h2
          rw [hab.1, hab.2, h2]
          exact List.mem_append.2 (Or.inr (List.mem_singleton.2 rfl))
        · by_cases hab2 : (a = mv.fx ∧ bb = mv.fy) ∨ (a = cx ∧ bb = cy)
          · rw [hcellF a bb hab hab2] at hq
            exact Option.noConfusion hq
          · push_neg at hab2
            rw [hcellOther a bb hab (fun hh => hab2.1 hh.1 hh.2) (fun hh => hab2.2 hh.1 hh.2)] at hq
            refine List.mem_append.2 (Or.inl ?_)
            refine hfo.2.1 (q, a, bb) (ho2 a bb q hq hcol) ?_
            intro hh
            exact hab2.1 hh.1 hh.2
      · rw [List.pairwise_append]
        refine ⟨hfo.2.2.2, List.pairwise_singleton _ _, ?_⟩
        intro e he e2 he2
        rw [List.mem_singleton.1 he2]
        intro hcon
        exact hnotxy e (hfo.1 e he).1 ⟨hcon.1, hcon.2⟩
    · by_cases hcc2 : c' = v.color
      · subst hcc2
        rw [hfv.2.2.1] at hcv
        have h0 : some l' = some (lv.eraseP (fun e => e.1 == v && e.2.1 == cx && e.2.2 == cy)) := by
          rw [← hl', hcv]
        injection h0 with h00
        subst h00
        refine ⟨?_, ?_, hfv.2.2.2⟩
        · intro e he
          obtain ⟨hel, hesq⟩ := hfv.1 e he
          obtain ⟨hc1, hc2⟩ := hv1 e hel
          refine ⟨?_, hc2⟩
          show b₁.grid (e.2.1, e.2.2) = some e.1
          rw [hcellOther _ _ (hvnotxy e hel) (hvnofxy e hel) hesq]
          exact hc1
        · intro a bb q hq hcol
          by_cases hab : a = mv.tx ∧ bb = mv.ty
          · rw [hab.1, hab.2, hcell1] at hq
            injection hq with h2
            rw [← h2] at hcol
            rw [hoccc] at hcol
            exact absurd hcol.symm hcc
          · by_cases hab2 : (a = mv.fx ∧ bb = mv.fy) ∨ (a = cx ∧ bb = cy)
            · rw [hcellF a bb hab hab2] at hq
              exact Option.noConfusion hq
            · push_neg at hab2
              rw [hcellOther a bb hab (fun hh => hab2.1 hh.1 hh.2) (fun hh => hab2.2 hh.1 hh.2)] at hq
              refine hfv.2.1 (q, a, bb) (hv2 a bb q hq hcol) ?_
              intro hh
              exact hab2.2 hh.1 hh.2
      · rw [hco c' hcc hcc2] at hl'
        obtain ⟨hf1, hf2, hf3⟩ := hidx c' l' hl'
        refine ⟨?_, ?_, hf3⟩
        · intro e he
          obtain ⟨hc1, hc2⟩ := hf1 e he
          have hnt : ¬(e.2.1 = mv.tx ∧ e.2.2 = mv.ty) := by
            rintro ⟨h1, h2⟩
            rw [h1, h2, hdst] at hc1
            exact Option.noConfusion hc1
          have hnf : ¬(e.2.1 = mv.fx ∧ e.2.2 = mv.fy) := by
            rintro ⟨h1, h2⟩
            rw [h1, h2, hsrc] at hc1
            injection hc1 with h3
            have : sp.color = c' := by rw [h3]; exact hc2
            exact hcc this.symm
          have hnc : ¬(e.2.1 = cx ∧ e.2.2 = cy) := by
            rintro ⟨h1, h2⟩
            rw [h1, h2, hvic] at hc1
            injection hc1 with h3
            have : v.color = c' := by rw [h3]; exact hc2
            exact hcc2 this.symm
          refine ⟨?_, hc2⟩
          show b₁.grid (e.2.1, e.2.2) = some e.1
          rw [hcellOther _ _ hnt hnf hnc]
          exact hc1
        · intro a bb q hq hcol
          by_cases hab : a = mv.tx ∧ bb = mv.ty
          · rw [hab.1, hab.2, hcell1] at hq
            injection hq with h2
            rw [← h2] at hcol
            rw [hoccc] at hcol
            exact absurd hcol.symm hcc
          · by_cases hab2 : (a = mv.fx ∧ bb = mv.fy) ∨ (a = cx ∧ bb = cy)
            · rw [hcellF a bb hab hab2] at hq
              exact Option.noConfusion hq
            · push_neg at hab2
              rw [hcellOther a bb hab (fun hh => hab2.1 hh.1 hh.2) (fun hh => hab2.2 hh.1 hh.2)] at hq
              exact hf2 a bb q hq hcol

/-- A successful `apply_move` whose en-passant destination is empty
preserves the induction invariant. -/
theorem good_apply (b : Board) (mv : Move) (hg : Good b)
    (hepc : mv.is_en_passant = true → b.cellAt mv.tx mv.ty = none)
    (hok : (b.applyMove mv).isOk = true) : Good (b.applyMove mv).boardOf := by
  obtain ⟨hnr, hroy, hidx⟩ := hg
  by_cases hfx : b.inB mv.fx mv.fy = true
  swap
  · have hbad : b.applyMove mv = .err oobMsg b := by
      unfold Board.applyMove
      rw [if_pos hfx]
    rw [hbad] at hok
    simp [ARes.isOk] at hok
  by_cases htx : b.inB mv.tx mv.ty = true
  swap
  · have hbad : b.applyMove mv = .err oobMsg b := by
      unfold Board.applyMove
      rw [if_neg (fun h => h hfx), if_pos htx]
    rw [hbad] at hok
    simp [ARes.isOk] at hok
  cases hsrc : b.cellAt mv.fx mv.fy with
  | none =>
    have hbad : b.applyMove mv = .err "No piece at source" b := by
      unfold Board.applyMove
      rw [if_neg (fun h => h hfx), if_neg (fun h => h htx), hsrc]
    rw [hbad] at hok
    simp [ARes.isOk] at hok
  | some sp =>
  have hspr : sp.isRoyal = false := hnr _ sp hsrc
  cases hget : dget b.pieces sp.color with
  | none =>
    have hir : b.indexRemove mv.fx mv.fy = .err "KeyError: _pieces color" b := by
      simp only [Board.indexRemove, hsrc, hget]
    have hbad : b.applyMove mv = .err "KeyError: _pieces color" b := by
      unfold Board.applyMove
      rw [if_neg (fun h => h hfx), if_neg (fun h => h htx), hsrc, hir]
      simp [ARes.andThen]
    rw [hbad] at hok
    simp [ARes.isOk] at hok
  | some ls =>
  have h1 := indexRemove_some b mv.fx mv.fy sp ls hsrc hget
  set m : (Piece × Int × Int) → Bool := fun e => e.1 == sp && e.2.1 == mv.fx && e.2.2 == mv.fy with hm
  set B1 : Board := { b with pieces := dset b.pieces sp.color (ls.eraseP m) } with hB1
  cases hepb : mv.is_en_passant with
  | false =>
    cases hdst : b.cellAt mv.tx mv.ty with
    | none =>
      obtain ⟨b₁, happ, hw, hh, hgr, hcs, hco, hr, hepr⟩ :=
        applyMove_char_A b mv sp ls hfx htx hsrc hspr hepb hdst hget
      rw [happ]
      simp only [ARes.boardOf]
      exact good_after_A b b₁ mv sp ls hnr hroy hidx hsrc hspr hdst hget hgr hcs hco hr
    | some d =>
      have hdr : d.isRoyal = false := hnr _ d hdst
      have hB1dst : B1.cellAt mv.tx mv.ty = some d := hdst
      by_cases hdc : d.color = sp.color
      · have hbad : b.applyMove mv = .err "Destination occupied by same-color piece." B1 := by
          unfold Board.applyMove
          rw [hsrc]
          simp only [hfx, htx, not_true, if_false]
          rw [h1]
          simp only [ARes.andThen]
          simp only [hepb, Bool.false_eq_true, if_false]
          rw [hB1dst]
          simp only [if_pos hdc]
        rw [hbad] at hok
        simp [ARes.isOk] at hok
      cases hgetd : dget b.pieces d.color with
      | none =>
        have hB1getd : dget B1.pieces d.color = none := by
          show dget (dset b.pieces sp.color (ls.eraseP m)) d.color = none
          rw [dget_dset_ne _ _ _ _ hdc]
          exact hgetd
        have hird : B1.indexRemove mv.tx mv.ty = .err "KeyError: _pieces color" B1 := by
          simp only [Board.indexRemove, hB1dst, hB1getd]
        have hbad : b.applyMove mv = .err "KeyError: _pieces color" B1 := by
          unfold Board.applyMove
          rw [hsrc]
          simp only [hfx, htx, not_true, if_false]
          rw [h1]
          simp only [ARes.andThen]
          simp only [hepb, Bool.false_eq_true, if_false]
          rw [hB1dst]
          simp only [if_neg hdc]
          simp only [hepb, Bool.false_eq_true, not_false_eq_true, if_true]
          rw [hird]
        rw [hbad] at hok
        simp [ARes.isOk] at hok
      | some ld =>
        obtain ⟨b₁, happ, hw, hh, hgr, hcs, hcd, hco, hr, hepr⟩ :=
          applyMove_char_B b mv sp d ls ld hfx htx hsrc hspr hepb hdst hdr hdc hget hgetd
        rw [happ]
        simp only [ARes.boardOf]
        exact good_after_B b b₁ mv sp d ls ld hnr hroy hidx hsrc hspr hdst hdc hget hgetd hgr hcs hcd hco hr
  | true =>
    have hdst : b.cellAt mv.tx mv.ty = none := hepc hepb
    have hB1ep : B1.ep = b.ep := rfl
    cases hepx : b.ep with
    | none =>
      have hbad : b.applyMove mv = .err "EN PASSANT move but no en_passant_target set." B1 := by
        unfold Board.applyMove
        rw [hsrc]
        simp only [hfx, htx, not_true, if_false]
        rw [h1]
        simp only [ARes.andThen]
        simp only [hepb, if_true]
        rw [show B1.ep = (none : Option ((Int × Int) × (Int × Int))) from hepx]
      rw [hbad] at hok
      simp [ARes.isOk] at hok
    | some pr =>
      obtain ⟨⟨etx, ety⟩, cx, cy⟩ := pr
      have hB1epx : B1.ep = some ((etx, ety), (cx, cy)) := hepx
      by_cases hmatch : etx = mv.tx ∧ ety = mv.ty
      swap
      · have hbad : b.applyMove mv = .err "EN PASSANT destination mismatch." B1 := by
          unfold Board.applyMove
          rw [hsrc]
          simp only [hfx, htx, not_true, if_false]
          rw [h1]
          simp only [ARes.andThen]
          simp only [hepb, if_true]
          rw [hB1epx]
          simp [hmatch]
        rw [hbad] at hok
        simp [ARes.isOk] at hok
      obtain ⟨he1, he2⟩ := hmatch
      subst he1
      subst he2
      by_cases hcin : b.inB cx cy = true
      swap
      · have hbad : b.applyMove mv = .err oobMsg B1 := by
          unfold Board.applyMove
          rw [hsrc]
          simp only [hfx, htx, not_true, if_false]
          rw [h1]
          simp only [ARes.andThen]
          simp only [hepb, if_true]
          rw [hB1epx]
          simp only [eq_self_iff_true, and_self, not_true, if_false]
          rw [if_pos (show ¬ B1.inB cx cy = true from hcin)]
        rw [hbad] at hok
        simp [ARes.isOk] at hok
      cases hvic : b.cellAt cx cy with
      | none =>
        have hbad : b.applyMove mv = .err "Invalid EN PASSANT victim square." B1 := by
          unfold Board.applyMove
          rw [hsrc]
          simp only [hfx, htx, not_true, if_false]
          rw [h1]
          simp only [ARes.andThen]
          simp only [hepb, if_true]
          rw [hB1epx]
          simp only [eq_self_iff_true, and_self, not_true, if_false]
          have hB1cin : B1.inB cx cy = true := hcin
          simp only [hB1cin, not_true, if_false]
          rw [show B1.cellAt cx cy = (none : Option Piece) from hvic]
        rw [hbad] at hok
        simp [ARes.isOk] at hok
      | some v =>
        have hvr : v.isRoyal = false := hnr _ v hvic
        have hB1vic : B1.cellAt cx cy = some v := hvic
        by_cases hvc : v.color = sp.color
        · have hbad : b.applyMove mv = .err "Invalid EN PASSANT victim square." B1 := by
            unfold Board.applyMove
            rw [hsrc]
            simp only [hfx, htx, not_true, if_false]
            rw [h1]
            simp only [ARes.andThen]
            simp only [hepb, if_true]
            rw [hB1epx]
            simp only [eq_self_iff_true, and_self, not_true, if_false]
            have hB1cin : B1.inB cx cy = true := hcin
            simp only [hB1cin, not_true, if_false]
            rw [hB1vic]
            simp only [if_pos hvc]
          rw [hbad] at hok
          simp [ARes.isOk] at hok
        cases hgetv : dget b.pieces v.color with
        | none =>
          have hB1getv : dget B1.pieces v.color = none := by
            show dget (dset b.pieces sp.color (ls.eraseP m)) v.color = none
            rw [dget_dset_ne _ _ _ _ hvc]
            exact hgetv
          have hirv : B1.indexRemove cx cy = .err "KeyError: _pieces color" B1 := by
            simp only [Board.indexRemove, hB1vic, hB1getv]
          have hbad : b.applyMove mv = .err "KeyError: _pieces color" B1 := by
            unfold Board.applyMove
            rw [hsrc]
            simp only [hfx, htx, not_true, if_false]
            rw [h1]
            simp only [ARes.andThen]
            simp only [hepb, if_true]
            rw [hB1epx]
            simp only [eq_self_iff_true, and_self, not_true, if_false]
            have hB1cin : B1.inB cx cy = true := hcin
            simp only [hB1cin, not_true, if_false]
            rw [hB1vic]
            simp only [if_neg hvc]
            rw [hirv]
          rw [hbad] at hok
          simp [ARes.isOk] at hok
        | some lv =>
          obtain ⟨b₁, happ, hw, hh, hgr, hcs, hcv, hco, hr, hepr⟩ :=
            applyMove_char_C b mv sp v cx cy ls lv hfx htx hsrc hspr hepb hepx hcin hvic hvr hvc hdst hget hgetv
          rw [happ]
          simp only [ARes.boardOf]
          exact good_after_C b b₁ mv sp v cx cy ls lv hnr hroy hidx hsrc hspr hvic hvc hdst hget hgetv hgr hcs hcv hco hr

/-- The White Knight allocated second in the en-passant scenario. -/
def pNw1 : Piece := { uid := 1, cls := .knight, kind := "N", color := "w", isRoyal := false }

/-- Every board reachable by successful `put`/`clear`/`apply_move` calls
(with empty en-passant destinations) satisfies the induction invariant. -/
theorem reachedOK_good (b : Board) (h : ReachedOK b) : Good b := by
  induction h with
  | init w h => exact good_init w h
  | putStep x y k c hr hok ih => exact good_put _ x y k c ih hok
  | clearStep x y hr hok ih => exact good_clear _ x y ih hok
  | applyStep mv hr hepc hok ih => exact good_apply _ mv ih hepc hok

/-- The induction invariant implies the two exactness properties of the
claim. -/
theorem good_exact (b : Board) (hg : Good b) : IndexExact b ∧ RoyalExact b := by
  obtain ⟨hnr, hroy, hidx⟩ := hg
  refine ⟨hidx, ?_⟩
  intro c bk hbk
  refine ⟨[], ?_, List.nodup_nil, ?_⟩
  · rw [hroy] at hbk
    by_cases hc : c = "w"
    · subst hc
      simp [dget] at hbk
      exact hbk.symm
    · by_cases hb : c = "b"
      · subst hb
        simp [dget] at hbk
        exact hbk.symm
      · simp [dget, Ne.symm hc, Ne.symm hb] at hbk
  · intro q
    constructor
    · intro h
      cases h
    · rintro ⟨p, hp, hpr, _⟩
      rw [hnr q p hp] at hpr
      cases hpr

/-- Claim C2 (amended): after any sequence of **successful** `put`, `clear`
and `apply_move` calls in which every applied en-passant move has an empty
destination square, the piece index holds exactly one entry per living
piece with coordinates matching the grid, and each royal cache bucket is a
set holding exactly the royal squares of its color (here necessarily empty:
none of the three operations can create a royal piece).  The restrictions
are necessary: a *failed* `apply_move` corrupts the index before raising,
and a *successful* en-passant capture onto an occupied destination leaves
the overwritten occupant indexed — the counterexample. -/
theorem c2_index_royal_exact_amended (b : Board) (h : ReachedOK b) :
    IndexExact b ∧ RoyalExact b :=
  good_exact b (reachedOK_good b h)

/-- Counterexample to claim C2 as stated: the en-passant capture of the
`c3cBoard` scenario is a successful `apply_move` in a pure
`put`/`apply_move` sequence, yet afterwards the white bucket still indexes
the Knight at (2,3) while the grid square holds the capturing Queen. -/
theorem c2_successful_ep_corrupts_index :
    (c3cBoard.applyMove c3cMove).isOk = true ∧
    ¬ IndexExact (c3cBoard.applyMove c3cMove).boardOf := by
  constructor
  · decide
  · intro hidx
    have hget : dget (c3cBoard.applyMove c3cMove).boardOf.pieces "w"
        = some ((c3cBoard.applyMove c3cMove).boardOf.bucketOr "w") := by decide
    obtain ⟨h1, _, _⟩ := hidx "w" _ hget
    have h2 := (h1 (pNw1, 2, 3) (by decide)).1
    exact absurd h2 (by decide)

/-- Witness for the amended C2 theorem: the two-`put` board is reachable
and the theorem applies to it. -/
theorem c2_index_royal_exact_amended_witness :
    ReachedOK c4Board ∧ (IndexExact c4Board ∧ RoyalExact c4Board) := by
  have h0 : ReachedOK (Board.init 10 10) := ReachedOK.init 10 10
  have h1 := ReachedOK.putStep 0 0 "K" "w" h0 (by decide)
  have h2 := ReachedOK.putStep 1 1 "Q" "w" h1 (by decide)
  have he : ((((Board.init 10 10).put 0 0 "K" "w").boardOf).put 1 1 "Q" "w").boardOf = c4Board := rfl
  rw [he] at h2
  exact ⟨h2, c2_index_royal_exact_amended c4Board h2⟩

/-- An unregistered kind code makes the catalog raise (here: `none`). -/
theorem createPiece_unknown (k c : String) (u : Nat) (h : createPieceKnown k = false) :
    createPiece k c u = none := by
  simp only [createPieceKnown, Bool.or_eq_false_iff, beq_eq_false_iff_ne, ne_eq] at h
  obtain ⟨⟨⟨⟨⟨⟨⟨⟨⟨h1, h2⟩, h3⟩, h4⟩, h5⟩, h6⟩, h7⟩, h8⟩, h9⟩, h10⟩ := h
  simp [createPiece, h1, h2, h3, h4, h5, h6, h7, h8, h9, h10]

/-- Claim C7: when `apply_move` executes an otherwise-valid move whose
`promotion_to` names a kind the catalog cannot construct, the move still
completes without an error, the original moving piece (same object,
un-promoted) sits on the destination square, and the piece index holds its
destination entry. -/
theorem c7_unknown_promotion_soft_fails (b : Board) (mv : Move) (sp : Piece)
    (ls : List (Piece × Int × Int)) (pk : String)
    (hfx : b.inB mv.fx mv.fy = true) (htx : b.inB mv.tx mv.ty = true)
    (hsrc : b.cellAt mv.fx mv.fy = some sp) (hspr : sp.isRoyal = false)
    (hep : mv.is_en_passant = false) (hdst : b.cellAt mv.tx mv.ty = none)
    (hpc : dget b.pieces sp.color = some ls)
    (hpro : mv.promotion_to = some pk)
    (hunk : createPieceKnown pk = false) :
    ∃ b₁, b.applyMove mv = .ok b₁ ∧
      b₁.cellAt mv.tx mv.ty = some sp ∧
      (sp, mv.tx, mv.ty) ∈ b₁.bucketOr sp.color := by
  obtain ⟨b₁, happ, hw, hh, hgr, hcs, hco, hr, hepr⟩ :=
    applyMove_char_A b mv sp ls hfx htx hsrc hspr hep hdst hpc
  have hnone : promoCreate mv sp.color b.nextUid = none := by
    simp only [promoCreate, hpro]
    exact createPiece_unknown pk sp.color b.nextUid hunk
  have hso : simOccupant sp mv b.nextUid = sp := by
    simp [simOccupant, hnone]
  refine ⟨b₁, happ, ?_, ?_⟩
  · show b₁.grid (mv.tx, mv.ty) = some sp
    rw [hgr]
    simp [Function.update, hso]
  · unfold Board.bucketOr
    rw [hcs, hso]
    exact List.mem_append.2 (Or.inr (List.mem_singleton.2 rfl))

/-- Witness for C7: a pawn move carrying the unknown promotion code "Z". -/
theorem c7_unknown_promotion_soft_fails_witness :
    (c7Board.inB c7Move.fx c7Move.fy = true ∧ createPieceKnown "Z" = false) ∧
    (∃ b₁, c7Board.applyMove c7Move = .ok b₁ ∧
      b₁.cellAt c7Move.tx c7Move.ty = some pPw0 ∧
      (pPw0, c7Move.tx, c7Move.ty) ∈ b₁.bucketOr pPw0.color) :=
  ⟨⟨by decide, by decide⟩,
   c7_unknown_promotion_soft_fails c7Board c7Move pPw0 [(pPw0, 3, 3)] "Z"
     (by decide) (by decide) (by decide) (by decide) (by decide) (by decide)
     (by decide) (by decide) (by decide)⟩

/-- Claim C6: every move accepted by `Game.play` updates the half-move
clock to 0 exactly when the move captured — judged from the en-passant flag
or from a pre-apply destination occupant of the opposite color — or the
moved piece has a pawn-like kind (`"P"` or `"Δ"`); otherwise the clock is
incremented by one. -/
theorem c6_halfmove_clock (g : Game) (mv : Move) (g' : Game)
    (h : g.play mv = .ok g') :
    g'.halfmove_clock =
      if (mv.is_en_passant ||
          (match g.board.cellAt mv.tx mv.ty with
           | some d => decide (d.color ≠ mv.piece.color)
           | none => false) ||
          pawnLikeKind mv.piece.kind) = true
      then 0 else g.halfmove_clock + 1 := by
  unfold Game.play at h
  by_cases htx : g.board.inB mv.tx mv.ty = true
  swap
  · rw [if_pos htx] at h
    exact GRes.noConfusion h
  rw [if_neg (fun hh => hh htx)] at h
  cases happ : g.board.applyMove mv with
  | err m bb =>
    rw [happ] at h
    exact GRes.noConfusion h
  | ok bb =>
    rw [happ] at h
    injection h with h2
    rw [← h2]
    try rfl

/-- Witness for C6: a quiet king step increments the clock. -/
theorem c6_halfmove_clock_witness :
    (c6Game.play c6Move = .ok ((c6Game.play c6Move).gameOf)) ∧
    ((c6Game.play c6Move).gameOf.halfmove_clock =
      if (c6Move.is_en_passant ||
          (match c6Game.board.cellAt c6Move.tx c6Move.ty with
           | some d => decide (d.color ≠ c6Move.piece.color)
           | none => false) ||
          pawnLikeKind c6Move.piece.kind) = true
      then 0 else c6Game.halfmove_clock + 1) :=
  ⟨rfl, c6_halfmove_clock c6Game c6Move _ rfl⟩

/-- `Char.ofNat` round-trips on valid scalar values. -/
theorem toNat_ofNat_valid (n : Nat) (h : n.isValidChar) : (Char.ofNat n).toNat = n := by
  unfold Char.ofNat
  rw [dif_pos h]
  unfold Char.ofNatAux Char.toNat
  rfl

/-- Code points below 256 are valid scalar values. -/
theorem validChar_small (n : Nat) (h : n < 256) : n.isValidChar := by
  unfold Nat.isValidChar
  left
  omega

/-- `Char.ofNat` round-trips below 256. -/
theorem toNat_ofNat_small (n : Nat) (h : n < 256) : (Char.ofNat n).toNat = n :=
  toNat_ofNat_valid n (validChar_small n h)

/-- Code point of a decimal digit character. -/
theorem decDigitChar_toNat (d : Nat) (h : d < 10) : (decDigitChar d).toNat = 48 + d :=
  toNat_ofNat_small (48 + d) (by omega)

/-- Decimal digit characters satisfy `isDigit`. -/
theorem decDigitChar_isDigit (d : Nat) (h : d < 10) : (decDigitChar d).isDigit = true := by
  have ht := decDigitChar_toNat d h
  show (decide ('0' ≤ decDigitChar d) && decide (decDigitChar d ≤ '9')) = true
  rw [Bool.and_eq_true, decide_eq_true_iff, decide_eq_true_iff]
  have h0 : ('0' : Char).toNat = 48 := by decide
  have h9 : ('9' : Char).toNat = 57 := by decide
  constructor
  · show ('0' : Char).toNat ≤ (decDigitChar d).toNat
    omega
  · show (decDigitChar d).toNat ≤ ('9' : Char).toNat
    omega

/-- Every character of a rendered number is a decimal digit. -/
theorem natDigitsF_all_digit (f n : Nat) (h : n < f) :
    ∀ c ∈ natDigitsF f n, c.isDigit = true := by
  induction f generalizing n with
  | zero => omega
  | succ f ih =>
    intro c hc
    unfold natDigitsF at hc
    by_cases hn : n < 10
    · rw [if_pos hn] at hc
      rw [List.mem_singleton.1 hc]
      exact decDigitChar_isDigit n hn
    · rw [if_neg hn] at hc
      rcases List.mem_append.1 hc with h1 | h1
      · exact ih (n / 10) (by omega) c h1
      · rw [List.mem_singleton.1 h1]
        exact decDigitChar_isDigit (n % 10) (Nat.mod_lt n (by omega))

/-- A rendered number is never the empty string. -/
theorem natDigitsF_ne_nil (f n : Nat) (h : n < f) : natDigitsF f n ≠ [] := by
  cases f with
  | zero => omega
  | succ f =>
    unfold natDigitsF
    by_cases hn : n < 10
    · rw [if_pos hn]
      exact fun hx => List.noConfusion hx
    · rw [if_neg hn]
      intro hx
      rcases List.append_eq_nil.1 hx with ⟨_, h2⟩
      exact List.noConfusion h2

/-- Folding one more digit. -/
theorem decValue_append (l : List Char) (c : Char) :
    decValue (l ++ [c]) = 10 * decValue l + (c.toNat - 48) := by
  unfold decValue
  rw [List.foldl_append]
  rfl

/-- Evaluating the rendered digits gives the number back. -/
theorem decValue_natDigitsF (f n : Nat) (h : n < f) :
    decValue (natDigitsF f n) = n := by
  induction f generalizing n with
  | zero => omega
  | succ f ih =>
    unfold natDigitsF
    by_cases hn : n < 10
    · rw [if_pos hn]
      show 10 * 0 + ((decDigitChar n).toNat - 48) = n
      rw [decDigitChar_toNat n hn]
      omega
    · rw [if_neg hn]
      rw [decValue_append, ih (n / 10) (by omega)]
      rw [decDigitChar_toNat (n % 10) (Nat.mod_lt n (by omega))]
      omega

/-- Parsing the rendered digits gives the number back. -/
theorem parseDecDigits_natDigitsF (f n : Nat) (h : n < f) :
    parseDecDigits (natDigitsF f n) = some n := by
  unfold parseDecDigits
  rw [if_pos ⟨natDigitsF_ne_nil f n h, List.all_eq_true.2 (natDigitsF_all_digit f n h)⟩]
  rw [decValue_natDigitsF f n h]

/-- Digit characters are not whitespace. -/
theorem digit_not_space (c : Char) (h : c.isDigit = true) : pySpaceChar c = false := by
  have hb : (decide ('0' <= c) && decide (c <= '9')) = true := h
  rw [Bool.and_eq_true, decide_eq_true_iff, decide_eq_true_iff] at hb
  have h1 : ('0' : Char).toNat <= c.toNat := hb.1
  have h2 : c.toNat <= ('9' : Char).toNat := hb.2
  have h0 : ('0' : Char).toNat = 48 := by decide
  have h9 : ('9' : Char).toNat = 57 := by decide
  unfold pySpaceChar
  simp only [Bool.or_eq_false_iff, decide_eq_false_iff_not]
  refine ⟨⟨⟨?_, ?_⟩, ?_⟩, ?_⟩ <;>
    · intro hc
      have h3 := congrArg Char.toNat hc
      rw [h3] at h1 h2
      revert h1 h2
      decide

/-- Characters at or above code point 48 are not whitespace. -/
theorem not_space_ge48 (c : Char) (h : 48 ≤ c.toNat) : pySpaceChar c = false := by
  unfold pySpaceChar
  simp only [Bool.or_eq_false_iff, decide_eq_false_iff_not]
  refine ⟨⟨⟨?_, ?_⟩, ?_⟩, ?_⟩ <;>
    · intro hc
      have h3 := congrArg Char.toNat hc
      rw [h3] at h
      revert h
      decide

/-- `strip` is the identity on whitespace-free strings. -/
theorem pyStripList_id (l : List Char) (h : ∀ c ∈ l, pySpaceChar c = false) :
    pyStripList l = l := by
  unfold pyStripList
  cases l with
  | nil => rfl
  | cons c t =>
    rw [List.dropWhile_cons]
    rw [h c (List.mem_cons_self _ _)]
    simp only [Bool.false_eq_true, if_false]
    cases hrev : (c :: t).reverse with
    | nil => exact absurd hrev (by simp)
    | cons d r =>
      rw [List.dropWhile_cons]
      have hd : d ∈ c :: t := by
        rw [← List.mem_reverse, hrev]
        exact List.mem_cons_self _ _
      rw [h d hd]
      simp only [Bool.false_eq_true, if_false]
      rw [← hrev, List.reverse_reverse]

/-- Mapping a function that fixes every element is the identity. -/
theorem map_id_of {α : Type} (l : List α) (f : α → α) (h : ∀ c ∈ l, f c = c) :
    l.map f = l := by
  induction l with
  | nil => rfl
  | cons c t ih =>
    rw [List.map_cons, h c (List.mem_cons_self _ _), ih (fun d hd => h d (List.mem_cons_of_mem _ hd))]

/-- `upper` fixes characters below the lowercase range. -/
theorem pyUpperChar_id (c : Char) (h : c.toNat < 97) : pyUpperChar c = c := by
  unfold pyUpperChar
  rw [if_neg, if_neg]
  · intro hc
    have h3 := congrArg Char.toNat hc
    rw [h3] at h
    revert h
    decide
  · rintro ⟨ha, _⟩
    have h97 : ('a' : Char).toNat = 97 := by decide
    have : ('a' : Char).toNat ≤ c.toNat := ha
    omega

/-- `int(...)` on a pure digit string returns its decimal value. -/
theorem pyInt_digits (l : List Char) (hne : l ≠ []) (hd : ∀ c ∈ l, c.isDigit = true) :
    pyInt (String.mk l) = some ((decValue l : Nat) : Int) := by
  unfold pyInt
  have hs : pyStripList (String.mk l).data = l :=
    pyStripList_id l (fun c hc => digit_not_space c (hd c hc))
  rw [hs]
  have hparse : parseDecDigits l = some (decValue l) := by
    unfold parseDecDigits
    rw [if_pos ⟨hne, List.all_eq_true.2 hd⟩]
  cases l with
  | nil => exact absurd rfl hne
  | cons c t =>
    have hc : c.isDigit = true := hd c (List.mem_cons_self _ _)
    split
    · rename_i rest heq
      injection heq with h1 h2
      rw [h1] at hc
      exact absurd hc (by decide)
    · rename_i rest heq
      injection heq with h1 h2
      rw [h1] at hc
      exact absurd hc (by decide)
    · rw [hparse]
      rfl

/-- Claim C8: for every in-bounds coordinate pair on an `h` by `w` board
with `w ≤ 26`, converting to display notation with `to_alg` and parsing the
result back with `from_alg` is the identity. -/
theorem c8_to_from_alg_roundtrip (x y : Int) (h w : Nat)
    (hx : 0 ≤ x) (hx2 : x < (h : Int)) (hy : 0 ≤ y) (hy2 : y < (w : Int))
    (hw : w ≤ 26) :
    (toAlg x y h w).bind (fun s => fromAlg s h w) = .ok (x, y) := by
  unfold toAlg
  rw [if_neg (show ¬¬(0 ≤ x ∧ x < (h : Int) ∧ 0 ≤ y ∧ y < (w : Int)) from
        fun hn => hn ⟨hx, hx2, hy, hy2⟩)]
  rw [if_neg (show ¬ (26 < w) from by omega)]
  show fromAlg (String.mk [Char.ofNat (65 + y.toNat)] ++ pyStrInt ((h : Int) - x)) h w = .ok (x, y)
  set a : Char := Char.ofNat (65 + y.toNat) with ha
  have hyn : y.toNat ≤ 25 := by omega
  have haT : a.toNat = 65 + y.toNat := toNat_ofNat_small _ (by omega)
  set r : Nat := ((h : Int) - x).toNat with hr
  have hr1 : 1 ≤ r := by omega
  have hrh : r ≤ h := by omega
  have hstr : pyStrInt ((h : Int) - x) = pyStrNat r := by
    unfold pyStrInt
    rw [if_neg (show ¬ ((h : Int) - x < 0) from by omega)]
  rw [hstr]
  set D : List Char := natDigitsF (r + 1) r with hD
  have hdd : ∀ c ∈ D, c.isDigit = true := natDigitsF_all_digit (r + 1) r (by omega)
  have hdne : D ≠ [] := natDigitsF_ne_nil (r + 1) r (by omega)
  have hdv : decValue D = r := decValue_natDigitsF (r + 1) r (by omega)
  have hdata : (String.mk [a] ++ pyStrNat r).data = a :: D := rfl
  unfold fromAlg
  rw [if_neg (show ¬ (26 < w) from by omega)]
  rw [hdata]
  have hstrip : pyStripList (a :: D) = a :: D := by
    refine pyStripList_id _ ?_
    intro c hc
    rcases List.mem_cons.1 hc with h1 | h1
    · subst h1
      exact not_space_ge48 a (by omega)
    · exact digit_not_space c (hdd c h1)
  rw [hstrip]
  have hmap : (a :: D).map pyUpperChar = a :: D := by
    refine map_id_of _ _ ?_
    intro c hc
    rcases List.mem_cons.1 hc with h1 | h1
    · subst h1
      exact pyUpperChar_id a (by omega)
    · refine pyUpperChar_id c ?_
      have := hdd c h1
      have hb : (decide ('0' ≤ c) && decide (c ≤ '9')) = true := this
      rw [Bool.and_eq_true, decide_eq_true_iff, decide_eq_true_iff] at hb
      have h2 : c.toNat ≤ ('9' : Char).toNat := hb.2
      have h9 : ('9' : Char).toNat = 57 := by decide
      omega
  rw [hmap]
  cases hDc : D with
  | nil => exact absurd hDc hdne
  | cons d0 D' =>
    have halpha : a.isAlpha = true := by
      have hup : a.isUpper = true := by
        show (decide ('A' ≤ a) && decide (a ≤ 'Z')) = true
        rw [Bool.and_eq_true, decide_eq_true_iff, decide_eq_true_iff]
        have hA : ('A' : Char).toNat = 65 := by decide
        have hZ : ('Z' : Char).toNat = 90 := by decide
        constructor
        · show ('A' : Char).toNat ≤ a.toNat
          omega
        · show a.toNat ≤ ('Z' : Char).toNat
          omega
      show (a.isUpper || a.isLower) = true
      rw [hup]
      rfl
    split
    · rename_i heq
      simp at heq
    · rename_i z heq
      simp at heq
    rename_i fileCh rest heq
    injection heq with h1 h2
    subst h1
    subst h2
    rw [if_neg (show ¬ ¬ a.isAlpha = true from fun hn => hn halpha)]
    have hAa : ('A' : Char) ≤ a := by
      show ('A' : Char).toNat ≤ a.toNat
      have hA : ('A' : Char).toNat = 65 := by decide
      omega
    have hZa : a ≤ ('Z' : Char) := by
      show a.toNat ≤ ('Z' : Char).toNat
      have hZ : ('Z' : Char).toNat = 90 := by decide
      omega
    rw [if_neg (show ¬ ¬ ('A' ≤ a ∧ a ≤ 'Z') from fun hn => hn ⟨hAa, hZa⟩)]
    have hpy : pyInt (String.mk (d0 :: D')) = some ((r : Nat) : Int) := by
      rw [← hDc, pyInt_digits D hdne hdd, hdv]
    rw [hpy]
    simp only []
    rw [if_neg (show ¬ ¬ (1 ≤ ((r : Nat) : Int) ∧ ((r : Nat) : Int) ≤ (h : Nat)) from
          fun hn => hn ⟨by omega, by omega⟩)]
    have hy' : (a.toNat : Int) - 65 = y := by omega
    rw [if_neg (show ¬ ¬ (0 ≤ (a.toNat : Int) - 65 ∧ (a.toNat : Int) - 65 < (w : Int)) from
          fun hn => hn ⟨by omega, by omega⟩)]
    rw [show ((h : Int) - ((r : Nat) : Int)) = x from by omega, hy']

/-- Witness for C8 at (9,0) on the default 10 by 10 board. -/
theorem c8_to_from_alg_roundtrip_witness :
    (0 ≤ (9 : Int) ∧ (9 : Int) < ((10 : Nat) : Int) ∧ 0 ≤ (0 : Int) ∧
      (0 : Int) < ((10 : Nat) : Int) ∧ (10 : Nat) ≤ 26) ∧
    (toAlg 9 0 10 10).bind (fun s => fromAlg s 10 10) = .ok (9, 0) :=
  ⟨⟨by decide, by decide, by decide, by decide, by decide⟩,
   c8_to_from_alg_roundtrip 9 0 10 10 (by decide) (by decide) (by decide) (by decide) (by decide)⟩
